import Mathlib

set_option linter.unusedSectionVars false

/-!
Verification model of the `oy3o/singleflight` Go package (`singleflight.go`).

The package implements the call-coalescing ("singleflight") pattern:

```
type Group[K comparable, V any] struct {
    calls map[K]*call[V]
    mu    sync.Mutex
    pool  sync.Pool
}

type call[V any] struct {
    val V
    err error
    panicErr *panicError
    done chan struct{}   // lazily initialized; nil for non-shared calls
    dups int
    forgotten bool
}
```

We give a shallow embedding as an interleaving small-step transition system.
Every lock-delimited section of `Group.Do`, `Group.doCall` and `Group.Forget`
becomes one atomic step (the code holds `g.mu` for the whole section, so these
sections are serialized in any real execution); the unlocked portions (the
follower's blocking `select`, the synchronous run of `fn`, the leader's
return/recycle block) become their own steps, so arbitrary interleavings of
concurrent `Do`/`Forget` calls are covered.

Go pointers `*call[V]` are modelled as indices (`cid`) into a heap
`Nat → CallRec`; `sync.Pool` as a list of such indices; the `done` channel as
two booleans (`done` = the channel has been created, `closed` = it has been
closed); a `context.Context` cancellation as a nondeterministically enabled
step for a waiting follower (covering both an early cancellation and Go's
random `select` choice when both channel reads are ready).

One ghost field is added that has no Go counterpart and is never read by any
transition: `epoch`, bumped each time a record is handed to a new leader.  It
gives specification-level identity to a call instance across `sync.Pool`
reuse of the same `call` object.
-/

namespace Singleflight

/-- Outcome of the opaque user function `fn`: either a normal return
`(v, err)` or a panic with payload `p`; `s` is the stack snapshot that
`debug.Stack()` would capture if the panic is recovered. -/
inductive FnRes (V E P S : Type) : Type
  | ok (v : V) (e : Option E)
  | panics (p : P) (s : S)

/-- The `call[V]` struct.  `done`/`closed` model the lazily created done
channel (`done` = channel non-nil, `closed` = channel closed).  `panicErr`
models `*panicError` as the pair (panic value, stack snapshot).  `epoch` is
ghost (see module docstring). -/
structure CallRec (V E P S : Type) : Type where
  val : V
  err : Option E
  panicErr : Option (P × S)
  done : Bool
  closed : Bool
  dups : Nat
  forgotten : Bool
  epoch : Nat

/-- The zero `call[V]` value, as produced by `new(call[V])`. -/
def defRec {V E P S : Type} [Inhabited V] : CallRec V E P S :=
  ⟨default, none, none, false, false, 0, false, 0⟩

/-- A client operation: one `Do(ctx, key, fn)` call or one `Forget(key)`
call.  For a `Do`, the opaque `fn` is represented by the outcome it will
produce when invoked. -/
inductive Op (K V E P S : Type) : Type
  | doOp (k : K) (fn : FnRes V E P S)
  | forgetOp (k : K)

/-- Which `return`/`panic` statement of `Do` produced a thread's result, and
on which call instance (record id + ghost epoch).  `leaderSrc` is the
leader's final return/panic; `followerObsSrc` is the follower branch that saw
the done channel close; `followerCancelSrc` is the follower branch that saw
`ctx.Done()`. -/
inductive RetSrc : Type
  | leaderSrc (cid ep : Nat)
  | followerObsSrc (cid ep : Nat)
  | followerCancelSrc (cid ep : Nat)

/-- The record id a `RetSrc` refers to. -/
def RetSrc.cid : RetSrc → Nat
  | .leaderSrc c _ => c
  | .followerObsSrc c _ => c
  | .followerCancelSrc c _ => c

/-- Control position of one `Do`/`Forget` call.

* `start`: before the first `g.mu.Lock()` section.
* `followerWait cid ep`: inside the follower's `select`, waiting on record
  `cid` (joined at ghost epoch `ep`).
* `leaderRun cid ep`: leader between inserting `calls[key] = c` and the end
  of `fn` (the body of `doCall` before the deferred function runs).
* `leaderCleanup cid ep`: leader about to run the locked deferred section of
  `doCall` (close `done`, conditional `delete`).
* `leaderFinish cid ep`: leader back in `Do`, about to run the return/recycle
  block (lines reading `c.val`, `c.err`, the pool decision, the re-panic).
* `doneRet v shared err src` / `donePanic pe src`: the call returned
  `(v, shared, err)` / re-raised panic descriptor `pe`, via return path
  `src`.
* `forgetDone`: a completed `Forget`. -/
inductive Phase (V E P S : Type) : Type
  | start
  | followerWait (cid ep : Nat)
  | leaderRun (cid ep : Nat)
  | leaderCleanup (cid ep : Nat)
  | leaderFinish (cid ep : Nat)
  | doneRet (v : V) (shared : Bool) (err : Option E) (src : RetSrc)
  | donePanic (pe : P × S) (src : RetSrc)
  | forgetDone

/-- One client thread: its (static) operation, the error its own context
would report when cancelled (`ctx.Err()`), and its control position. -/
structure Thread (K V E P S : Type) : Type where
  op : Op K V E P S
  cerr : E
  phase : Phase V E P S

/-- The `Group[K, V]` state.  `calls = none` models a nil Go map (the
zero-value `Group`); `pool` is the list of record ids currently inside
`sync.Pool`; `heap`/`nextId` allocate record ids. -/
structure GState (K V E P S : Type) : Type where
  calls : Option (K → Option Nat)
  heap : Nat → CallRec V E P S
  pool : List Nat
  nextId : Nat

/-- A configuration: shared `Group` state plus every client thread
(indexed by `Nat`; indices without a thread are `none`). -/
structure Config (K V E P S : Type) : Type where
  gs : GState K V E P S
  threads : Nat → Option (Thread K V E P S)

/-- Lookup in the (possibly nil) `calls` map: reading a nil Go map yields
the zero value. -/
def mapOf {K V E P S : Type} (gs : GState K V E P S) : K → Option Nat :=
  gs.calls.getD (fun _ => none)

/-- Pointwise map update (`m[k] = v` / `delete(m, k)` with `v = none`). -/
def mset {K : Type} [DecidableEq K] (m : K → Option Nat) (k : K) (v : Option Nat) :
    K → Option Nat :=
  fun k' => if k' = k then v else m k'

/-- Heap update. -/
def hset {V E P S : Type} (H : Nat → CallRec V E P S) (i : Nat) (r : CallRec V E P S) :
    Nat → CallRec V E P S :=
  fun j => if j = i then r else H j

/-- Thread-table update. -/
def tset {K V E P S : Type} (T : Nat → Option (Thread K V E P S)) (i : Nat)
    (t : Thread K V E P S) : Nat → Option (Thread K V E P S) :=
  fun j => if j = i then some t else T j

/-- Effect of the follower-join section on the record:
`c.dups++; if c.done == nil { c.done = make(chan struct{}) }`. -/
def joinRec {V E P S : Type} (r : CallRec V E P S) : CallRec V E P S :=
  if r.done then { r with dups := r.dups + 1 }
  else { r with dups := r.dups + 1, done := true }

/-- The leader's reset of a record it just obtained:
`c.dups = 0; c.forgotten = false; c.panicErr = nil` (the code relies on
`c.done` being nil already).  The ghost `epoch` is bumped here, marking a new
call instance. -/
def resetRec {V E P S : Type} (r : CallRec V E P S) : CallRec V E P S :=
  { r with dups := 0, forgotten := false, panicErr := none, epoch := r.epoch + 1 }

/-- Transition labels (which thread moved, and for the record-related events
also which call instance was involved). -/
inductive Lab : Type
  | joinL (i cid ep : Nat)
  | leadL (i cid : Nat)
  | invokeL (i : Nat)
  | cleanupL (i : Nat)
  | finishL (i : Nat)
  | observeL (i : Nat)
  | cancelL (i : Nat)
  | forgetL (i : Nat)
deriving DecidableEq

section Succ

variable {K V E P S : Type} [DecidableEq K] [Inhabited V]

/-- Successor of the follower-join section (`Do`, first locked section, entry
found): increment `dups`, lazily create the done channel, start waiting. -/
def joinCfg (c : Config K V E P S) (i : Nat) (k : K) (fn : FnRes V E P S) (ce : E)
    (cid : Nat) : Config K V E P S :=
  ⟨{ c.gs with heap := hset c.gs.heap cid (joinRec (c.gs.heap cid)) },
   tset c.threads i ⟨.doOp k fn, ce, .followerWait cid (c.gs.heap cid).epoch⟩⟩

/-- Successor of the leader-start section when `pool.Get()` returns a pooled
record `cid`: initialize the map if nil, reset the record, insert it. -/
def leadPoolCfg (c : Config K V E P S) (i : Nat) (k : K) (fn : FnRes V E P S) (ce : E)
    (cid : Nat) (rest : List Nat) : Config K V E P S :=
  ⟨⟨some (mset (mapOf c.gs) k (some cid)),
    hset c.gs.heap cid (resetRec (c.gs.heap cid)),
    rest, c.gs.nextId⟩,
   tset c.threads i ⟨.doOp k fn, ce, .leaderRun cid ((c.gs.heap cid).epoch + 1)⟩⟩

/-- Successor of the leader-start section when the pool is empty: a brand-new
zero record is allocated (`pool.New` when the Group came from `NewGroup`, or
the explicit `c = new(call[V])` fallback on a zero-value Group — both produce
`new(call[V])`), then the same reset lines run. -/
def leadFreshCfg (c : Config K V E P S) (i : Nat) (k : K) (fn : FnRes V E P S)
    (ce : E) : Config K V E P S :=
  ⟨⟨some (mset (mapOf c.gs) k (some c.gs.nextId)),
    hset c.gs.heap c.gs.nextId (resetRec defRec),
    c.gs.pool, c.gs.nextId + 1⟩,
   tset c.threads i ⟨.doOp k fn, ce, .leaderRun c.gs.nextId 1⟩⟩

/-- Successor of the leader running `fn` to a normal return:
`c.val, c.err = fn(ctx)` in `doCall`. -/
def invokeOkCfg (c : Config K V E P S) (i : Nat) (k : K) (v : V) (e : Option E)
    (ce : E) (cid ep : Nat) : Config K V E P S :=
  ⟨{ c.gs with heap := hset c.gs.heap cid { c.gs.heap cid with val := v, err := e } },
   tset c.threads i ⟨.doOp k (.ok v e), ce, .leaderCleanup cid ep⟩⟩

/-- Successor of the leader running `fn` to a panic: the deferred `recover`
in `doCall` captures `c.panicErr = &panicError{value: r, stack: debug.Stack()}`;
`c.val`/`c.err` are not written. -/
def invokePanicCfg (c : Config K V E P S) (i : Nat) (k : K) (p : P) (s : S)
    (ce : E) (cid ep : Nat) : Config K V E P S :=
  ⟨{ c.gs with heap := hset c.gs.heap cid { c.gs.heap cid with panicErr := some (p, s) } },
   tset c.threads i ⟨.doOp k (.panics p s), ce, .leaderCleanup cid ep⟩⟩

/-- Successor of the locked deferred section of `doCall`:
`if c.done != nil { close(c.done) }; if !c.forgotten { delete(g.calls, key) }`. -/
def cleanupCfg (c : Config K V E P S) (i : Nat) (k : K) (fn : FnRes V E P S)
    (ce : E) (cid ep : Nat) : Config K V E P S :=
  ⟨⟨(if (c.gs.heap cid).forgotten then c.gs.calls
     else c.gs.calls.map (fun m => mset m k none)),
    hset c.gs.heap cid
      (if (c.gs.heap cid).done then { c.gs.heap cid with closed := true }
       else c.gs.heap cid),
    c.gs.pool, c.gs.nextId⟩,
   tset c.threads i ⟨.doOp k fn, ce, .leaderFinish cid ep⟩⟩

/-- Successor of the leader's return/recycle block in `Do`: read `c.val`,
`c.err`; if no panic, no dups and no channel, zero `c.val`/`c.err` and
`pool.Put(c)`; then re-raise the panic or return `(val, c.dups > 0, err)`. -/
def finishCfg (c : Config K V E P S) (i : Nat) (k : K) (fn : FnRes V E P S)
    (ce : E) (cid ep : Nat) : Config K V E P S :=
  ⟨(if (c.gs.heap cid).panicErr.isNone ∧ (c.gs.heap cid).dups = 0 ∧
       (c.gs.heap cid).done = false then
      ⟨c.gs.calls,
       hset c.gs.heap cid { c.gs.heap cid with val := default, err := none },
       cid :: c.gs.pool, c.gs.nextId⟩
    else c.gs),
   tset c.threads i ⟨.doOp k fn, ce,
     (match (c.gs.heap cid).panicErr with
      | some pe => .donePanic pe (.leaderSrc cid ep)
      | none => .doneRet (c.gs.heap cid).val (decide (0 < (c.gs.heap cid).dups))
          (c.gs.heap cid).err (.leaderSrc cid ep))⟩⟩

/-- Successor of a follower whose `select` saw the done channel closed:
re-raise `c.panicErr` if set, else return `(c.val, true, c.err)`. -/
def observeCfg (c : Config K V E P S) (i : Nat) (k : K) (fn : FnRes V E P S)
    (ce : E) (cid ep : Nat) : Config K V E P S :=
  ⟨c.gs,
   tset c.threads i ⟨.doOp k fn, ce,
     (match (c.gs.heap cid).panicErr with
      | some pe => .donePanic pe (.followerObsSrc cid ep)
      | none => .doneRet (c.gs.heap cid).val true (c.gs.heap cid).err
          (.followerObsSrc cid ep))⟩⟩

/-- Successor of a follower whose `select` saw `ctx.Done()`:
return `(*new(V), true, ctx.Err())`.  The shared state is untouched. -/
def cancelCfg (c : Config K V E P S) (i : Nat) (k : K) (fn : FnRes V E P S)
    (ce : E) (cid ep : Nat) : Config K V E P S :=
  ⟨c.gs,
   tset c.threads i ⟨.doOp k fn, ce,
     .doneRet default true (some ce) (.followerCancelSrc cid ep)⟩⟩

/-- Successor of `Forget(key)` when an entry exists: mark it forgotten and
delete the entry. -/
def forgetHitCfg (c : Config K V E P S) (i : Nat) (k : K) (ce : E) (cid : Nat) :
    Config K V E P S :=
  ⟨⟨c.gs.calls.map (fun m => mset m k none),
    hset c.gs.heap cid { c.gs.heap cid with forgotten := true },
    c.gs.pool, c.gs.nextId⟩,
   tset c.threads i ⟨.forgetOp k, ce, .forgetDone⟩⟩

/-- Successor of `Forget(key)` when no entry exists: `delete` on the
(possibly nil) map is a no-op. -/
def forgetMissCfg (c : Config K V E P S) (i : Nat) (k : K) (ce : E) :
    Config K V E P S :=
  ⟨⟨c.gs.calls.map (fun m => mset m k none), c.gs.heap, c.gs.pool, c.gs.nextId⟩,
   tset c.threads i ⟨.forgetOp k, ce, .forgetDone⟩⟩

end Succ

section StepDef

variable {K V E P S : Type} [DecidableEq K] [Inhabited V]

/-- The interleaving step relation.  Each constructor is one of the atomic
sections described in the module docstring. -/
inductive Step : Config K V E P S → Lab → Config K V E P S → Prop
  | join (c : Config K V E P S) (i : Nat) (k : K) (fn : FnRes V E P S) (ce : E)
      (cid : Nat)
      (ht : c.threads i = some ⟨.doOp k fn, ce, .start⟩)
      (hm : mapOf c.gs k = some cid) :
      Step c (.joinL i cid (c.gs.heap cid).epoch) (joinCfg c i k fn ce cid)
  | leadPool (c : Config K V E P S) (i : Nat) (k : K) (fn : FnRes V E P S) (ce : E)
      (cid : Nat) (rest : List Nat)
      (ht : c.threads i = some ⟨.doOp k fn, ce, .start⟩)
      (hm : mapOf c.gs k = none)
      (hp : c.gs.pool = cid :: rest) :
      Step c (.leadL i cid) (leadPoolCfg c i k fn ce cid rest)
  | leadFresh (c : Config K V E P S) (i : Nat) (k : K) (fn : FnRes V E P S) (ce : E)
      (ht : c.threads i = some ⟨.doOp k fn, ce, .start⟩)
      (hm : mapOf c.gs k = none)
      (hp : c.gs.pool = []) :
      Step c (.leadL i c.gs.nextId) (leadFreshCfg c i k fn ce)
  | invokeOk (c : Config K V E P S) (i : Nat) (k : K) (v : V) (e : Option E) (ce : E)
      (cid ep : Nat)
      (ht : c.threads i = some ⟨.doOp k (.ok v e), ce, .leaderRun cid ep⟩) :
      Step c (.invokeL i) (invokeOkCfg c i k v e ce cid ep)
  | invokePanic (c : Config K V E P S) (i : Nat) (k : K) (p : P) (s : S) (ce : E)
      (cid ep : Nat)
      (ht : c.threads i = some ⟨.doOp k (.panics p s), ce, .leaderRun cid ep⟩) :
      Step c (.invokeL i) (invokePanicCfg c i k p s ce cid ep)
  | cleanup (c : Config K V E P S) (i : Nat) (k : K) (fn : FnRes V E P S) (ce : E)
      (cid ep : Nat)
      (ht : c.threads i = some ⟨.doOp k fn, ce, .leaderCleanup cid ep⟩) :
      Step c (.cleanupL i) (cleanupCfg c i k fn ce cid ep)
  | finish (c : Config K V E P S) (i : Nat) (k : K) (fn : FnRes V E P S) (ce : E)
      (cid ep : Nat)
      (ht : c.threads i = some ⟨.doOp k fn, ce, .leaderFinish cid ep⟩) :
      Step c (.finishL i) (finishCfg c i k fn ce cid ep)
  | observe (c : Config K V E P S) (i : Nat) (k : K) (fn : FnRes V E P S) (ce : E)
      (cid ep : Nat)
      (ht : c.threads i = some ⟨.doOp k fn, ce, .followerWait cid ep⟩)
      (hc : (c.gs.heap cid).closed = true) :
      Step c (.observeL i) (observeCfg c i k fn ce cid ep)
  | cancel (c : Config K V E P S) (i : Nat) (k : K) (fn : FnRes V E P S) (ce : E)
      (cid ep : Nat)
      (ht : c.threads i = some ⟨.doOp k fn, ce, .followerWait cid ep⟩) :
      Step c (.cancelL i) (cancelCfg c i k fn ce cid ep)
  | forgetHit (c : Config K V E P S) (i : Nat) (k : K) (ce : E) (cid : Nat)
      (ht : c.threads i = some ⟨.forgetOp k, ce, .start⟩)
      (hm : mapOf c.gs k = some cid) :
      Step c (.forgetL i) (forgetHitCfg c i k ce cid)
  | forgetMiss (c : Config K V E P S) (i : Nat) (k : K) (ce : E)
      (ht : c.threads i = some ⟨.forgetOp k, ce, .start⟩)
      (hm : mapOf c.gs k = none) :
      Step c (.forgetL i) (forgetMissCfg c i k ce)

/-- Finite executions, recording the label sequence. -/
inductive Trace : Config K V E P S → List Lab → Config K V E P S → Prop
  | refl (c : Config K V E P S) : Trace c [] c
  | snoc {c₀ : Config K V E P S} {ls : List Lab} {c₁ : Config K V E P S} {l : Lab}
      {c₂ : Config K V E P S} :
      Trace c₀ ls c₁ → Step c₁ l c₂ → Trace c₀ (ls ++ [l]) c₂

/-- Initial configuration for a batch of client operations.  `b = true`
models a Group made by `NewGroup` (map allocated); `b = false` models a
zero-value `Group` (nil map).  Either way no call is in flight, the pool is
empty, and every thread is at its first instruction. -/
def initConfig (b : Bool) (ops : List (Op K V E P S × E)) : Config K V E P S :=
  ⟨⟨(if b then some (fun _ => none) else none), (fun _ => defRec), [], 0⟩,
   fun i => (ops[i]?).map (fun oc => ⟨oc.1, oc.2, .start⟩)⟩

/-- Reachability from an initial configuration. -/
def Reaches (c₀ c : Config K V E P S) : Prop := ∃ ls, Trace c₀ ls c

end StepDef

section Preds

variable {K V E P S : Type}

/-- The record id a phase holds a live or past reference to, if any. -/
def Phase.refCid : Phase V E P S → Option Nat
  | .start => none
  | .forgetDone => none
  | .followerWait cid _ => some cid
  | .leaderRun cid _ => some cid
  | .leaderCleanup cid _ => some cid
  | .leaderFinish cid _ => some cid
  | .doneRet _ _ _ s => some s.cid
  | .donePanic _ s => some s.cid

/-- A still-running reference to record `cid`: a waiting follower or a
leader anywhere between insertion and return. -/
def LiveRef (φ : Phase V E P S) (cid : Nat) : Prop :=
  ∃ ep, φ = .followerWait cid ep ∨ φ = .leaderRun cid ep ∨
    φ = .leaderCleanup cid ep ∨ φ = .leaderFinish cid ep

/-- Thread `i` is the (still running) leader of call instance `(cid, ep)`. -/
def LiveOwn (c : Config K V E P S) (i cid ep : Nat) : Prop :=
  ∃ t, c.threads i = some t ∧ (t.phase = .leaderRun cid ep ∨
    t.phase = .leaderCleanup cid ep ∨ t.phase = .leaderFinish cid ep)

/-- Thread `i` is the leader of `(cid, ep)` under key `k` and has not yet run
its map-cleanup section. -/
def RCOwn (c : Config K V E P S) (i : Nat) (k : K) (cid ep : Nat) : Prop :=
  ∃ fn ce, c.threads i = some ⟨.doOp k fn, ce, .leaderRun cid ep⟩ ∨
    c.threads i = some ⟨.doOp k fn, ce, .leaderCleanup cid ep⟩

/-- Thread `i` completed (returned or re-panicked) as the leader of
`(cid, ep)`. -/
def DoneOwn (c : Config K V E P S) (i cid ep : Nat) : Prop :=
  ∃ t, c.threads i = some t ∧
    ((∃ v sh e, t.phase = .doneRet v sh e (.leaderSrc cid ep)) ∨
     (∃ pe, t.phase = .donePanic pe (.leaderSrc cid ep)))

/-- The record fields agree with the outcome of the `fn` its leader ran. -/
def OutMatch (fn : FnRes V E P S) (r : CallRec V E P S) : Prop :=
  match fn with
  | .ok v e => r.val = v ∧ r.err = e ∧ r.panicErr = none
  | .panics p s => r.panicErr = some (p, s)

theorem RCOwn.toLive {c : Config K V E P S} {i : Nat} {k : K} {cid ep : Nat}
    (h : RCOwn c i k cid ep) : LiveOwn c i cid ep := by
  obtain ⟨fn, ce, h | h⟩ := h
  · exact ⟨_, h, Or.inl rfl⟩
  · exact ⟨_, h, Or.inr (Or.inl rfl)⟩

end Preds

section Basics

variable {K V E P S : Type} [DecidableEq K] [Inhabited V]

@[simp] theorem hset_same {H : Nat → CallRec V E P S} {i : Nat} {r : CallRec V E P S} :
    hset H i r i = r := by simp [hset]

theorem hset_other {H : Nat → CallRec V E P S} {i j : Nat} {r : CallRec V E P S}
    (h : j ≠ i) : hset H i r j = H j := by simp [hset, h]

@[simp] theorem tset_same {T : Nat → Option (Thread K V E P S)} {i : Nat}
    {t : Thread K V E P S} : tset T i t i = some t := by simp [tset]

theorem tset_other {T : Nat → Option (Thread K V E P S)} {i j : Nat}
    {t : Thread K V E P S} (h : j ≠ i) : tset T i t j = T j := by simp [tset, h]

@[simp] theorem mset_same {m : K → Option Nat} {k : K} {v : Option Nat} :
    mset m k v k = v := by simp [mset]

theorem mset_other {m : K → Option Nat} {k k' : K} {v : Option Nat} (h : k' ≠ k) :
    mset m k v k' = m k' := by simp [mset, h]

theorem tset_cases {T : Nat → Option (Thread K V E P S)} {i j : Nat}
    {t t' : Thread K V E P S} (h : tset T i t j = some t') :
    (j = i ∧ t' = t) ∨ (j ≠ i ∧ T j = some t') := by
  by_cases hj : j = i
  · subst hj; simp [tset] at h; exact Or.inl ⟨rfl, h.symm⟩
  · exact Or.inr ⟨hj, by simpa [tset, hj] using h⟩

/-- `delete` on the (possibly nil) `calls` map, observed through `mapOf`. -/
theorem getD_map_mset (o : Option (K → Option Nat)) (k k' : K) :
    ((o.map (fun m => mset m k none)).getD (fun _ => none)) k' =
      if k' = k then none else (o.getD (fun _ => none)) k' := by
  cases o <;> simp [mset]

@[simp] theorem joinRec_dups {r : CallRec V E P S} : (joinRec r).dups = r.dups + 1 := by
  by_cases h : r.done <;> simp [joinRec, h]

@[simp] theorem joinRec_done {r : CallRec V E P S} : (joinRec r).done = true := by
  by_cases h : r.done <;> simp [joinRec, h]

@[simp] theorem joinRec_val {r : CallRec V E P S} : (joinRec r).val = r.val := by
  by_cases h : r.done <;> simp [joinRec, h]

@[simp] theorem joinRec_err {r : CallRec V E P S} : (joinRec r).err = r.err := by
  by_cases h : r.done <;> simp [joinRec, h]

@[simp] theorem joinRec_panicErr {r : CallRec V E P S} :
    (joinRec r).panicErr = r.panicErr := by
  by_cases h : r.done <;> simp [joinRec, h]

@[simp] theorem joinRec_closed {r : CallRec V E P S} : (joinRec r).closed = r.closed := by
  by_cases h : r.done <;> simp [joinRec, h]

@[simp] theorem joinRec_forgotten {r : CallRec V E P S} :
    (joinRec r).forgotten = r.forgotten := by
  by_cases h : r.done <;> simp [joinRec, h]

@[simp] theorem joinRec_epoch {r : CallRec V E P S} : (joinRec r).epoch = r.epoch := by
  by_cases h : r.done <;> simp [joinRec, h]

end Basics

section InvDef

variable {K V E P S : Type} [DecidableEq K] [Inhabited V]

/-- The inductive invariant of the transition system.  Together these
capture the record-lifecycle discipline of `Group.Do`/`Forget`:
pool hygiene, uniqueness of the in-flight leader per mapped record,
monotone ghost epochs, and the coherence between a finished leader's
returned values and the record it owned. -/
structure Inv (c : Config K V E P S) : Prop where
  fresh : ∀ cid, c.gs.nextId ≤ cid → c.gs.heap cid = defRec
  mapBound : ∀ k cid, mapOf c.gs k = some cid → cid < c.gs.nextId
  poolBound : ∀ cid, cid ∈ c.gs.pool → cid < c.gs.nextId
  thBound : ∀ i t cid, c.threads i = some t → t.phase.refCid = some cid →
    cid < c.gs.nextId
  poolNodup : c.gs.pool.Nodup
  poolClean : ∀ cid, cid ∈ c.gs.pool →
    (c.gs.heap cid).done = false ∧ (c.gs.heap cid).closed = false ∧
    (c.gs.heap cid).dups = 0 ∧ (c.gs.heap cid).val = default ∧
    (c.gs.heap cid).err = none ∧ (c.gs.heap cid).panicErr = none
  poolUnmapped : ∀ cid k, cid ∈ c.gs.pool → mapOf c.gs k ≠ some cid
  poolNoRef : ∀ cid i t, cid ∈ c.gs.pool → c.threads i = some t →
    ¬ LiveRef t.phase cid
  closedDone : ∀ cid, (c.gs.heap cid).closed = true → (c.gs.heap cid).done = true
  mapForgot : ∀ k cid, mapOf c.gs k = some cid →
    (c.gs.heap cid).forgotten = false
  mapOwner : ∀ k cid, mapOf c.gs k = some cid →
    ∃ i, RCOwn c i k cid (c.gs.heap cid).epoch
  mapInj : ∀ k k' cid, mapOf c.gs k = some cid → mapOf c.gs k' = some cid → k = k'
  ownerKey : ∀ i k cid ep, RCOwn c i k cid ep →
    (c.gs.heap cid).forgotten = false → mapOf c.gs k = some cid
  liveEpoch : ∀ i cid ep, LiveOwn c i cid ep →
    (c.gs.heap cid).epoch = ep ∧ 1 ≤ ep
  liveUnique : ∀ i j cid ep ep', LiveOwn c i cid ep → LiveOwn c j cid ep' → i = j
  doneEpoch : ∀ i cid ep, DoneOwn c i cid ep → 1 ≤ ep ∧ ep ≤ (c.gs.heap cid).epoch
  doneLtLive : ∀ i j cid ep ep', DoneOwn c i cid ep → LiveOwn c j cid ep' →
    ep < ep'
  runClean : ∀ i t cid ep, c.threads i = some t → t.phase = .leaderRun cid ep →
    (c.gs.heap cid).closed = false ∧ (c.gs.heap cid).panicErr = none
  finishClosed : ∀ i t cid ep, c.threads i = some t →
    t.phase = .leaderFinish cid ep → (c.gs.heap cid).done = true →
    (c.gs.heap cid).closed = true
  outcome : ∀ i k fn ce cid ep,
    (c.threads i = some ⟨.doOp k fn, ce, .leaderCleanup cid ep⟩ ∨
     c.threads i = some ⟨.doOp k fn, ce, .leaderFinish cid ep⟩) →
    OutMatch fn (c.gs.heap cid)
  waiter : ∀ i t cid ep, c.threads i = some t → t.phase = .followerWait cid ep →
    (c.gs.heap cid).done = true ∧ (c.gs.heap cid).epoch = ep
  ldoneRet : ∀ i k fn ce v sh e cid ep,
    c.threads i = some ⟨.doOp k fn, ce, .doneRet v sh e (.leaderSrc cid ep)⟩ →
    fn = .ok v e ∧
    ((c.gs.heap cid).epoch = ep →
      (c.gs.heap cid).panicErr = none ∧
      (sh = true ↔ 0 < (c.gs.heap cid).dups) ∧
      ((c.gs.heap cid).done = true →
        (c.gs.heap cid).closed = true ∧ v = (c.gs.heap cid).val ∧
        e = (c.gs.heap cid).err))
  ldonePanic : ∀ i k fn ce pe cid ep,
    c.threads i = some ⟨.doOp k fn, ce, .donePanic pe (.leaderSrc cid ep)⟩ →
    fn = .panics pe.1 pe.2 ∧ (c.gs.heap cid).panicErr = some pe ∧
    (c.gs.heap cid).epoch = ep ∧
    ((c.gs.heap cid).done = true → (c.gs.heap cid).closed = true) ∧
    cid ∉ c.gs.pool
  fObs : ∀ i t v sh e cid ep, c.threads i = some t →
    t.phase = .doneRet v sh e (.followerObsSrc cid ep) →
    sh = true ∧ (c.gs.heap cid).closed = true ∧ (c.gs.heap cid).epoch = ep ∧
    v = (c.gs.heap cid).val ∧ e = (c.gs.heap cid).err ∧
    (c.gs.heap cid).panicErr = none
  fObsPanic : ∀ i t pe cid ep, c.threads i = some t →
    t.phase = .donePanic pe (.followerObsSrc cid ep) →
    (c.gs.heap cid).closed = true ∧ (c.gs.heap cid).epoch = ep ∧
    (c.gs.heap cid).panicErr = some pe
  fCancel : ∀ i t v sh e cid ep, c.threads i = some t →
    t.phase = .doneRet v sh e (.followerCancelSrc cid ep) →
    v = default ∧ sh = true ∧ e = some t.cerr

theorem init_thread_start {b : Bool} {ops : List (Op K V E P S × E)} {i : Nat}
    {t : Thread K V E P S} (h : (initConfig b ops).threads i = some t) :
    t.phase = Phase.start := by
  simp only [initConfig] at h
  cases hops : ops[i]? with
  | none => rw [hops] at h; simp at h
  | some oc =>
    rw [hops] at h
    simp only [Option.map_some', Option.some.injEq] at h
    rw [← h]

theorem init_map_none (b : Bool) (ops : List (Op K V E P S × E)) (k : K) :
    mapOf (initConfig b ops).gs k = none := by
  cases b <;> simp [initConfig, mapOf]

theorem inv_init (b : Bool) (ops : List (Op K V E P S × E)) :
    Inv (initConfig b ops) := by
  have hmap := init_map_none b ops
  have hpool : (initConfig b ops (K := K) (V := V) (E := E) (P := P) (S := S)).gs.pool
      = [] := rfl
  constructor
  case fresh => intro cid _; rfl
  case mapBound => intro k cid h; rw [hmap] at h; cases h
  case poolBound => intro cid h; rw [hpool] at h; cases h
  case thBound =>
    intro i t cid h1 h2
    rw [init_thread_start h1] at h2
    simp [Phase.refCid] at h2
  case poolNodup => rw [hpool]; exact List.nodup_nil
  case poolClean => intro cid h; rw [hpool] at h; cases h
  case poolUnmapped => intro cid k h; rw [hpool] at h; cases h
  case poolNoRef => intro cid i t h; rw [hpool] at h; cases h
  case closedDone => intro cid h; cases h
  case mapForgot => intro k cid h; rw [hmap] at h; cases h
  case mapOwner => intro k cid h; rw [hmap] at h; cases h
  case mapInj => intro k k' cid h; rw [hmap] at h; cases h
  case ownerKey =>
    intro i k cid ep h1 _
    obtain ⟨fn, ce, h | h⟩ := h1 <;> (have hph := init_thread_start h; simp at hph)
  case liveEpoch =>
    intro i cid ep h
    obtain ⟨t, ht, h | h | h⟩ := h <;>
      (rw [init_thread_start ht] at h; simp at h)
  case liveUnique =>
    intro i j cid ep ep' h1 _
    obtain ⟨t, ht, h | h | h⟩ := h1 <;>
      (rw [init_thread_start ht] at h; simp at h)
  case doneEpoch =>
    intro i cid ep h
    obtain ⟨t, ht, ⟨v, sh, e, h⟩ | ⟨pe, h⟩⟩ := h <;>
      (rw [init_thread_start ht] at h; simp at h)
  case doneLtLive =>
    intro i j cid ep ep' h1 _
    obtain ⟨t, ht, ⟨v, sh, e, h⟩ | ⟨pe, h⟩⟩ := h1 <;>
      (rw [init_thread_start ht] at h; simp at h)
  case runClean =>
    intro i t cid ep h1 h2
    rw [init_thread_start h1] at h2; simp at h2
  case finishClosed =>
    intro i t cid ep h1 h2
    rw [init_thread_start h1] at h2; simp at h2
  case outcome =>
    intro i k fn ce cid ep h
    obtain h | h := h <;> (have hph := init_thread_start h; simp at hph)
  case waiter =>
    intro i t cid ep h1 h2
    rw [init_thread_start h1] at h2; simp at h2
  case ldoneRet =>
    intro i k fn ce v sh e cid ep h
    have := init_thread_start h; simp at this
  case ldonePanic =>
    intro i k fn ce pe cid ep h
    have := init_thread_start h; simp at this
  case fObs =>
    intro i t v sh e cid ep h1 h2
    rw [init_thread_start h1] at h2; simp at h2
  case fObsPanic =>
    intro i t pe cid ep h1 h2
    rw [init_thread_start h1] at h2; simp at h2
  case fCancel =>
    intro i t v sh e cid ep h1 h2
    rw [init_thread_start h1] at h2; simp at h2

end InvDef

section Preserve

variable {K V E P S : Type} [DecidableEq K] [Inhabited V]

/-- `OutMatch` only looks at `val`, `err`, `panicErr`. -/
theorem OutMatch.transfer {fn : FnRes V E P S} {r r' : CallRec V E P S}
    (hv : r'.val = r.val) (he : r'.err = r.err) (hp : r'.panicErr = r.panicErr)
    (h : OutMatch fn r) : OutMatch fn r' := by
  cases fn <;> simp_all [OutMatch]

theorem inv_join {c : Config K V E P S} {i : Nat} {k : K} {fn : FnRes V E P S}
    {ce : E} {cid : Nat} (hI : Inv c)
    (ht : c.threads i = some ⟨.doOp k fn, ce, .start⟩)
    (hm : mapOf c.gs k = some cid) :
    Inv (joinCfg c i k fn ce cid) := by
  obtain ⟨i0, hRC0⟩ := hI.mapOwner k cid hm
  have hLive0 : LiveOwn c i0 cid (c.gs.heap cid).epoch := hRC0.toLive
  have hcidlt : cid < c.gs.nextId := hI.mapBound k cid hm
  have hnid : (joinCfg c i k fn ce cid).gs.nextId = c.gs.nextId := rfl
  have hpoolEq : (joinCfg c i k fn ce cid).gs.pool = c.gs.pool := rfl
  have hheapNe : ∀ j, j ≠ cid →
      (joinCfg c i k fn ce cid).gs.heap j = c.gs.heap j := by
    intro j hj; exact hset_other hj
  have hLive' : ∀ j cid' ep, LiveOwn (joinCfg c i k fn ce cid) j cid' ep →
      LiveOwn c j cid' ep := by
    intro j cid' ep ⟨t, htj, hph⟩
    rcases tset_cases htj with ⟨rfl, rfl⟩ | ⟨hne, htj'⟩
    · rcases hph with h | h | h <;> simp at h
    · exact ⟨t, htj', hph⟩
  have hDone' : ∀ j cid' ep, DoneOwn (joinCfg c i k fn ce cid) j cid' ep →
      DoneOwn c j cid' ep := by
    intro j cid' ep ⟨t, htj, hph⟩
    rcases tset_cases htj with ⟨rfl, rfl⟩ | ⟨hne, htj'⟩
    · rcases hph with ⟨v, sh, e, h⟩ | ⟨pe, h⟩ <;> simp at h
    · exact ⟨t, htj', hph⟩
  have hRC' : ∀ j k' cid' ep, RCOwn (joinCfg c i k fn ce cid) j k' cid' ep →
      RCOwn c j k' cid' ep := by
    intro j k' cid' ep hRCj
    obtain ⟨fn', ce', h | h⟩ := hRCj
    · rcases tset_cases h with ⟨rfl, hEq⟩ | ⟨hne, h'⟩
      · simp at hEq
      · exact ⟨fn', ce', Or.inl h'⟩
    · rcases tset_cases h with ⟨rfl, hEq⟩ | ⟨hne, h'⟩
      · simp at hEq
      · exact ⟨fn', ce', Or.inr h'⟩
  have hNoFin : ∀ j t ep, c.threads j = some t →
      t.phase = Phase.leaderFinish cid ep → False := by
    intro j t ep htj hph
    have hLj : LiveOwn c j cid ep := ⟨t, htj, Or.inr (Or.inr hph)⟩
    have hj0 : j = i0 := hI.liveUnique j i0 cid ep _ hLj hLive0
    subst hj0
    obtain ⟨fn0, ce0, h0 | h0⟩ := hRC0 <;>
      (rw [htj] at h0; injection h0 with h0; subst h0; simp at hph)
  constructor
  case fresh =>
    intro cid' h
    rw [hnid] at h
    rw [hheapNe cid' (by omega)]
    exact hI.fresh cid' h
  case mapBound => exact hI.mapBound
  case poolBound => exact hI.poolBound
  case thBound =>
    intro j t cid' htj hcid'
    rw [hnid]
    rcases tset_cases htj with ⟨rfl, rfl⟩ | ⟨hne, htj'⟩
    · simp [Phase.refCid] at hcid'; omega
    · exact hI.thBound j t cid' htj' hcid'
  case poolNodup => exact hI.poolNodup
  case poolClean =>
    intro cid' hin
    rw [hpoolEq] at hin
    have hne : cid' ≠ cid := by
      intro h
      rw [h] at hin
      exact hI.poolUnmapped cid k hin hm
    rw [hheapNe cid' hne]
    exact hI.poolClean cid' hin
  case poolUnmapped => exact hI.poolUnmapped
  case poolNoRef =>
    intro cid' j t hin htj
    rw [hpoolEq] at hin
    rcases tset_cases htj with ⟨rfl, rfl⟩ | ⟨hne, htj'⟩
    · rintro ⟨ep, h | h | h | h⟩
      · injection h with h1 h2
        rw [← h1] at hin
        exact hI.poolUnmapped cid k hin hm
      · simp at h
      · simp at h
      · simp at h
    · exact hI.poolNoRef cid' j t hin htj'
  case closedDone =>
    intro cid' h
    by_cases hc : cid' = cid
    · subst hc; simp [joinCfg, hset]
    · rw [hheapNe cid' hc] at h ⊢; exact hI.closedDone cid' h
  case mapForgot =>
    intro k' cid' h
    by_cases hc : cid' = cid
    · rw [hc]
      simp only [joinCfg, hset_same, joinRec_forgotten]
      rw [← hc]
      exact hI.mapForgot k' cid' h
    · rw [hheapNe cid' hc]; exact hI.mapForgot k' cid' h
  case mapOwner =>
    intro k' cid' h
    obtain ⟨j, hRCj⟩ := hI.mapOwner k' cid' h
    have hjne : j ≠ i := by
      rintro rfl
      obtain ⟨fn0, ce0, h0 | h0⟩ := hRCj <;> (rw [ht] at h0; simp at h0)
    have hepEq : ((joinCfg c i k fn ce cid).gs.heap cid').epoch =
        (c.gs.heap cid').epoch := by
      by_cases hc : cid' = cid
      · subst hc; simp only [joinCfg, hset_same, joinRec_epoch]
      · rw [hheapNe cid' hc]
    rw [hepEq]
    obtain ⟨fn', ce', h0 | h0⟩ := hRCj
    · exact ⟨j, fn', ce', Or.inl (by rw [joinCfg]; simpa [tset_other hjne])⟩
    · exact ⟨j, fn', ce', Or.inr (by rw [joinCfg]; simpa [tset_other hjne])⟩
  case mapInj => exact hI.mapInj
  case ownerKey =>
    intro j k' cid' ep hRCj hforg
    have hforg' : (c.gs.heap cid').forgotten = false := by
      by_cases hc : cid' = cid
      · subst hc
        simpa only [joinCfg, hset_same, joinRec_forgotten] using hforg
      · rwa [hheapNe cid' hc] at hforg
    exact hI.ownerKey j k' cid' ep (hRC' j k' cid' ep hRCj) hforg'
  case liveEpoch =>
    intro j cid' ep hL
    have h := hI.liveEpoch j cid' ep (hLive' j cid' ep hL)
    by_cases hc : cid' = cid
    · subst hc; simpa only [joinCfg, hset_same, joinRec_epoch]
    · rwa [hheapNe cid' hc]
  case liveUnique =>
    intro j j' cid' ep ep' h1 h2
    exact hI.liveUnique j j' cid' ep ep' (hLive' _ _ _ h1) (hLive' _ _ _ h2)
  case doneEpoch =>
    intro j cid' ep hD
    have h := hI.doneEpoch j cid' ep (hDone' _ _ _ hD)
    by_cases hc : cid' = cid
    · subst hc; simpa only [joinCfg, hset_same, joinRec_epoch]
    · rwa [hheapNe cid' hc]
  case doneLtLive =>
    intro j j' cid' ep ep' h1 h2
    exact hI.doneLtLive j j' cid' ep ep' (hDone' _ _ _ h1) (hLive' _ _ _ h2)
  case runClean =>
    intro j t cid' ep htj hph
    rcases tset_cases htj with ⟨rfl, rfl⟩ | ⟨hne, htj'⟩
    · simp at hph
    · have h := hI.runClean j t cid' ep htj' hph
      by_cases hc : cid' = cid
      · subst hc
        simpa only [joinCfg, hset_same, joinRec_closed, joinRec_panicErr]
      · rwa [hheapNe cid' hc]
  case finishClosed =>
    intro j t cid' ep htj hph hdone
    rcases tset_cases htj with ⟨rfl, rfl⟩ | ⟨hne, htj'⟩
    · simp at hph
    · by_cases hc : cid' = cid
      · subst hc; exact absurd hph (by intro h; exact hNoFin j t ep htj' h)
      · rw [hheapNe cid' hc] at hdone ⊢
        exact hI.finishClosed j t cid' ep htj' hph hdone
  case outcome =>
    intro j k' fn' ce' cid' ep h
    have hOld : c.threads j = some ⟨.doOp k' fn', ce', .leaderCleanup cid' ep⟩ ∨
        c.threads j = some ⟨.doOp k' fn', ce', .leaderFinish cid' ep⟩ := by
      rcases h with h | h <;>
        [rcases tset_cases h with ⟨rfl, hEq⟩ | ⟨hne, h'⟩;
         rcases tset_cases h with ⟨rfl, hEq⟩ | ⟨hne, h'⟩]
      · simp at hEq
      · exact Or.inl h'
      · simp at hEq
      · exact Or.inr h'
    have hout := hI.outcome j k' fn' ce' cid' ep hOld
    by_cases hc : cid' = cid
    · subst hc
      exact hout.transfer (by simp [joinCfg]) (by simp [joinCfg]) (by simp [joinCfg])
    · rwa [hheapNe cid' hc]
  case waiter =>
    intro j t cid' ep htj hph
    rcases tset_cases htj with ⟨rfl, rfl⟩ | ⟨hne, htj'⟩
    · simp only [Phase.followerWait.injEq] at hph
      obtain ⟨rfl, rfl⟩ := hph
      constructor
      · simp [joinCfg, hset]
      · simp only [joinCfg, hset_same, joinRec_epoch]
    · have h := hI.waiter j t cid' ep htj' hph
      by_cases hc : cid' = cid
      · subst hc
        exact ⟨by simp [joinCfg, hset], by
          simpa only [joinCfg, hset_same, joinRec_epoch] using h.2⟩
      · rwa [hheapNe cid' hc]
  case ldoneRet =>
    intro j k' fn' ce' v sh e cid' ep h
    rcases tset_cases h with ⟨rfl, hEq⟩ | ⟨hne, h'⟩
    · simp at hEq
    · have hI' := hI.ldoneRet j k' fn' ce' v sh e cid' ep h'
      by_cases hc : cid' = cid
      · refine ⟨hI'.1, ?_⟩
        intro hguard
        exfalso
        have hD : DoneOwn c j cid' ep := ⟨_, h', Or.inl ⟨v, sh, e, rfl⟩⟩
        rw [hc] at hD
        have hlt := hI.doneLtLive j i0 cid ep (c.gs.heap cid).epoch hD hLive0
        have hguard' : (c.gs.heap cid).epoch = ep := by
          rw [hc] at hguard
          simpa only [joinCfg, hset_same, joinRec_epoch] using hguard
        omega
      · rwa [hheapNe cid' hc]
  case ldonePanic =>
    intro j k' fn' ce' pe cid' ep h
    rcases tset_cases h with ⟨rfl, hEq⟩ | ⟨hne, h'⟩
    · simp at hEq
    · have hI' := hI.ldonePanic j k' fn' ce' pe cid' ep h'
      by_cases hc : cid' = cid
      · exfalso
        have hD : DoneOwn c j cid' ep := ⟨_, h', Or.inr ⟨pe, rfl⟩⟩
        rw [hc] at hD
        have hlt := hI.doneLtLive j i0 cid ep (c.gs.heap cid).epoch hD hLive0
        have hep' : (c.gs.heap cid).epoch = ep := by rw [← hc]; exact hI'.2.2.1
        omega
      · rwa [hheapNe cid' hc]
  case fObs =>
    intro j t v sh e cid' ep htj hph
    rcases tset_cases htj with ⟨rfl, rfl⟩ | ⟨hne, htj'⟩
    · simp at hph
    · have h := hI.fObs j t v sh e cid' ep htj' hph
      by_cases hc : cid' = cid
      · subst hc
        simpa only [joinCfg, hset_same, joinRec_closed, joinRec_epoch,
          joinRec_val, joinRec_err, joinRec_panicErr]
      · rwa [hheapNe cid' hc]
  case fObsPanic =>
    intro j t pe cid' ep htj hph
    rcases tset_cases htj with ⟨rfl, rfl⟩ | ⟨hne, htj'⟩
    · simp at hph
    · have h := hI.fObsPanic j t pe cid' ep htj' hph
      by_cases hc : cid' = cid
      · subst hc
        simpa only [joinCfg, hset_same, joinRec_closed, joinRec_epoch,
          joinRec_panicErr]
      · rwa [hheapNe cid' hc]
  case fCancel =>
    intro j t v sh e cid' ep htj hph
    rcases tset_cases htj with ⟨rfl, rfl⟩ | ⟨hne, htj'⟩
    · simp at hph
    · exact hI.fCancel j t v sh e cid' ep htj' hph

theorem inv_leadPool {c : Config K V E P S} {i : Nat} {k : K} {fn : FnRes V E P S}
    {ce : E} {cid : Nat} {rest : List Nat} (hI : Inv c)
    (ht : c.threads i = some ⟨.doOp k fn, ce, .start⟩)
    (hm : mapOf c.gs k = none)
    (hp : c.gs.pool = cid :: rest) :
    Inv (leadPoolCfg c i k fn ce cid rest) := by
  have hin : cid ∈ c.gs.pool := by rw [hp]; exact List.mem_cons_self cid rest
  have hclean := hI.poolClean cid hin
  have hcidlt : cid < c.gs.nextId := hI.poolBound cid hin
  have hnocons : cid ∉ rest ∧ rest.Nodup := by
    have := hI.poolNodup
    rw [hp] at this
    exact List.nodup_cons.mp this
  have hsub : ∀ x, x ∈ rest → x ∈ c.gs.pool := by
    intro x hx; rw [hp]; exact List.mem_cons_of_mem cid hx
  have hNoRef : ∀ j t, c.threads j = some t → ¬ LiveRef t.phase cid :=
    fun j t htj => hI.poolNoRef cid j t hin htj
  have hnid : (leadPoolCfg c i k fn ce cid rest).gs.nextId = c.gs.nextId := rfl
  have hpoolEq : (leadPoolCfg c i k fn ce cid rest).gs.pool = rest := rfl
  have hheapNe : ∀ j, j ≠ cid →
      (leadPoolCfg c i k fn ce cid rest).gs.heap j = c.gs.heap j := by
    intro j hj; exact hset_other hj
  have hheapEq : (leadPoolCfg c i k fn ce cid rest).gs.heap cid =
      resetRec (c.gs.heap cid) := hset_same
  have hmapAt : ∀ k', mapOf (leadPoolCfg c i k fn ce cid rest).gs k' =
      if k' = k then some cid else mapOf c.gs k' := by
    intro k'
    show mset (mapOf c.gs) k (some cid) k' = _
    by_cases h : k' = k
    · rw [h]; simp [mset]
    · rw [mset_other h, if_neg h]
  have hmapNoCid : ∀ k' cid', mapOf c.gs k' = some cid' → cid' ≠ cid := by
    intro k' cid' h hEq
    rw [hEq] at h
    exact hI.poolUnmapped cid k' hin h
  constructor
  case fresh =>
    intro cid' h
    rw [hnid] at h
    rw [hheapNe cid' (by omega)]
    exact hI.fresh cid' h
  case mapBound =>
    intro k' cid' h
    rw [hmapAt] at h
    rw [hnid]
    by_cases hk : k' = k
    · rw [if_pos hk] at h
      injection h with h
      omega
    · rw [if_neg hk] at h
      exact hI.mapBound k' cid' h
  case poolBound =>
    intro cid' h
    rw [hpoolEq] at h
    rw [hnid]
    exact hI.poolBound cid' (hsub cid' h)
  case thBound =>
    intro j t cid' htj hcid'
    rw [hnid]
    rcases tset_cases htj with ⟨rfl, rfl⟩ | ⟨hne, htj'⟩
    · simp [Phase.refCid] at hcid'; omega
    · exact hI.thBound j t cid' htj' hcid'
  case poolNodup =>
    rw [hpoolEq]; exact hnocons.2
  case poolClean =>
    intro cid' hin'
    rw [hpoolEq] at hin'
    have hne : cid' ≠ cid := fun h => hnocons.1 (h ▸ hin')
    rw [hheapNe cid' hne]
    exact hI.poolClean cid' (hsub cid' hin')
  case poolUnmapped =>
    intro cid' k' hin' hmap
    rw [hpoolEq] at hin'
    rw [hmapAt] at hmap
    by_cases hk : k' = k
    · rw [if_pos hk] at hmap
      injection hmap with hmap
      exact hnocons.1 (hmap ▸ hin')
    · rw [if_neg hk] at hmap
      exact hI.poolUnmapped cid' k' (hsub cid' hin') hmap
  case poolNoRef =>
    intro cid' j t hin' htj
    rw [hpoolEq] at hin'
    rcases tset_cases htj with ⟨rfl, rfl⟩ | ⟨hne, htj'⟩
    · rintro ⟨ep, h | h | h | h⟩ <;> simp only [Phase.leaderRun.injEq] at h
      all_goals first
        | (exact Phase.noConfusion h)
        | (exact hnocons.1 (h.1 ▸ hin'))
    · exact hI.poolNoRef cid' j t (hsub cid' hin') htj'
  case closedDone =>
    intro cid' h
    by_cases hc : cid' = cid
    · rw [hc] at h ⊢
      rw [hheapEq] at h ⊢
      show (c.gs.heap cid).done = true
      have : (resetRec (c.gs.heap cid)).closed = (c.gs.heap cid).closed := rfl
      rw [this, hclean.2.1] at h
      cases h
    · rw [hheapNe cid' hc] at h ⊢
      exact hI.closedDone cid' h
  case mapForgot =>
    intro k' cid' h
    rw [hmapAt] at h
    by_cases hk : k' = k
    · rw [if_pos hk] at h
      injection h with h
      rw [← h, hheapEq]
      rfl
    · rw [if_neg hk] at h
      rw [hheapNe cid' (hmapNoCid k' cid' h)]
      exact hI.mapForgot k' cid' h
  case mapOwner =>
    intro k' cid' h
    rw [hmapAt] at h
    by_cases hk : k' = k
    · rw [if_pos hk] at h
      injection h with h
      subst hk
      rw [← h, hheapEq]
      exact ⟨i, fn, ce, Or.inl tset_same⟩
    · rw [if_neg hk] at h
      obtain ⟨j, hRCj⟩ := hI.mapOwner k' cid' h
      have hjne : j ≠ i := by
        rintro rfl
        obtain ⟨fn0, ce0, h0 | h0⟩ := hRCj <;> (rw [ht] at h0; simp at h0)
      have hcne := hmapNoCid k' cid' h
      rw [hheapNe cid' hcne]
      obtain ⟨fn', ce', h0 | h0⟩ := hRCj
      · exact ⟨j, fn', ce', Or.inl (by
          show tset c.threads i _ j = _
          rw [tset_other hjne]; exact h0)⟩
      · exact ⟨j, fn', ce', Or.inr (by
          show tset c.threads i _ j = _
          rw [tset_other hjne]; exact h0)⟩
  case mapInj =>
    intro k1 k2 cid' h1 h2
    rw [hmapAt] at h1 h2
    by_cases hk1 : k1 = k <;> by_cases hk2 : k2 = k
    · rw [hk1, hk2]
    · rw [if_pos hk1] at h1
      rw [if_neg hk2] at h2
      injection h1 with h1
      exact absurd rfl (h1 ▸ hmapNoCid k2 cid' h2)
    · rw [if_neg hk1] at h1
      rw [if_pos hk2] at h2
      injection h2 with h2
      exact absurd rfl (h2 ▸ hmapNoCid k1 cid' h1)
    · rw [if_neg hk1] at h1
      rw [if_neg hk2] at h2
      exact hI.mapInj k1 k2 cid' h1 h2
  case ownerKey =>
    intro j k' cid' ep hRCj hforg
    obtain ⟨fn', ce', h0 | h0⟩ := hRCj
    all_goals
      rcases tset_cases h0 with ⟨rfl, hEq⟩ | ⟨hne, h0'⟩
    · injection hEq with hEq1 hEq2 hEq3
      injection hEq1 with hk hfn
      injection hEq3 with hEq3 hEq4
      rw [hmapAt, if_pos hk, hEq3]
    · have hcne : cid' ≠ cid := by
        intro hEq
        exact hNoRef j _ h0' ⟨ep, Or.inr (Or.inl (by rw [hEq]))⟩
      rw [hheapNe cid' hcne] at hforg
      have hmk := hI.ownerKey j k' cid' ep ⟨fn', ce', Or.inl h0'⟩ hforg
      have hkne : k' ≠ k := by
        intro hEq; rw [hEq, hm] at hmk; cases hmk
      rw [hmapAt, if_neg hkne]
      exact hmk
    · injection hEq with hEq1 hEq2 hEq3
      exact absurd hEq3 (by simp)
    · have hcne : cid' ≠ cid := by
        intro hEq
        exact hNoRef j _ h0' ⟨ep, Or.inr (Or.inr (Or.inl (by rw [hEq])))⟩
      rw [hheapNe cid' hcne] at hforg
      have hmk := hI.ownerKey j k' cid' ep ⟨fn', ce', Or.inr h0'⟩ hforg
      have hkne : k' ≠ k := by
        intro hEq; rw [hEq, hm] at hmk; cases hmk
      rw [hmapAt, if_neg hkne]
      exact hmk
  case liveEpoch =>
    intro j cid' ep hL
    obtain ⟨t, htj, hph⟩ := hL
    rcases tset_cases htj with ⟨rfl, rfl⟩ | ⟨hne, htj'⟩
    · rcases hph with h | h | h <;> simp only at h
      · injection h with h1 h2
        rw [← h1, ← h2, hheapEq]
        constructor
        · rfl
        · omega
      · exact Phase.noConfusion h
      · exact Phase.noConfusion h
    · have hcne : cid' ≠ cid := by
        intro hEq
        refine hNoRef j t htj' ⟨ep, ?_⟩
        rw [hEq] at hph
        rcases hph with h | h | h
        · exact Or.inr (Or.inl h)
        · exact Or.inr (Or.inr (Or.inl h))
        · exact Or.inr (Or.inr (Or.inr h))
      rw [hheapNe cid' hcne]
      exact hI.liveEpoch j cid' ep ⟨t, htj', hph⟩
  case liveUnique =>
    intro j j' cid' ep ep' h1 h2
    obtain ⟨t1, ht1, hph1⟩ := h1
    obtain ⟨t2, ht2, hph2⟩ := h2
    rcases tset_cases ht1 with ⟨rfl, rfl⟩ | ⟨hne1, ht1'⟩ <;>
      rcases tset_cases ht2 with ⟨h2i, rfl⟩ | ⟨hne2, ht2'⟩
    · exact h2i.symm
    · exfalso
      have hc1 : cid' = cid := by
        rcases hph1 with h | h | h <;>
          first
            | (injection h with h1 h2; exact h1.symm)
            | exact Phase.noConfusion h
      refine hNoRef j' t2 ht2' ⟨ep', ?_⟩
      rw [hc1] at hph2
      rcases hph2 with h | h | h
      · exact Or.inr (Or.inl h)
      · exact Or.inr (Or.inr (Or.inl h))
      · exact Or.inr (Or.inr (Or.inr h))
    · exfalso
      have hc2 : cid' = cid := by
        rcases hph2 with h | h | h <;>
          first
            | (injection h with h1 h2; exact h1.symm)
            | exact Phase.noConfusion h
      refine hNoRef j t1 ht1' ⟨ep, ?_⟩
      rw [hc2] at hph1
      rcases hph1 with h | h | h
      · exact Or.inr (Or.inl h)
      · exact Or.inr (Or.inr (Or.inl h))
      · exact Or.inr (Or.inr (Or.inr h))
    · exact hI.liveUnique j j' cid' ep ep' ⟨t1, ht1', hph1⟩ ⟨t2, ht2', hph2⟩
  case doneEpoch =>
    intro j cid' ep hD
    obtain ⟨t, htj, hph⟩ := hD
    rcases tset_cases htj with ⟨rfl, rfl⟩ | ⟨hne, htj'⟩
    · exfalso
      rcases hph with ⟨v, sh, e, h⟩ | ⟨pe, h⟩ <;> exact Phase.noConfusion h
    · have h := hI.doneEpoch j cid' ep ⟨t, htj', hph⟩
      by_cases hc : cid' = cid
      · rw [hc] at h ⊢
        rw [hheapEq]
        refine ⟨h.1, ?_⟩
        have : (resetRec (c.gs.heap cid)).epoch = (c.gs.heap cid).epoch + 1 := rfl
        rw [this]
        omega
      · rw [hheapNe cid' hc]
        exact h
  case doneLtLive =>
    intro j j' cid' ep ep' hD hL
    obtain ⟨t1, ht1, hph1⟩ := hD
    obtain ⟨t2, ht2, hph2⟩ := hL
    rcases tset_cases ht1 with ⟨rfl, rfl⟩ | ⟨hne1, ht1'⟩
    · exfalso
      rcases hph1 with ⟨v, sh, e, h⟩ | ⟨pe, h⟩ <;> exact Phase.noConfusion h
    · rcases tset_cases ht2 with ⟨h2i, rfl⟩ | ⟨hne2, ht2'⟩
      · have hc : cid' = cid ∧ ep' = (c.gs.heap cid).epoch + 1 := by
          rcases hph2 with h | h | h <;>
            first
              | (injection h with h1 h2; exact ⟨h1.symm, h2.symm⟩)
              | exact Phase.noConfusion h
        obtain ⟨rfl, rfl⟩ := hc
        have := hI.doneEpoch j cid' ep ⟨t1, ht1', hph1⟩
        omega
      · exact hI.doneLtLive j j' cid' ep ep' ⟨t1, ht1', hph1⟩ ⟨t2, ht2', hph2⟩
  case runClean =>
    intro j t cid' ep htj hph
    rcases tset_cases htj with ⟨rfl, rfl⟩ | ⟨hne, htj'⟩
    · simp only [Phase.leaderRun.injEq] at hph
      obtain ⟨rfl, rfl⟩ := hph
      rw [hheapEq]
      exact ⟨hclean.2.1, rfl⟩
    · have hcne : cid' ≠ cid := by
        intro hEq
        exact hNoRef j t htj' ⟨ep, Or.inr (Or.inl (by rw [← hEq]; exact hph))⟩
      rw [hheapNe cid' hcne]
      exact hI.runClean j t cid' ep htj' hph
  case finishClosed =>
    intro j t cid' ep htj hph
    rcases tset_cases htj with ⟨rfl, rfl⟩ | ⟨hne, htj'⟩
    · simp at hph
    · have hcne : cid' ≠ cid := by
        intro hEq
        exact hNoRef j t htj' ⟨ep, Or.inr (Or.inr (Or.inr (by rw [← hEq]; exact hph)))⟩
      rw [hheapNe cid' hcne]
      exact hI.finishClosed j t cid' ep htj' hph
  case outcome =>
    intro j k' fn' ce' cid' ep h
    rcases h with h | h
    all_goals
      rcases tset_cases h with ⟨rfl, hEq⟩ | ⟨hne, h'⟩
    · injection hEq with hEq1 hEq2 hEq3
      exact absurd hEq3 (by simp)
    · have hcne : cid' ≠ cid := by
        intro hEq
        exact hNoRef j _ h' ⟨ep, Or.inr (Or.inr (Or.inl (by rw [hEq])))⟩
      rw [hheapNe cid' hcne]
      exact hI.outcome j k' fn' ce' cid' ep (Or.inl h')
    · injection hEq with hEq1 hEq2 hEq3
      exact absurd hEq3 (by simp)
    · have hcne : cid' ≠ cid := by
        intro hEq
        exact hNoRef j _ h' ⟨ep, Or.inr (Or.inr (Or.inr (by rw [hEq])))⟩
      rw [hheapNe cid' hcne]
      exact hI.outcome j k' fn' ce' cid' ep (Or.inr h')
  case waiter =>
    intro j t cid' ep htj hph
    rcases tset_cases htj with ⟨rfl, rfl⟩ | ⟨hne, htj'⟩
    · simp at hph
    · have hcne : cid' ≠ cid := by
        intro hEq
        exact hNoRef j t htj' ⟨ep, Or.inl (by rw [← hEq]; exact hph)⟩
      rw [hheapNe cid' hcne]
      exact hI.waiter j t cid' ep htj' hph
  case ldoneRet =>
    intro j k' fn' ce' v sh e cid' ep h
    rcases tset_cases h with ⟨rfl, hEq⟩ | ⟨hne, h'⟩
    · injection hEq with hEq1 hEq2 hEq3
      exact absurd hEq3 (by simp)
    · have hI' := hI.ldoneRet j k' fn' ce' v sh e cid' ep h'
      by_cases hc : cid' = cid
      · refine ⟨hI'.1, ?_⟩
        intro hguard
        exfalso
        have hD : DoneOwn c j cid' ep := ⟨_, h', Or.inl ⟨v, sh, e, rfl⟩⟩
        have hde := hI.doneEpoch j cid' ep hD
        rw [hc] at hguard
        rw [hheapEq] at hguard
        have : (resetRec (c.gs.heap cid)).epoch = (c.gs.heap cid).epoch + 1 := rfl
        rw [this] at hguard
        rw [hc] at hde
        omega
      · rwa [hheapNe cid' hc]
  case ldonePanic =>
    intro j k' fn' ce' pe cid' ep h
    rcases tset_cases h with ⟨rfl, hEq⟩ | ⟨hne, h'⟩
    · injection hEq with hEq1 hEq2 hEq3
      exact absurd hEq3 (by simp)
    · have hI' := hI.ldonePanic j k' fn' ce' pe cid' ep h'
      by_cases hc : cid' = cid
      · exfalso
        rw [hc] at hI'
        exact hI'.2.2.2.2 hin
      · rw [hheapNe cid' hc]
        refine ⟨hI'.1, hI'.2.1, hI'.2.2.1, hI'.2.2.2.1, ?_⟩
        rw [hpoolEq]
        intro hmem
        exact hI'.2.2.2.2 (hsub cid' hmem)
  case fObs =>
    intro j t v sh e cid' ep htj hph
    rcases tset_cases htj with ⟨rfl, rfl⟩ | ⟨hne, htj'⟩
    · simp at hph
    · have h := hI.fObs j t v sh e cid' ep htj' hph
      by_cases hc : cid' = cid
      · exfalso
        rw [hc] at h
        rw [hclean.2.1] at h
        exact Bool.noConfusion h.2.1
      · rwa [hheapNe cid' hc]
  case fObsPanic =>
    intro j t pe cid' ep htj hph
    rcases tset_cases htj with ⟨rfl, rfl⟩ | ⟨hne, htj'⟩
    · simp at hph
    · have h := hI.fObsPanic j t pe cid' ep htj' hph
      by_cases hc : cid' = cid
      · exfalso
        rw [hc] at h
        rw [hclean.2.1] at h
        exact Bool.noConfusion h.1
      · rwa [hheapNe cid' hc]
  case fCancel =>
    intro j t v sh e cid' ep htj hph
    rcases tset_cases htj with ⟨rfl, rfl⟩ | ⟨hne, htj'⟩
    · simp at hph
    · exact hI.fCancel j t v sh e cid' ep htj' hph

theorem inv_leadFresh {c : Config K V E P S} {i : Nat} {k : K} {fn : FnRes V E P S}
    {ce : E} (hI : Inv c)
    (ht : c.threads i = some ⟨.doOp k fn, ce, .start⟩)
    (hm : mapOf c.gs k = none)
    (hp : c.gs.pool = []) :
    Inv (leadFreshCfg c i k fn ce) := by
  have hφne : ∀ j t cid', c.threads j = some t → t.phase.refCid = some cid' →
      cid' ≠ c.gs.nextId :=
    fun j t cid' h1 h2 => Nat.ne_of_lt (hI.thBound j t cid' h1 h2)
  have hnid : (leadFreshCfg c i k fn ce).gs.nextId = c.gs.nextId + 1 := rfl
  have hpoolEq : (leadFreshCfg c i k fn ce).gs.pool = c.gs.pool := rfl
  have hheapNe : ∀ j, j ≠ c.gs.nextId →
      (leadFreshCfg c i k fn ce).gs.heap j = c.gs.heap j := by
    intro j hj; exact hset_other hj
  have hheapEq : (leadFreshCfg c i k fn ce).gs.heap c.gs.nextId =
      resetRec defRec := hset_same
  have hmapAt : ∀ k', mapOf (leadFreshCfg c i k fn ce).gs k' =
      if k' = k then some c.gs.nextId else mapOf c.gs k' := by
    intro k'
    show mset (mapOf c.gs) k (some c.gs.nextId) k' = _
    by_cases h : k' = k
    · rw [h]; simp [mset]
    · rw [mset_other h, if_neg h]
  constructor
  case fresh =>
    intro cid' h
    rw [hnid] at h
    rw [hheapNe cid' (by omega)]
    exact hI.fresh cid' (by omega)
  case mapBound =>
    intro k' cid' h
    rw [hmapAt] at h
    rw [hnid]
    by_cases hk : k' = k
    · rw [if_pos hk] at h
      injection h with h
      omega
    · rw [if_neg hk] at h
      have := hI.mapBound k' cid' h
      omega
  case poolBound =>
    intro cid' h
    rw [hpoolEq] at h
    rw [hnid]
    have := hI.poolBound cid' h
    omega
  case thBound =>
    intro j t cid' htj hcid'
    rw [hnid]
    rcases tset_cases htj with ⟨rfl, rfl⟩ | ⟨hne, htj'⟩
    · simp [Phase.refCid] at hcid'; omega
    · have := hI.thBound j t cid' htj' hcid'
      omega
  case poolNodup =>
    rw [hpoolEq]; exact hI.poolNodup
  case poolClean =>
    intro cid' hin'
    rw [hpoolEq, hp] at hin'
    cases hin'
  case poolUnmapped =>
    intro cid' k' hin' _
    rw [hpoolEq, hp] at hin'
    cases hin'
  case poolNoRef =>
    intro cid' j t hin' _
    rw [hpoolEq, hp] at hin'
    cases hin'
  case closedDone =>
    intro cid' h
    by_cases hc : cid' = c.gs.nextId
    · rw [hc, hheapEq] at h
      cases h
    · rw [hheapNe cid' hc] at h ⊢
      exact hI.closedDone cid' h
  case mapForgot =>
    intro k' cid' h
    rw [hmapAt] at h
    by_cases hk : k' = k
    · rw [if_pos hk] at h
      injection h with h
      rw [← h, hheapEq]
      rfl
    · rw [if_neg hk] at h
      rw [hheapNe cid' (Nat.ne_of_lt (hI.mapBound k' cid' h))]
      exact hI.mapForgot k' cid' h
  case mapOwner =>
    intro k' cid' h
    rw [hmapAt] at h
    by_cases hk : k' = k
    · rw [if_pos hk] at h
      injection h with h
      subst hk
      rw [← h, hheapEq]
      exact ⟨i, fn, ce, Or.inl tset_same⟩
    · rw [if_neg hk] at h
      obtain ⟨j, hRCj⟩ := hI.mapOwner k' cid' h
      have hjne : j ≠ i := by
        rintro rfl
        obtain ⟨fn0, ce0, h0 | h0⟩ := hRCj <;> (rw [ht] at h0; simp at h0)
      rw [hheapNe cid' (Nat.ne_of_lt (hI.mapBound k' cid' h))]
      obtain ⟨fn', ce', h0 | h0⟩ := hRCj
      · exact ⟨j, fn', ce', Or.inl (by
          show tset c.threads i _ j = _
          rw [tset_other hjne]; exact h0)⟩
      · exact ⟨j, fn', ce', Or.inr (by
          show tset c.threads i _ j = _
          rw [tset_other hjne]; exact h0)⟩
  case mapInj =>
    intro k1 k2 cid' h1 h2
    rw [hmapAt] at h1 h2
    by_cases hk1 : k1 = k <;> by_cases hk2 : k2 = k
    · rw [hk1, hk2]
    · rw [if_pos hk1] at h1
      rw [if_neg hk2] at h2
      injection h1 with h1
      have := hI.mapBound k2 cid' h2
      omega
    · rw [if_neg hk1] at h1
      rw [if_pos hk2] at h2
      injection h2 with h2
      have := hI.mapBound k1 cid' h1
      omega
    · rw [if_neg hk1] at h1
      rw [if_neg hk2] at h2
      exact hI.mapInj k1 k2 cid' h1 h2
  case ownerKey =>
    intro j k' cid' ep hRCj hforg
    obtain ⟨fn', ce', h0 | h0⟩ := hRCj
    all_goals
      rcases tset_cases h0 with ⟨rfl, hEq⟩ | ⟨hne, h0'⟩
    · injection hEq with hEq1 hEq2 hEq3
      injection hEq1 with hk hfn
      injection hEq3 with hEq3 hEq4
      rw [hmapAt, if_pos hk, hEq3]
    · have hcne : cid' ≠ c.gs.nextId :=
        hφne j _ cid' h0' (by rfl)
      rw [hheapNe cid' hcne] at hforg
      have hmk := hI.ownerKey j k' cid' ep ⟨fn', ce', Or.inl h0'⟩ hforg
      have hkne : k' ≠ k := by
        intro hEq; rw [hEq, hm] at hmk; cases hmk
      rw [hmapAt, if_neg hkne]
      exact hmk
    · injection hEq with hEq1 hEq2 hEq3
      exact absurd hEq3 (by simp)
    · have hcne : cid' ≠ c.gs.nextId :=
        hφne j _ cid' h0' (by rfl)
      rw [hheapNe cid' hcne] at hforg
      have hmk := hI.ownerKey j k' cid' ep ⟨fn', ce', Or.inr h0'⟩ hforg
      have hkne : k' ≠ k := by
        intro hEq; rw [hEq, hm] at hmk; cases hmk
      rw [hmapAt, if_neg hkne]
      exact hmk
  case liveEpoch =>
    intro j cid' ep hL
    obtain ⟨t, htj, hph⟩ := hL
    rcases tset_cases htj with ⟨rfl, rfl⟩ | ⟨hne, htj'⟩
    · rcases hph with h | h | h
      · injection h with h1 h2
        rw [← h1, ← h2, hheapEq]
        exact ⟨rfl, le_refl 1⟩
      · exact Phase.noConfusion h
      · exact Phase.noConfusion h
    · have hcne : cid' ≠ c.gs.nextId := by
        refine hφne j t cid' htj' ?_
        rcases hph with h | h | h <;> (rw [h]; rfl)
      rw [hheapNe cid' hcne]
      exact hI.liveEpoch j cid' ep ⟨t, htj', hph⟩
  case liveUnique =>
    intro j j' cid' ep ep' h1 h2
    obtain ⟨t1, ht1, hph1⟩ := h1
    obtain ⟨t2, ht2, hph2⟩ := h2
    rcases tset_cases ht1 with ⟨rfl, rfl⟩ | ⟨hne1, ht1'⟩ <;>
      rcases tset_cases ht2 with ⟨h2i, rfl⟩ | ⟨hne2, ht2'⟩
    · exact h2i.symm
    · exfalso
      have hc1 : cid' = c.gs.nextId := by
        rcases hph1 with h | h | h <;>
          first
            | (injection h with h1 h2; exact h1.symm)
            | exact Phase.noConfusion h
      refine hφne j' t2 cid' ht2' ?_ hc1
      rcases hph2 with h | h | h <;> (rw [h]; rfl)
    · exfalso
      have hc2 : cid' = c.gs.nextId := by
        rcases hph2 with h | h | h <;>
          first
            | (injection h with h1 h2; exact h1.symm)
            | exact Phase.noConfusion h
      refine hφne j t1 cid' ht1' ?_ hc2
      rcases hph1 with h | h | h <;> (rw [h]; rfl)
    · exact hI.liveUnique j j' cid' ep ep' ⟨t1, ht1', hph1⟩ ⟨t2, ht2', hph2⟩
  case doneEpoch =>
    intro j cid' ep hD
    obtain ⟨t, htj, hph⟩ := hD
    rcases tset_cases htj with ⟨rfl, rfl⟩ | ⟨hne, htj'⟩
    · exfalso
      rcases hph with ⟨v, sh, e, h⟩ | ⟨pe, h⟩ <;> exact Phase.noConfusion h
    · have hcne : cid' ≠ c.gs.nextId := by
        refine hφne j t cid' htj' ?_
        rcases hph with ⟨v, sh, e, h⟩ | ⟨pe, h⟩ <;> (rw [h]; rfl)
      rw [hheapNe cid' hcne]
      exact hI.doneEpoch j cid' ep ⟨t, htj', hph⟩
  case doneLtLive =>
    intro j j' cid' ep ep' hD hL
    obtain ⟨t1, ht1, hph1⟩ := hD
    obtain ⟨t2, ht2, hph2⟩ := hL
    rcases tset_cases ht1 with ⟨rfl, rfl⟩ | ⟨hne1, ht1'⟩
    · exfalso
      rcases hph1 with ⟨v, sh, e, h⟩ | ⟨pe, h⟩ <;> exact Phase.noConfusion h
    · rcases tset_cases ht2 with ⟨h2i, rfl⟩ | ⟨hne2, ht2'⟩
      · exfalso
        have hc : cid' = c.gs.nextId := by
          rcases hph2 with h | h | h <;>
            first
              | (injection h with h1 h2; exact h1.symm)
              | exact Phase.noConfusion h
        refine hφne j t1 cid' ht1' ?_ hc
        rcases hph1 with ⟨v, sh, e, h⟩ | ⟨pe, h⟩ <;> (rw [h]; rfl)
      · exact hI.doneLtLive j j' cid' ep ep' ⟨t1, ht1', hph1⟩ ⟨t2, ht2', hph2⟩
  case runClean =>
    intro j t cid' ep htj hph
    rcases tset_cases htj with ⟨rfl, rfl⟩ | ⟨hne, htj'⟩
    · simp only [Phase.leaderRun.injEq] at hph
      obtain ⟨rfl, rfl⟩ := hph
      rw [hheapEq]
      exact ⟨rfl, rfl⟩
    · have hcne : cid' ≠ c.gs.nextId :=
        hφne j t cid' htj' (by rw [hph]; rfl)
      rw [hheapNe cid' hcne]
      exact hI.runClean j t cid' ep htj' hph
  case finishClosed =>
    intro j t cid' ep htj hph
    rcases tset_cases htj with ⟨rfl, rfl⟩ | ⟨hne, htj'⟩
    · simp at hph
    · have hcne : cid' ≠ c.gs.nextId :=
        hφne j t cid' htj' (by rw [hph]; rfl)
      rw [hheapNe cid' hcne]
      exact hI.finishClosed j t cid' ep htj' hph
  case outcome =>
    intro j k' fn' ce' cid' ep h
    rcases h with h | h
    all_goals
      rcases tset_cases h with ⟨rfl, hEq⟩ | ⟨hne, h'⟩
    · injection hEq with hEq1 hEq2 hEq3
      exact absurd hEq3 (by simp)
    · have hcne : cid' ≠ c.gs.nextId := hφne j _ cid' h' (by rfl)
      rw [hheapNe cid' hcne]
      exact hI.outcome j k' fn' ce' cid' ep (Or.inl h')
    · injection hEq with hEq1 hEq2 hEq3
      exact absurd hEq3 (by simp)
    · have hcne : cid' ≠ c.gs.nextId := hφne j _ cid' h' (by rfl)
      rw [hheapNe cid' hcne]
      exact hI.outcome j k' fn' ce' cid' ep (Or.inr h')
  case waiter =>
    intro j t cid' ep htj hph
    rcases tset_cases htj with ⟨rfl, rfl⟩ | ⟨hne, htj'⟩
    · simp at hph
    · have hcne : cid' ≠ c.gs.nextId :=
        hφne j t cid' htj' (by rw [hph]; rfl)
      rw [hheapNe cid' hcne]
      exact hI.waiter j t cid' ep htj' hph
  case ldoneRet =>
    intro j k' fn' ce' v sh e cid' ep h
    rcases tset_cases h with ⟨rfl, hEq⟩ | ⟨hne, h'⟩
    · injection hEq with hEq1 hEq2 hEq3
      exact absurd hEq3 (by simp)
    · have hcne : cid' ≠ c.gs.nextId := hφne j _ cid' h' (by rfl)
      rw [hheapNe cid' hcne]
      exact hI.ldoneRet j k' fn' ce' v sh e cid' ep h'
  case ldonePanic =>
    intro j k' fn' ce' pe cid' ep h
    rcases tset_cases h with ⟨rfl, hEq⟩ | ⟨hne, h'⟩
    · injection hEq with hEq1 hEq2 hEq3
      exact absurd hEq3 (by simp)
    · have hcne : cid' ≠ c.gs.nextId := hφne j _ cid' h' (by rfl)
      rw [hheapNe cid' hcne]
      have hI' := hI.ldonePanic j k' fn' ce' pe cid' ep h'
      refine ⟨hI'.1, hI'.2.1, hI'.2.2.1, hI'.2.2.2.1, ?_⟩
      rw [hpoolEq]
      exact hI'.2.2.2.2
  case fObs =>
    intro j t v sh e cid' ep htj hph
    rcases tset_cases htj with ⟨rfl, rfl⟩ | ⟨hne, htj'⟩
    · simp at hph
    · have hcne : cid' ≠ c.gs.nextId :=
        hφne j t cid' htj' (by rw [hph]; rfl)
      rw [hheapNe cid' hcne]
      exact hI.fObs j t v sh e cid' ep htj' hph
  case fObsPanic =>
    intro j t pe cid' ep htj hph
    rcases tset_cases htj with ⟨rfl, rfl⟩ | ⟨hne, htj'⟩
    · simp at hph
    · have hcne : cid' ≠ c.gs.nextId :=
        hφne j t cid' htj' (by rw [hph]; rfl)
      rw [hheapNe cid' hcne]
      exact hI.fObsPanic j t pe cid' ep htj' hph
  case fCancel =>
    intro j t v sh e cid' ep htj hph
    rcases tset_cases htj with ⟨rfl, rfl⟩ | ⟨hne, htj'⟩
    · simp at hph
    · exact hI.fCancel j t v sh e cid' ep htj' hph

theorem inv_invokeOk {c : Config K V E P S} {i : Nat} {k : K} {v : V} {e : Option E}
    {ce : E} {cid ep : Nat} (hI : Inv c)
    (ht : c.threads i = some ⟨.doOp k (.ok v e), ce, .leaderRun cid ep⟩) :
    Inv (invokeOkCfg c i k v e ce cid ep) := by
  have hLi : LiveOwn c i cid ep := ⟨_, ht, Or.inl rfl⟩
  have hepi := hI.liveEpoch i cid ep hLi
  have hrc := hI.runClean i _ cid ep ht rfl
  have hnotpool : cid ∉ c.gs.pool := fun hin =>
    hI.poolNoRef cid i _ hin ht ⟨ep, Or.inr (Or.inl rfl)⟩
  have hcidlt : cid < c.gs.nextId := hI.thBound i _ cid ht rfl
  have hOnlyLive : ∀ j ep', LiveOwn c j cid ep' → j = i :=
    fun j ep' h => hI.liveUnique j i cid ep' ep h hLi
  have hheapNe : ∀ j, j ≠ cid →
      (invokeOkCfg c i k v e ce cid ep).gs.heap j = c.gs.heap j := by
    intro j hj; exact hset_other hj
  have hheapEq : (invokeOkCfg c i k v e ce cid ep).gs.heap cid =
      { c.gs.heap cid with val := v, err := e } := hset_same
  have hpe : ∀ cid', ((invokeOkCfg c i k v e ce cid ep).gs.heap cid').panicErr =
      (c.gs.heap cid').panicErr := by
    intro cid'
    by_cases hc : cid' = cid
    · rw [hc, hheapEq]
    · rw [hheapNe cid' hc]
  have hdn : ∀ cid', ((invokeOkCfg c i k v e ce cid ep).gs.heap cid').done =
      (c.gs.heap cid').done := by
    intro cid'
    by_cases hc : cid' = cid
    · rw [hc, hheapEq]
    · rw [hheapNe cid' hc]
  have hcl : ∀ cid', ((invokeOkCfg c i k v e ce cid ep).gs.heap cid').closed =
      (c.gs.heap cid').closed := by
    intro cid'
    by_cases hc : cid' = cid
    · rw [hc, hheapEq]
    · rw [hheapNe cid' hc]
  have hdp : ∀ cid', ((invokeOkCfg c i k v e ce cid ep).gs.heap cid').dups =
      (c.gs.heap cid').dups := by
    intro cid'
    by_cases hc : cid' = cid
    · rw [hc, hheapEq]
    · rw [hheapNe cid' hc]
  have hfg : ∀ cid', ((invokeOkCfg c i k v e ce cid ep).gs.heap cid').forgotten =
      (c.gs.heap cid').forgotten := by
    intro cid'
    by_cases hc : cid' = cid
    · rw [hc, hheapEq]
    · rw [hheapNe cid' hc]
  have hec : ∀ cid', ((invokeOkCfg c i k v e ce cid ep).gs.heap cid').epoch =
      (c.gs.heap cid').epoch := by
    intro cid'
    by_cases hc : cid' = cid
    · rw [hc, hheapEq]
    · rw [hheapNe cid' hc]
  have hnid : (invokeOkCfg c i k v e ce cid ep).gs.nextId = c.gs.nextId := rfl
  constructor
  case fresh =>
    intro cid' h
    rw [hnid] at h
    rw [hheapNe cid' (by omega)]
    exact hI.fresh cid' h
  case mapBound => exact hI.mapBound
  case poolBound => exact hI.poolBound
  case thBound =>
    intro j t cid' htj hcid'
    rw [hnid]
    rcases tset_cases htj with ⟨rfl, rfl⟩ | ⟨hne, htj'⟩
    · simp [Phase.refCid] at hcid'; omega
    · exact hI.thBound j t cid' htj' hcid'
  case poolNodup => exact hI.poolNodup
  case poolClean =>
    intro cid' hin
    have hne : cid' ≠ cid := fun h => hnotpool (h ▸ hin)
    rw [hheapNe cid' hne]
    exact hI.poolClean cid' hin
  case poolUnmapped => exact hI.poolUnmapped
  case poolNoRef =>
    intro cid' j t hin htj
    rcases tset_cases htj with ⟨rfl, rfl⟩ | ⟨hne, htj'⟩
    · rintro ⟨ep', h | h | h | h⟩ <;> simp only [Phase.leaderCleanup.injEq] at h
      any_goals exact Phase.noConfusion h
      exact hnotpool (h.1 ▸ hin)
    · exact hI.poolNoRef cid' j t hin htj'
  case closedDone =>
    intro cid' h
    rw [hcl] at h
    rw [hdn]
    exact hI.closedDone cid' h
  case mapForgot =>
    intro k' cid' h
    rw [hfg]
    exact hI.mapForgot k' cid' h
  case mapOwner =>
    intro k' cid' h
    obtain ⟨j, hRCj⟩ := hI.mapOwner k' cid' h
    rw [hec]
    by_cases hj : j = i
    · obtain ⟨fn', ce', h0 | h0⟩ := hRCj
      · rw [hj, ht] at h0
        injection h0 with h0
        injection h0 with hop hce hph
        injection hop with hk hfn
        injection hph with hcid hep
        refine ⟨i, .ok v e, ce, Or.inr ?_⟩
        rw [← hep, ← hk, ← hcid]
        exact tset_same
      · rw [hj, ht] at h0
        injection h0 with h0
        injection h0 with hop hce hph
        exact absurd hph (by simp)
    · obtain ⟨fn', ce', h0 | h0⟩ := hRCj
      · exact ⟨j, fn', ce', Or.inl (by
          show tset c.threads i _ j = _
          rw [tset_other hj]; exact h0)⟩
      · exact ⟨j, fn', ce', Or.inr (by
          show tset c.threads i _ j = _
          rw [tset_other hj]; exact h0)⟩
  case mapInj => exact hI.mapInj
  case ownerKey =>
    intro j k' cid' ep' hRCj hforg
    rw [hfg] at hforg
    obtain ⟨fn', ce', h0 | h0⟩ := hRCj
    all_goals
      rcases tset_cases h0 with ⟨rfl, hEq⟩ | ⟨hne, h0'⟩
    · injection hEq with hEq1 hEq2 hEq3
      exact absurd hEq3 (by simp)
    · exact hI.ownerKey j k' cid' ep' ⟨fn', ce', Or.inl h0'⟩ hforg
    · injection hEq with hEq1 hEq2 hEq3
      injection hEq1 with hk hfn
      injection hEq3 with hcid hep
      subst hk; subst hcid; subst hep
      exact hI.ownerKey j k' cid' ep' ⟨.ok v e, ce, Or.inl ht⟩ hforg
    · exact hI.ownerKey j k' cid' ep' ⟨fn', ce', Or.inr h0'⟩ hforg
  case liveEpoch =>
    intro j cid' ep' hL
    rw [hec]
    obtain ⟨t, htj, hph⟩ := hL
    rcases tset_cases htj with ⟨rfl, rfl⟩ | ⟨hne, htj'⟩
    · rcases hph with h | h | h
      · exact Phase.noConfusion h
      · injection h with h1 h2
        rw [← h1, ← h2]
        exact hepi
      · exact Phase.noConfusion h
    · exact hI.liveEpoch j cid' ep' ⟨t, htj', hph⟩
  case liveUnique =>
    intro j j' cid' ep1 ep2 h1 h2
    obtain ⟨t1, ht1, hph1⟩ := h1
    obtain ⟨t2, ht2, hph2⟩ := h2
    rcases tset_cases ht1 with ⟨rfl, rfl⟩ | ⟨hne1, ht1'⟩ <;>
      rcases tset_cases ht2 with ⟨h2i, rfl⟩ | ⟨hne2, ht2'⟩
    · exact h2i.symm
    · have hc1 : cid' = cid := by
        rcases hph1 with h | h | h <;>
          first
            | (injection h with h1 h2; exact h1.symm)
            | exact Phase.noConfusion h
      exact absurd (hOnlyLive j' ep2 ⟨t2, ht2', hc1 ▸ hph2⟩) hne2
    · have hc2 : cid' = cid := by
        rcases hph2 with h | h | h <;>
          first
            | (injection h with h1 h2; exact h1.symm)
            | exact Phase.noConfusion h
      exact absurd (hOnlyLive j ep1 ⟨t1, ht1', hc2 ▸ hph1⟩) hne1
    · exact hI.liveUnique j j' cid' ep1 ep2 ⟨t1, ht1', hph1⟩ ⟨t2, ht2', hph2⟩
  case doneEpoch =>
    intro j cid' ep' hD
    rw [hec]
    obtain ⟨t, htj, hph⟩ := hD
    rcases tset_cases htj with ⟨rfl, rfl⟩ | ⟨hne, htj'⟩
    · exfalso
      rcases hph with ⟨v0, sh0, e0, h⟩ | ⟨pe, h⟩ <;> exact Phase.noConfusion h
    · exact hI.doneEpoch j cid' ep' ⟨t, htj', hph⟩
  case doneLtLive =>
    intro j j' cid' ep1 ep2 hD hL
    obtain ⟨t1, ht1, hph1⟩ := hD
    obtain ⟨t2, ht2, hph2⟩ := hL
    rcases tset_cases ht1 with ⟨rfl, rfl⟩ | ⟨hne1, ht1'⟩
    · exfalso
      rcases hph1 with ⟨v0, sh0, e0, h⟩ | ⟨pe, h⟩ <;> exact Phase.noConfusion h
    · rcases tset_cases ht2 with ⟨h2i, rfl⟩ | ⟨hne2, ht2'⟩
      · have hc : cid' = cid ∧ ep2 = ep := by
          rcases hph2 with h | h | h <;>
            first
              | (injection h with h1 h2; exact ⟨h1.symm, h2.symm⟩)
              | exact Phase.noConfusion h
        obtain ⟨hcc, hee⟩ := hc
        rw [hcc] at hph1
        rw [hee]
        exact hI.doneLtLive j i cid ep1 ep ⟨t1, ht1', hph1⟩ hLi
      · exact hI.doneLtLive j j' cid' ep1 ep2 ⟨t1, ht1', hph1⟩ ⟨t2, ht2', hph2⟩
  case runClean =>
    intro j t cid' ep' htj hph
    rw [hcl, hpe]
    rcases tset_cases htj with ⟨rfl, rfl⟩ | ⟨hne, htj'⟩
    · simp at hph
    · exact hI.runClean j t cid' ep' htj' hph
  case finishClosed =>
    intro j t cid' ep' htj hph hdone
    rw [hdn] at hdone
    rw [hcl]
    rcases tset_cases htj with ⟨rfl, rfl⟩ | ⟨hne, htj'⟩
    · simp at hph
    · exact hI.finishClosed j t cid' ep' htj' hph hdone
  case outcome =>
    intro j k' fn' ce' cid' ep' h
    rcases h with h | h
    all_goals
      rcases tset_cases h with ⟨rfl, hEq⟩ | ⟨hne, h'⟩
    · injection hEq with hEq1 hEq2 hEq3
      injection hEq1 with hk hfn
      injection hEq3 with hcid hep
      rw [hfn, hcid, hheapEq]
      exact ⟨rfl, rfl, hrc.2⟩
    · by_cases hc : cid' = cid
      · exfalso
        have hLj : LiveOwn c j cid ep' :=
          ⟨_, h', Or.inr (Or.inl (by rw [← hc]))⟩
        exact hne (hOnlyLive j ep' hLj)
      · rw [hheapNe cid' hc]
        exact hI.outcome j k' fn' ce' cid' ep' (Or.inl h')
    · injection hEq with hEq1 hEq2 hEq3
      exact absurd hEq3 (by simp)
    · by_cases hc : cid' = cid
      · exfalso
        have hLj : LiveOwn c j cid ep' :=
          ⟨_, h', Or.inr (Or.inr (by rw [← hc]))⟩
        exact hne (hOnlyLive j ep' hLj)
      · rw [hheapNe cid' hc]
        exact hI.outcome j k' fn' ce' cid' ep' (Or.inr h')
  case waiter =>
    intro j t cid' ep' htj hph
    rw [hdn, hec]
    rcases tset_cases htj with ⟨rfl, rfl⟩ | ⟨hne, htj'⟩
    · simp at hph
    · exact hI.waiter j t cid' ep' htj' hph
  case ldoneRet =>
    intro j k' fn' ce' v' sh e' cid' ep' h
    rcases tset_cases h with ⟨rfl, hEq⟩ | ⟨hne, h'⟩
    · injection hEq with hEq1 hEq2 hEq3
      exact absurd hEq3 (by simp)
    · have hI' := hI.ldoneRet j k' fn' ce' v' sh e' cid' ep' h'
      by_cases hc : cid' = cid
      · refine ⟨hI'.1, ?_⟩
        intro hguard
        exfalso
        have hD : DoneOwn c j cid' ep' := ⟨_, h', Or.inl ⟨v', sh, e', rfl⟩⟩
        rw [hc] at hD
        have hlt := hI.doneLtLive j i cid ep' ep hD hLi
        rw [hec, hc] at hguard
        omega
      · rw [hheapNe cid' hc]
        exact hI'
  case ldonePanic =>
    intro j k' fn' ce' pe cid' ep' h
    rcases tset_cases h with ⟨rfl, hEq⟩ | ⟨hne, h'⟩
    · injection hEq with hEq1 hEq2 hEq3
      exact absurd hEq3 (by simp)
    · have hI' := hI.ldonePanic j k' fn' ce' pe cid' ep' h'
      by_cases hc : cid' = cid
      · exfalso
        have hD : DoneOwn c j cid' ep' := ⟨_, h', Or.inr ⟨pe, rfl⟩⟩
        rw [hc] at hD
        have hlt := hI.doneLtLive j i cid ep' ep hD hLi
        rw [hc] at hI'
        have heq : ep' = ep := by rw [← hI'.2.2.1]; exact hepi.1
        omega
      · rw [hheapNe cid' hc]
        exact hI'
  case fObs =>
    intro j t v' sh e' cid' ep' htj hph
    rcases tset_cases htj with ⟨rfl, rfl⟩ | ⟨hne, htj'⟩
    · simp at hph
    · have h := hI.fObs j t v' sh e' cid' ep' htj' hph
      by_cases hc : cid' = cid
      · exfalso
        rw [hc, hrc.1] at h
        exact Bool.noConfusion h.2.1
      · rw [hheapNe cid' hc]
        exact h
  case fObsPanic =>
    intro j t pe cid' ep' htj hph
    rcases tset_cases htj with ⟨rfl, rfl⟩ | ⟨hne, htj'⟩
    · simp at hph
    · have h := hI.fObsPanic j t pe cid' ep' htj' hph
      by_cases hc : cid' = cid
      · exfalso
        rw [hc, hrc.1] at h
        exact Bool.noConfusion h.1
      · rw [hheapNe cid' hc]
        exact h
  case fCancel =>
    intro j t v' sh e' cid' ep' htj hph
    rcases tset_cases htj with ⟨rfl, rfl⟩ | ⟨hne, htj'⟩
    · simp at hph
    · exact hI.fCancel j t v' sh e' cid' ep' htj' hph

theorem inv_invokePanic {c : Config K V E P S} {i : Nat} {k : K} {p : P} {s : S}
    {ce : E} {cid ep : Nat} (hI : Inv c)
    (ht : c.threads i = some ⟨.doOp k (.panics p s), ce, .leaderRun cid ep⟩) :
    Inv (invokePanicCfg c i k p s ce cid ep) := by
  have hLi : LiveOwn c i cid ep := ⟨_, ht, Or.inl rfl⟩
  have hepi := hI.liveEpoch i cid ep hLi
  have hrc := hI.runClean i _ cid ep ht rfl
  have hnotpool : cid ∉ c.gs.pool := fun hin =>
    hI.poolNoRef cid i _ hin ht ⟨ep, Or.inr (Or.inl rfl)⟩
  have hcidlt : cid < c.gs.nextId := hI.thBound i _ cid ht rfl
  have hOnlyLive : ∀ j ep', LiveOwn c j cid ep' → j = i :=
    fun j ep' h => hI.liveUnique j i cid ep' ep h hLi
  have hheapNe : ∀ j, j ≠ cid →
      (invokePanicCfg c i k p s ce cid ep).gs.heap j = c.gs.heap j := by
    intro j hj; exact hset_other hj
  have hheapEq : (invokePanicCfg c i k p s ce cid ep).gs.heap cid =
      { c.gs.heap cid with panicErr := some (p, s) } := hset_same
  have hdn : ∀ cid', ((invokePanicCfg c i k p s ce cid ep).gs.heap cid').done =
      (c.gs.heap cid').done := by
    intro cid'
    by_cases hc : cid' = cid
    · rw [hc, hheapEq]
    · rw [hheapNe cid' hc]
  have hcl : ∀ cid', ((invokePanicCfg c i k p s ce cid ep).gs.heap cid').closed =
      (c.gs.heap cid').closed := by
    intro cid'
    by_cases hc : cid' = cid
    · rw [hc, hheapEq]
    · rw [hheapNe cid' hc]
  have hfg : ∀ cid', ((invokePanicCfg c i k p s ce cid ep).gs.heap cid').forgotten =
      (c.gs.heap cid').forgotten := by
    intro cid'
    by_cases hc : cid' = cid
    · rw [hc, hheapEq]
    · rw [hheapNe cid' hc]
  have hec : ∀ cid', ((invokePanicCfg c i k p s ce cid ep).gs.heap cid').epoch =
      (c.gs.heap cid').epoch := by
    intro cid'
    by_cases hc : cid' = cid
    · rw [hc, hheapEq]
    · rw [hheapNe cid' hc]
  have hnid : (invokePanicCfg c i k p s ce cid ep).gs.nextId = c.gs.nextId := rfl
  constructor
  case fresh =>
    intro cid' h
    rw [hnid] at h
    rw [hheapNe cid' (by omega)]
    exact hI.fresh cid' h
  case mapBound => exact hI.mapBound
  case poolBound => exact hI.poolBound
  case thBound =>
    intro j t cid' htj hcid'
    rw [hnid]
    rcases tset_cases htj with ⟨rfl, rfl⟩ | ⟨hne, htj'⟩
    · simp [Phase.refCid] at hcid'; omega
    · exact hI.thBound j t cid' htj' hcid'
  case poolNodup => exact hI.poolNodup
  case poolClean =>
    intro cid' hin
    have hne : cid' ≠ cid := fun h => hnotpool (h ▸ hin)
    rw [hheapNe cid' hne]
    exact hI.poolClean cid' hin
  case poolUnmapped => exact hI.poolUnmapped
  case poolNoRef =>
    intro cid' j t hin htj
    rcases tset_cases htj with ⟨rfl, rfl⟩ | ⟨hne, htj'⟩
    · rintro ⟨ep', h | h | h | h⟩ <;> simp only [Phase.leaderCleanup.injEq] at h
      any_goals exact Phase.noConfusion h
      exact hnotpool (h.1 ▸ hin)
    · exact hI.poolNoRef cid' j t hin htj'
  case closedDone =>
    intro cid' h
    rw [hcl] at h
    rw [hdn]
    exact hI.closedDone cid' h
  case mapForgot =>
    intro k' cid' h
    rw [hfg]
    exact hI.mapForgot k' cid' h
  case mapOwner =>
    intro k' cid' h
    obtain ⟨j, hRCj⟩ := hI.mapOwner k' cid' h
    rw [hec]
    by_cases hj : j = i
    · obtain ⟨fn', ce', h0 | h0⟩ := hRCj
      · rw [hj, ht] at h0
        injection h0 with h0
        injection h0 with hop hce hph
        injection hop with hk hfn
        injection hph with hcid hep
        refine ⟨i, .panics p s, ce, Or.inr ?_⟩
        rw [← hep, ← hk, ← hcid]
        exact tset_same
      · rw [hj, ht] at h0
        injection h0 with h0
        injection h0 with hop hce hph
        exact absurd hph (by simp)
    · obtain ⟨fn', ce', h0 | h0⟩ := hRCj
      · exact ⟨j, fn', ce', Or.inl (by
          show tset c.threads i _ j = _
          rw [tset_other hj]; exact h0)⟩
      · exact ⟨j, fn', ce', Or.inr (by
          show tset c.threads i _ j = _
          rw [tset_other hj]; exact h0)⟩
  case mapInj => exact hI.mapInj
  case ownerKey =>
    intro j k' cid' ep' hRCj hforg
    rw [hfg] at hforg
    obtain ⟨fn', ce', h0 | h0⟩ := hRCj
    all_goals
      rcases tset_cases h0 with ⟨rfl, hEq⟩ | ⟨hne, h0'⟩
    · injection hEq with hEq1 hEq2 hEq3
      exact absurd hEq3 (by simp)
    · exact hI.ownerKey j k' cid' ep' ⟨fn', ce', Or.inl h0'⟩ hforg
    · injection hEq with hEq1 hEq2 hEq3
      injection hEq1 with hk hfn
      injection hEq3 with hcid hep
      subst hk; subst hcid; subst hep
      exact hI.ownerKey j k' cid' ep' ⟨.panics p s, ce, Or.inl ht⟩ hforg
    · exact hI.ownerKey j k' cid' ep' ⟨fn', ce', Or.inr h0'⟩ hforg
  case liveEpoch =>
    intro j cid' ep' hL
    rw [hec]
    obtain ⟨t, htj, hph⟩ := hL
    rcases tset_cases htj with ⟨rfl, rfl⟩ | ⟨hne, htj'⟩
    · rcases hph with h | h | h
      · exact Phase.noConfusion h
      · injection h with h1 h2
        rw [← h1, ← h2]
        exact hepi
      · exact Phase.noConfusion h
    · exact hI.liveEpoch j cid' ep' ⟨t, htj', hph⟩
  case liveUnique =>
    intro j j' cid' ep1 ep2 h1 h2
    obtain ⟨t1, ht1, hph1⟩ := h1
    obtain ⟨t2, ht2, hph2⟩ := h2
    rcases tset_cases ht1 with ⟨rfl, rfl⟩ | ⟨hne1, ht1'⟩ <;>
      rcases tset_cases ht2 with ⟨h2i, rfl⟩ | ⟨hne2, ht2'⟩
    · exact h2i.symm
    · have hc1 : cid' = cid := by
        rcases hph1 with h | h | h <;>
          first
            | (injection h with h1 h2; exact h1.symm)
            | exact Phase.noConfusion h
      exact absurd (hOnlyLive j' ep2 ⟨t2, ht2', hc1 ▸ hph2⟩) hne2
    · have hc2 : cid' = cid := by
        rcases hph2 with h | h | h <;>
          first
            | (injection h with h1 h2; exact h1.symm)
            | exact Phase.noConfusion h
      exact absurd (hOnlyLive j ep1 ⟨t1, ht1', hc2 ▸ hph1⟩) hne1
    · exact hI.liveUnique j j' cid' ep1 ep2 ⟨t1, ht1', hph1⟩ ⟨t2, ht2', hph2⟩
  case doneEpoch =>
    intro j cid' ep' hD
    rw [hec]
    obtain ⟨t, htj, hph⟩ := hD
    rcases tset_cases htj with ⟨rfl, rfl⟩ | ⟨hne, htj'⟩
    · exfalso
      rcases hph with ⟨v0, sh0, e0, h⟩ | ⟨pe, h⟩ <;> exact Phase.noConfusion h
    · exact hI.doneEpoch j cid' ep' ⟨t, htj', hph⟩
  case doneLtLive =>
    intro j j' cid' ep1 ep2 hD hL
    obtain ⟨t1, ht1, hph1⟩ := hD
    obtain ⟨t2, ht2, hph2⟩ := hL
    rcases tset_cases ht1 with ⟨rfl, rfl⟩ | ⟨hne1, ht1'⟩
    · exfalso
      rcases hph1 with ⟨v0, sh0, e0, h⟩ | ⟨pe, h⟩ <;> exact Phase.noConfusion h
    · rcases tset_cases ht2 with ⟨h2i, rfl⟩ | ⟨hne2, ht2'⟩
      · have hc : cid' = cid ∧ ep2 = ep := by
          rcases hph2 with h | h | h <;>
            first
              | (injection h with h1 h2; exact ⟨h1.symm, h2.symm⟩)
              | exact Phase.noConfusion h
        obtain ⟨hcc, hee⟩ := hc
        rw [hcc] at hph1
        rw [hee]
        exact hI.doneLtLive j i cid ep1 ep ⟨t1, ht1', hph1⟩ hLi
      · exact hI.doneLtLive j j' cid' ep1 ep2 ⟨t1, ht1', hph1⟩ ⟨t2, ht2', hph2⟩
  case runClean =>
    intro j t cid' ep' htj hph
    rcases tset_cases htj with ⟨rfl, rfl⟩ | ⟨hne, htj'⟩
    · simp at hph
    · by_cases hc : cid' = cid
      · exfalso
        have hLj : LiveOwn c j cid ep' :=
          ⟨t, htj', Or.inl (by rw [← hc]; exact hph)⟩
        exact hne (hOnlyLive j ep' hLj)
      · rw [hheapNe cid' hc]
        exact hI.runClean j t cid' ep' htj' hph
  case finishClosed =>
    intro j t cid' ep' htj hph hdone
    rw [hdn] at hdone
    rw [hcl]
    rcases tset_cases htj with ⟨rfl, rfl⟩ | ⟨hne, htj'⟩
    · simp at hph
    · exact hI.finishClosed j t cid' ep' htj' hph hdone
  case outcome =>
    intro j k' fn' ce' cid' ep' h
    rcases h with h | h
    all_goals
      rcases tset_cases h with ⟨rfl, hEq⟩ | ⟨hne, h'⟩
    · injection hEq with hEq1 hEq2 hEq3
      injection hEq1 with hk hfn
      injection hEq3 with hcid hep
      rw [hfn, hcid, hheapEq]
      exact rfl
    · by_cases hc : cid' = cid
      · exfalso
        have hLj : LiveOwn c j cid ep' :=
          ⟨_, h', Or.inr (Or.inl (by rw [← hc]))⟩
        exact hne (hOnlyLive j ep' hLj)
      · rw [hheapNe cid' hc]
        exact hI.outcome j k' fn' ce' cid' ep' (Or.inl h')
    · injection hEq with hEq1 hEq2 hEq3
      exact absurd hEq3 (by simp)
    · by_cases hc : cid' = cid
      · exfalso
        have hLj : LiveOwn c j cid ep' :=
          ⟨_, h', Or.inr (Or.inr (by rw [← hc]))⟩
        exact hne (hOnlyLive j ep' hLj)
      · rw [hheapNe cid' hc]
        exact hI.outcome j k' fn' ce' cid' ep' (Or.inr h')
  case waiter =>
    intro j t cid' ep' htj hph
    rw [hdn, hec]
    rcases tset_cases htj with ⟨rfl, rfl⟩ | ⟨hne, htj'⟩
    · simp at hph
    · exact hI.waiter j t cid' ep' htj' hph
  case ldoneRet =>
    intro j k' fn' ce' v' sh e' cid' ep' h
    rcases tset_cases h with ⟨rfl, hEq⟩ | ⟨hne, h'⟩
    · injection hEq with hEq1 hEq2 hEq3
      exact absurd hEq3 (by simp)
    · have hI' := hI.ldoneRet j k' fn' ce' v' sh e' cid' ep' h'
      by_cases hc : cid' = cid
      · refine ⟨hI'.1, ?_⟩
        intro hguard
        exfalso
        have hD : DoneOwn c j cid' ep' := ⟨_, h', Or.inl ⟨v', sh, e', rfl⟩⟩
        rw [hc] at hD
        have hlt := hI.doneLtLive j i cid ep' ep hD hLi
        rw [hec, hc] at hguard
        omega
      · rw [hheapNe cid' hc]
        exact hI'
  case ldonePanic =>
    intro j k' fn' ce' pe cid' ep' h
    rcases tset_cases h with ⟨rfl, hEq⟩ | ⟨hne, h'⟩
    · injection hEq with hEq1 hEq2 hEq3
      exact absurd hEq3 (by simp)
    · have hI' := hI.ldonePanic j k' fn' ce' pe cid' ep' h'
      by_cases hc : cid' = cid
      · exfalso
        have hD : DoneOwn c j cid' ep' := ⟨_, h', Or.inr ⟨pe, rfl⟩⟩
        rw [hc] at hD
        have hlt := hI.doneLtLive j i cid ep' ep hD hLi
        rw [hc] at hI'
        have heq : ep' = ep := by rw [← hI'.2.2.1]; exact hepi.1
        omega
      · rw [hheapNe cid' hc]
        exact hI'
  case fObs =>
    intro j t v' sh e' cid' ep' htj hph
    rcases tset_cases htj with ⟨rfl, rfl⟩ | ⟨hne, htj'⟩
    · simp at hph
    · have h := hI.fObs j t v' sh e' cid' ep' htj' hph
      by_cases hc : cid' = cid
      · exfalso
        rw [hc, hrc.1] at h
        exact Bool.noConfusion h.2.1
      · rw [hheapNe cid' hc]
        exact h
  case fObsPanic =>
    intro j t pe cid' ep' htj hph
    rcases tset_cases htj with ⟨rfl, rfl⟩ | ⟨hne, htj'⟩
    · simp at hph
    · have h := hI.fObsPanic j t pe cid' ep' htj' hph
      by_cases hc : cid' = cid
      · exfalso
        rw [hc, hrc.1] at h
        exact Bool.noConfusion h.1
      · rw [hheapNe cid' hc]
        exact h
  case fCancel =>
    intro j t v' sh e' cid' ep' htj hph
    rcases tset_cases htj with ⟨rfl, rfl⟩ | ⟨hne, htj'⟩
    · simp at hph
    · exact hI.fCancel j t v' sh e' cid' ep' htj' hph

theorem inv_cleanup {c : Config K V E P S} {i : Nat} {k : K} {fn : FnRes V E P S}
    {ce : E} {cid ep : Nat} (hI : Inv c)
    (ht : c.threads i = some ⟨.doOp k fn, ce, .leaderCleanup cid ep⟩) :
    Inv (cleanupCfg c i k fn ce cid ep) := by
  have hLi : LiveOwn c i cid ep := ⟨_, ht, Or.inr (Or.inl rfl)⟩
  have hepi := hI.liveEpoch i cid ep hLi
  have hout := hI.outcome i k fn ce cid ep (Or.inl ht)
  have hnotpool : cid ∉ c.gs.pool := fun hin =>
    hI.poolNoRef cid i _ hin ht ⟨ep, Or.inr (Or.inr (Or.inl rfl))⟩
  have hcidlt : cid < c.gs.nextId := hI.thBound i _ cid ht rfl
  have hOnlyLive : ∀ j ep', LiveOwn c j cid ep' → j = i :=
    fun j ep' h => hI.liveUnique j i cid ep' ep h hLi
  have hheapNe : ∀ j, j ≠ cid →
      (cleanupCfg c i k fn ce cid ep).gs.heap j = c.gs.heap j := by
    intro j hj; exact hset_other hj
  have hr' : (cleanupCfg c i k fn ce cid ep).gs.heap cid =
      (if (c.gs.heap cid).done then { c.gs.heap cid with closed := true }
       else c.gs.heap cid) := hset_same
  have hvl : ∀ cid', ((cleanupCfg c i k fn ce cid ep).gs.heap cid').val =
      (c.gs.heap cid').val := by
    intro cid'
    by_cases hc : cid' = cid
    · rw [hc, hr']
      by_cases hd : (c.gs.heap cid).done = true
      · rw [if_pos hd]
      · rw [if_neg hd]
    · rw [hheapNe cid' hc]
  have her : ∀ cid', ((cleanupCfg c i k fn ce cid ep).gs.heap cid').err =
      (c.gs.heap cid').err := by
    intro cid'
    by_cases hc : cid' = cid
    · rw [hc, hr']
      by_cases hd : (c.gs.heap cid).done = true
      · rw [if_pos hd]
      · rw [if_neg hd]
    · rw [hheapNe cid' hc]
  have hpe : ∀ cid', ((cleanupCfg c i k fn ce cid ep).gs.heap cid').panicErr =
      (c.gs.heap cid').panicErr := by
    intro cid'
    by_cases hc : cid' = cid
    · rw [hc, hr']
      by_cases hd : (c.gs.heap cid).done = true
      · rw [if_pos hd]
      · rw [if_neg hd]
    · rw [hheapNe cid' hc]
  have hdn : ∀ cid', ((cleanupCfg c i k fn ce cid ep).gs.heap cid').done =
      (c.gs.heap cid').done := by
    intro cid'
    by_cases hc : cid' = cid
    · rw [hc, hr']
      by_cases hd : (c.gs.heap cid).done = true
      · rw [if_pos hd]
      · rw [if_neg hd]
    · rw [hheapNe cid' hc]
  have hdp : ∀ cid', ((cleanupCfg c i k fn ce cid ep).gs.heap cid').dups =
      (c.gs.heap cid').dups := by
    intro cid'
    by_cases hc : cid' = cid
    · rw [hc, hr']
      by_cases hd : (c.gs.heap cid).done = true
      · rw [if_pos hd]
      · rw [if_neg hd]
    · rw [hheapNe cid' hc]
  have hfg : ∀ cid', ((cleanupCfg c i k fn ce cid ep).gs.heap cid').forgotten =
      (c.gs.heap cid').forgotten := by
    intro cid'
    by_cases hc : cid' = cid
    · rw [hc, hr']
      by_cases hd : (c.gs.heap cid).done = true
      · rw [if_pos hd]
      · rw [if_neg hd]
    · rw [hheapNe cid' hc]
  have hec : ∀ cid', ((cleanupCfg c i k fn ce cid ep).gs.heap cid').epoch =
      (c.gs.heap cid').epoch := by
    intro cid'
    by_cases hc : cid' = cid
    · rw [hc, hr']
      by_cases hd : (c.gs.heap cid).done = true
      · rw [if_pos hd]
      · rw [if_neg hd]
    · rw [hheapNe cid' hc]
  have hclMono : ∀ cid', (c.gs.heap cid').closed = true →
      ((cleanupCfg c i k fn ce cid ep).gs.heap cid').closed = true := by
    intro cid' h
    by_cases hc : cid' = cid
    · rw [hc, hr']
      by_cases hd : (c.gs.heap cid).done = true
      · rw [if_pos hd]
      · rw [if_neg hd]; rw [hc] at h; exact h
    · rw [hheapNe cid' hc]; exact h
  have hclDone : (c.gs.heap cid).done = true →
      ((cleanupCfg c i k fn ce cid ep).gs.heap cid).closed = true := by
    intro hd
    rw [hr', if_pos hd]
  have hmapAt : ∀ k', mapOf (cleanupCfg c i k fn ce cid ep).gs k' =
      if (c.gs.heap cid).forgotten then mapOf c.gs k'
      else (if k' = k then none else mapOf c.gs k') := by
    intro k'
    by_cases hf : (c.gs.heap cid).forgotten = true
    · rw [if_pos hf]
      show ((if (c.gs.heap cid).forgotten then c.gs.calls
          else c.gs.calls.map (fun m => mset m k none)).getD (fun _ => none)) k' = _
      rw [if_pos hf]
      rfl
    · rw [if_neg hf]
      show ((if (c.gs.heap cid).forgotten then c.gs.calls
          else c.gs.calls.map (fun m => mset m k none)).getD (fun _ => none)) k' = _
      rw [if_neg hf]
      exact getD_map_mset c.gs.calls k k'
  have hmapLe : ∀ k' cid'', mapOf (cleanupCfg c i k fn ce cid ep).gs k' = some cid'' →
      mapOf c.gs k' = some cid'' := by
    intro k' cid'' h
    rw [hmapAt] at h
    by_cases hf : (c.gs.heap cid).forgotten = true
    · rwa [if_pos hf] at h
    · rw [if_neg hf] at h
      by_cases hk : k' = k
      · rw [if_pos hk] at h; cases h
      · rwa [if_neg hk] at h
  have hnid : (cleanupCfg c i k fn ce cid ep).gs.nextId = c.gs.nextId := rfl
  have hpoolEq : (cleanupCfg c i k fn ce cid ep).gs.pool = c.gs.pool := rfl
  constructor
  case fresh =>
    intro cid' h
    rw [hnid] at h
    rw [hheapNe cid' (by omega)]
    exact hI.fresh cid' h
  case mapBound =>
    intro k' cid' h
    rw [hnid]
    exact hI.mapBound k' cid' (hmapLe k' cid' h)
  case poolBound =>
    intro cid' h
    rw [hpoolEq] at h
    rw [hnid]
    exact hI.poolBound cid' h
  case thBound =>
    intro j t cid' htj hcid'
    rw [hnid]
    rcases tset_cases htj with ⟨rfl, rfl⟩ | ⟨hne, htj'⟩
    · simp [Phase.refCid] at hcid'; omega
    · exact hI.thBound j t cid' htj' hcid'
  case poolNodup =>
    rw [hpoolEq]; exact hI.poolNodup
  case poolClean =>
    intro cid' hin
    rw [hpoolEq] at hin
    have hne : cid' ≠ cid := fun h => hnotpool (h ▸ hin)
    rw [hheapNe cid' hne]
    exact hI.poolClean cid' hin
  case poolUnmapped =>
    intro cid' k' hin hmap
    rw [hpoolEq] at hin
    exact hI.poolUnmapped cid' k' hin (hmapLe k' cid' hmap)
  case poolNoRef =>
    intro cid' j t hin htj
    rw [hpoolEq] at hin
    rcases tset_cases htj with ⟨rfl, rfl⟩ | ⟨hne, htj'⟩
    · rintro ⟨ep', h | h | h | h⟩ <;> simp only [Phase.leaderFinish.injEq] at h
      any_goals exact Phase.noConfusion h
      exact hnotpool (h.1 ▸ hin)
    · exact hI.poolNoRef cid' j t hin htj'
  case closedDone =>
    intro cid' h
    rw [hdn]
    by_cases hc : cid' = cid
    · by_cases hd : (c.gs.heap cid).done = true
      · rw [hc]; exact hd
      · rw [hc, hr', if_neg hd] at h
        rw [hc]
        exact hI.closedDone cid h
    · rw [hheapNe cid' hc] at h
      exact hI.closedDone cid' h
  case mapForgot =>
    intro k' cid' h
    rw [hfg]
    exact hI.mapForgot k' cid' (hmapLe k' cid' h)
  case mapOwner =>
    intro k' cid' h
    have hmOld := hmapLe k' cid' h
    obtain ⟨j, hRCj⟩ := hI.mapOwner k' cid' hmOld
    have hcne : cid' ≠ cid := by
      intro hEq
      rw [hEq] at hmOld
      have hforg := hI.mapForgot k' cid hmOld
      have hmk := hI.ownerKey i k cid ep ⟨fn, ce, Or.inr ht⟩ hforg
      have hkk := hI.mapInj k' k cid hmOld hmk
      rw [hmapAt, hforg] at h
      simp only [Bool.false_eq_true, if_false] at h
      rw [if_pos hkk] at h
      rw [hEq] at h
      cases h
    have hjne : j ≠ i := by
      rintro rfl
      obtain ⟨fn0, ce0, h0 | h0⟩ := hRCj
      · rw [ht] at h0
        injection h0 with h0
        injection h0 with hop hce hph
        exact absurd hph (by simp)
      · rw [ht] at h0
        injection h0 with h0
        injection h0 with hop hce hph
        injection hph with hc1 hc2
        exact hcne hc1.symm
    rw [hec]
    obtain ⟨fn', ce', h0 | h0⟩ := hRCj
    · exact ⟨j, fn', ce', Or.inl (by
        show tset c.threads i _ j = _
        rw [tset_other hjne]; exact h0)⟩
    · exact ⟨j, fn', ce', Or.inr (by
        show tset c.threads i _ j = _
        rw [tset_other hjne]; exact h0)⟩
  case mapInj =>
    intro k1 k2 cid' h1 h2
    exact hI.mapInj k1 k2 cid' (hmapLe k1 cid' h1) (hmapLe k2 cid' h2)
  case ownerKey =>
    intro j k' cid' ep' hRCj hforg
    rw [hfg] at hforg
    obtain ⟨fn', ce', h0 | h0⟩ := hRCj
    · rcases tset_cases h0 with ⟨rfl, hEq⟩ | ⟨hne, h0'⟩
      · injection hEq with hEq1 hEq2 hEq3
        exact absurd hEq3 (by simp)
      · have hRCold : RCOwn c j k' cid' ep' := ⟨fn', ce', Or.inl h0'⟩
        have hcne : cid' ≠ cid := by
          intro hEq
          exact hne (hOnlyLive j ep' (hEq ▸ hRCold.toLive))
        have hmk' := hI.ownerKey j k' cid' ep' hRCold hforg
        rw [hmapAt]
        by_cases hf : (c.gs.heap cid).forgotten = true
        · rw [if_pos hf]; exact hmk'
        · rw [if_neg hf]
          have hkne : k' ≠ k := by
            intro hEq
            have hforgcid : (c.gs.heap cid).forgotten = false :=
              Bool.eq_false_iff.mpr hf
            have hmk := hI.ownerKey i k cid ep ⟨fn, ce, Or.inr ht⟩ hforgcid
            rw [hEq, hmk] at hmk'
            injection hmk' with h2
            exact hcne h2.symm
          rw [if_neg hkne]
          exact hmk'
    · rcases tset_cases h0 with ⟨rfl, hEq⟩ | ⟨hne, h0'⟩
      · injection hEq with hEq1 hEq2 hEq3
        exact absurd hEq3 (by simp)
      · have hRCold : RCOwn c j k' cid' ep' := ⟨fn', ce', Or.inr h0'⟩
        have hcne : cid' ≠ cid := by
          intro hEq
          exact hne (hOnlyLive j ep' (hEq ▸ hRCold.toLive))
        have hmk' := hI.ownerKey j k' cid' ep' hRCold hforg
        rw [hmapAt]
        by_cases hf : (c.gs.heap cid).forgotten = true
        · rw [if_pos hf]; exact hmk'
        · rw [if_neg hf]
          have hkne : k' ≠ k := by
            intro hEq
            have hforgcid : (c.gs.heap cid).forgotten = false :=
              Bool.eq_false_iff.mpr hf
            have hmk := hI.ownerKey i k cid ep ⟨fn, ce, Or.inr ht⟩ hforgcid
            rw [hEq, hmk] at hmk'
            injection hmk' with h2
            exact hcne h2.symm
          rw [if_neg hkne]
          exact hmk'
  case liveEpoch =>
    intro j cid' ep' hL
    rw [hec]
    obtain ⟨t, htj, hph⟩ := hL
    rcases tset_cases htj with ⟨rfl, rfl⟩ | ⟨hne, htj'⟩
    · rcases hph with h | h | h
      · exact Phase.noConfusion h
      · exact Phase.noConfusion h
      · injection h with h1 h2
        rw [← h1, ← h2]
        exact hepi
    · exact hI.liveEpoch j cid' ep' ⟨t, htj', hph⟩
  case liveUnique =>
    intro j j' cid' ep1 ep2 h1 h2
    obtain ⟨t1, ht1, hph1⟩ := h1
    obtain ⟨t2, ht2, hph2⟩ := h2
    rcases tset_cases ht1 with ⟨rfl, rfl⟩ | ⟨hne1, ht1'⟩ <;>
      rcases tset_cases ht2 with ⟨h2i, rfl⟩ | ⟨hne2, ht2'⟩
    · exact h2i.symm
    · have hc1 : cid' = cid := by
        rcases hph1 with h | h | h <;>
          first
            | (injection h with h1 h2; exact h1.symm)
            | exact Phase.noConfusion h
      exact absurd (hOnlyLive j' ep2 ⟨t2, ht2', hc1 ▸ hph2⟩) hne2
    · have hc2 : cid' = cid := by
        rcases hph2 with h | h | h <;>
          first
            | (injection h with h1 h2; exact h1.symm)
            | exact Phase.noConfusion h
      exact absurd (hOnlyLive j ep1 ⟨t1, ht1', hc2 ▸ hph1⟩) hne1
    · exact hI.liveUnique j j' cid' ep1 ep2 ⟨t1, ht1', hph1⟩ ⟨t2, ht2', hph2⟩
  case doneEpoch =>
    intro j cid' ep' hD
    rw [hec]
    obtain ⟨t, htj, hph⟩ := hD
    rcases tset_cases htj with ⟨rfl, rfl⟩ | ⟨hne, htj'⟩
    · exfalso
      rcases hph with ⟨v0, sh0, e0, h⟩ | ⟨pe, h⟩ <;> exact Phase.noConfusion h
    · exact hI.doneEpoch j cid' ep' ⟨t, htj', hph⟩
  case doneLtLive =>
    intro j j' cid' ep1 ep2 hD hL
    obtain ⟨t1, ht1, hph1⟩ := hD
    obtain ⟨t2, ht2, hph2⟩ := hL
    rcases tset_cases ht1 with ⟨rfl, rfl⟩ | ⟨hne1, ht1'⟩
    · exfalso
      rcases hph1 with ⟨v0, sh0, e0, h⟩ | ⟨pe, h⟩ <;> exact Phase.noConfusion h
    · rcases tset_cases ht2 with ⟨h2i, rfl⟩ | ⟨hne2, ht2'⟩
      · have hc : cid' = cid ∧ ep2 = ep := by
          rcases hph2 with h | h | h <;>
            first
              | (injection h with h1 h2; exact ⟨h1.symm, h2.symm⟩)
              | exact Phase.noConfusion h
        obtain ⟨hcc, hee⟩ := hc
        rw [hcc] at hph1
        rw [hee]
        exact hI.doneLtLive j i cid ep1 ep ⟨t1, ht1', hph1⟩ hLi
      · exact hI.doneLtLive j j' cid' ep1 ep2 ⟨t1, ht1', hph1⟩ ⟨t2, ht2', hph2⟩
  case runClean =>
    intro j t cid' ep' htj hph
    rcases tset_cases htj with ⟨rfl, rfl⟩ | ⟨hne, htj'⟩
    · simp at hph
    · by_cases hc : cid' = cid
      · exfalso
        have hLj : LiveOwn c j cid ep' :=
          ⟨t, htj', Or.inl (by rw [← hc]; exact hph)⟩
        exact hne (hOnlyLive j ep' hLj)
      · rw [hheapNe cid' hc]
        exact hI.runClean j t cid' ep' htj' hph
  case finishClosed =>
    intro j t cid' ep' htj hph hdone
    rcases tset_cases htj with ⟨rfl, rfl⟩ | ⟨hne, htj'⟩
    · injection hph with h1 h2
      rw [← h1] at hdone ⊢
      rw [hdn] at hdone
      exact hclDone hdone
    · by_cases hc : cid' = cid
      · exfalso
        have hLj : LiveOwn c j cid ep' :=
          ⟨t, htj', Or.inr (Or.inr (by rw [← hc]; exact hph))⟩
        exact hne (hOnlyLive j ep' hLj)
      · rw [hheapNe cid' hc] at hdone ⊢
        exact hI.finishClosed j t cid' ep' htj' hph hdone
  case outcome =>
    intro j k' fn' ce' cid' ep' h
    rcases h with h | h
    all_goals
      rcases tset_cases h with ⟨rfl, hEq⟩ | ⟨hne, h'⟩
    · injection hEq with hEq1 hEq2 hEq3
      exact absurd hEq3 (by simp)
    · exact (hI.outcome j k' fn' ce' cid' ep' (Or.inl h')).transfer
        (hvl cid') (her cid') (hpe cid')
    · injection hEq with hEq1 hEq2 hEq3
      injection hEq1 with hk hfn
      injection hEq3 with hcid hep
      rw [hfn, hcid]
      exact hout.transfer (hvl cid) (her cid) (hpe cid)
    · exact (hI.outcome j k' fn' ce' cid' ep' (Or.inr h')).transfer
        (hvl cid') (her cid') (hpe cid')
  case waiter =>
    intro j t cid' ep' htj hph
    rw [hdn, hec]
    rcases tset_cases htj with ⟨rfl, rfl⟩ | ⟨hne, htj'⟩
    · simp at hph
    · exact hI.waiter j t cid' ep' htj' hph
  case ldoneRet =>
    intro j k' fn' ce' v' sh e' cid' ep' h
    rcases tset_cases h with ⟨rfl, hEq⟩ | ⟨hne, h'⟩
    · injection hEq with hEq1 hEq2 hEq3
      exact absurd hEq3 (by simp)
    · have hI' := hI.ldoneRet j k' fn' ce' v' sh e' cid' ep' h'
      by_cases hc : cid' = cid
      · refine ⟨hI'.1, ?_⟩
        intro hguard
        exfalso
        have hD : DoneOwn c j cid' ep' := ⟨_, h', Or.inl ⟨v', sh, e', rfl⟩⟩
        rw [hc] at hD
        have hlt := hI.doneLtLive j i cid ep' ep hD hLi
        rw [hec, hc] at hguard
        omega
      · rw [hheapNe cid' hc]
        exact hI'
  case ldonePanic =>
    intro j k' fn' ce' pe cid' ep' h
    rcases tset_cases h with ⟨rfl, hEq⟩ | ⟨hne, h'⟩
    · injection hEq with hEq1 hEq2 hEq3
      exact absurd hEq3 (by simp)
    · have hI' := hI.ldonePanic j k' fn' ce' pe cid' ep' h'
      by_cases hc : cid' = cid
      · exfalso
        have hD : DoneOwn c j cid' ep' := ⟨_, h', Or.inr ⟨pe, rfl⟩⟩
        rw [hc] at hD
        have hlt := hI.doneLtLive j i cid ep' ep hD hLi
        rw [hc] at hI'
        have heq : ep' = ep := by rw [← hI'.2.2.1]; exact hepi.1
        omega
      · rw [hheapNe cid' hc]
        refine ⟨hI'.1, hI'.2.1, hI'.2.2.1, hI'.2.2.2.1, ?_⟩
        rw [hpoolEq]
        exact hI'.2.2.2.2
  case fObs =>
    intro j t v' sh e' cid' ep' htj hph
    rcases tset_cases htj with ⟨rfl, rfl⟩ | ⟨hne, htj'⟩
    · simp at hph
    · have h := hI.fObs j t v' sh e' cid' ep' htj' hph
      refine ⟨h.1, hclMono cid' h.2.1, ?_, ?_, ?_, ?_⟩
      · rw [hec]; exact h.2.2.1
      · rw [hvl]; exact h.2.2.2.1
      · rw [her]; exact h.2.2.2.2.1
      · rw [hpe]; exact h.2.2.2.2.2
  case fObsPanic =>
    intro j t pe cid' ep' htj hph
    rcases tset_cases htj with ⟨rfl, rfl⟩ | ⟨hne, htj'⟩
    · simp at hph
    · have h := hI.fObsPanic j t pe cid' ep' htj' hph
      refine ⟨hclMono cid' h.1, ?_, ?_⟩
      · rw [hec]; exact h.2.1
      · rw [hpe]; exact h.2.2
  case fCancel =>
    intro j t v' sh e' cid' ep' htj hph
    rcases tset_cases htj with ⟨rfl, rfl⟩ | ⟨hne, htj'⟩
    · simp at hph
    · exact hI.fCancel j t v' sh e' cid' ep' htj' hph

theorem inv_finish {c : Config K V E P S} {i : Nat} {k : K} {fn : FnRes V E P S}
    {ce : E} {cid ep : Nat} (hI : Inv c)
    (ht : c.threads i = some ⟨.doOp k fn, ce, .leaderFinish cid ep⟩) :
    Inv (finishCfg c i k fn ce cid ep) := by
  have hLi : LiveOwn c i cid ep := ⟨_, ht, Or.inr (Or.inr rfl)⟩
  have hepi := hI.liveEpoch i cid ep hLi
  have hout := hI.outcome i k fn ce cid ep (Or.inr ht)
  have hfc := hI.finishClosed i _ cid ep ht rfl
  have hnotpool : cid ∉ c.gs.pool := fun hin =>
    hI.poolNoRef cid i _ hin ht ⟨ep, Or.inr (Or.inr (Or.inr rfl))⟩
  have hcidlt : cid < c.gs.nextId := hI.thBound i _ cid ht rfl
  have hOnlyLive : ∀ j ep', LiveOwn c j cid ep' → j = i :=
    fun j ep' h => hI.liveUnique j i cid ep' ep h hLi
  have hUnmapped : ∀ k', mapOf c.gs k' ≠ some cid := by
    intro k' hmk
    obtain ⟨j, hRCj⟩ := hI.mapOwner k' cid hmk
    have hj : j = i := hOnlyLive j _ hRCj.toLive
    obtain ⟨fn0, ce0, h0 | h0⟩ := hRCj <;>
      (rw [hj, ht] at h0; injection h0 with h0;
       injection h0 with hop hce hph; exact absurd hph (by simp))
  rcases hpm : (c.gs.heap cid).panicErr with _ | pe
  · -- fn returned normally: the leader returns (val, dups > 0, err)
    have hth : (finishCfg c i k fn ce cid ep).threads = tset c.threads i
        ⟨.doOp k fn, ce, .doneRet (c.gs.heap cid).val
          (decide (0 < (c.gs.heap cid).dups)) (c.gs.heap cid).err
          (.leaderSrc cid ep)⟩ := by
      show tset c.threads i ⟨_, _,
        (match (c.gs.heap cid).panicErr with
         | some pe => Phase.donePanic pe (.leaderSrc cid ep)
         | none => Phase.doneRet (c.gs.heap cid).val
             (decide (0 < (c.gs.heap cid).dups)) (c.gs.heap cid).err
             (.leaderSrc cid ep))⟩ = _
      rw [hpm]
    have hfnok : fn = .ok (c.gs.heap cid).val (c.gs.heap cid).err := by
      cases fn with
      | ok v0 e0 =>
        obtain ⟨h1, h2, h3⟩ := hout
        rw [h1, h2]
      | panics p0 s0 =>
        rw [OutMatch] at hout
        rw [hout] at hpm
        cases hpm
    by_cases hzero : (c.gs.heap cid).dups = 0 ∧ (c.gs.heap cid).done = false
    · -- recycle: the record is zeroed and returned to the pool
      have hgs : (finishCfg c i k fn ce cid ep).gs =
          ⟨c.gs.calls, hset c.gs.heap cid
              { c.gs.heap cid with val := default, err := none },
            cid :: c.gs.pool, c.gs.nextId⟩ := by
        show (if _ then _ else _) = _
        rw [if_pos ⟨by rw [hpm]; rfl, hzero.1, hzero.2⟩]
      have hclosed0 : (c.gs.heap cid).closed = false := by
        cases hcl0 : (c.gs.heap cid).closed
        · rfl
        · have := hI.closedDone cid hcl0
          rw [hzero.2] at this
          cases this
      have hheapNe : ∀ j, j ≠ cid →
          (finishCfg c i k fn ce cid ep).gs.heap j = c.gs.heap j := by
        intro j hj
        rw [hgs]
        exact hset_other hj
      have hheapEq : (finishCfg c i k fn ce cid ep).gs.heap cid =
          { c.gs.heap cid with val := default, err := none } := by
        rw [hgs]; exact hset_same
      have hpoolEq : (finishCfg c i k fn ce cid ep).gs.pool = cid :: c.gs.pool := by
        rw [hgs]
      have hnid : (finishCfg c i k fn ce cid ep).gs.nextId = c.gs.nextId := by
        rw [hgs]
      have hmapEq : ∀ k', mapOf (finishCfg c i k fn ce cid ep).gs k' =
          mapOf c.gs k' := by
        intro k'; rw [mapOf, hgs]; rfl
      have hpe : ∀ cid', ((finishCfg c i k fn ce cid ep).gs.heap cid').panicErr =
          (c.gs.heap cid').panicErr := by
        intro cid'
        by_cases hc : cid' = cid
        · rw [hc, hheapEq]
        · rw [hheapNe cid' hc]
      have hdn : ∀ cid', ((finishCfg c i k fn ce cid ep).gs.heap cid').done =
          (c.gs.heap cid').done := by
        intro cid'
        by_cases hc : cid' = cid
        · rw [hc, hheapEq]
        · rw [hheapNe cid' hc]
      have hcl : ∀ cid', ((finishCfg c i k fn ce cid ep).gs.heap cid').closed =
          (c.gs.heap cid').closed := by
        intro cid'
        by_cases hc : cid' = cid
        · rw [hc, hheapEq]
        · rw [hheapNe cid' hc]
      have hdp : ∀ cid', ((finishCfg c i k fn ce cid ep).gs.heap cid').dups =
          (c.gs.heap cid').dups := by
        intro cid'
        by_cases hc : cid' = cid
        · rw [hc, hheapEq]
        · rw [hheapNe cid' hc]
      have hfg : ∀ cid', ((finishCfg c i k fn ce cid ep).gs.heap cid').forgotten =
          (c.gs.heap cid').forgotten := by
        intro cid'
        by_cases hc : cid' = cid
        · rw [hc, hheapEq]
        · rw [hheapNe cid' hc]
      have hec : ∀ cid', ((finishCfg c i k fn ce cid ep).gs.heap cid').epoch =
          (c.gs.heap cid').epoch := by
        intro cid'
        by_cases hc : cid' = cid
        · rw [hc, hheapEq]
        · rw [hheapNe cid' hc]
      refine ⟨?_, ?_, ?_, ?_, ?_, ?_, ?_, ?_, ?_, ?_, ?_, ?_, ?_, ?_, ?_, ?_, ?_, ?_, ?_, ?_, ?_, ?_, ?_, ?_, ?_, ?_⟩
      · -- fresh
        intro cid' h
        rw [hnid] at h
        rw [hheapNe cid' (by omega)]
        exact hI.fresh cid' h
      · -- mapBound
        intro k' cid' h
        rw [hmapEq] at h
        rw [hnid]
        exact hI.mapBound k' cid' h
      · -- poolBound
        intro cid' h
        rw [hpoolEq] at h
        rw [hnid]
        rcases List.mem_cons.mp h with rfl | h
        · exact hcidlt
        · exact hI.poolBound cid' h
      · -- thBound
        intro j t cid' htj hcid'
        rw [hnid]
        rw [hth] at htj
        rcases tset_cases htj with ⟨rfl, rfl⟩ | ⟨hne, htj'⟩
        · simp [Phase.refCid, RetSrc.cid] at hcid'; omega
        · exact hI.thBound j t cid' htj' hcid'
      · -- poolNodup
        rw [hpoolEq]
        exact List.nodup_cons.mpr ⟨hnotpool, hI.poolNodup⟩
      · -- poolClean
        intro cid' hin
        rw [hpoolEq] at hin
        rcases List.mem_cons.mp hin with rfl | hin
        · rw [hheapEq]
          exact ⟨hzero.2, hclosed0, hzero.1, rfl, rfl, hpm⟩
        · have hne : cid' ≠ cid := fun h => hnotpool (h ▸ hin)
          rw [hheapNe cid' hne]
          exact hI.poolClean cid' hin
      · -- poolUnmapped
        intro cid' k' hin hmap
        rw [hpoolEq] at hin
        rw [hmapEq] at hmap
        rcases List.mem_cons.mp hin with rfl | hin
        · exact hUnmapped k' hmap
        · exact hI.poolUnmapped cid' k' hin hmap
      · -- poolNoRef
        intro cid' j t hin htj
        rw [hpoolEq] at hin
        rw [hth] at htj
        rcases tset_cases htj with ⟨rfl, rfl⟩ | ⟨hne, htj'⟩
        · rintro ⟨ep', h | h | h | h⟩ <;> exact Phase.noConfusion h
        · rcases List.mem_cons.mp hin with rfl | hin
          · rintro ⟨ep', h | h | h | h⟩
            · have := hI.waiter j t cid' ep' htj' h
              rw [hzero.2] at this
              exact Bool.noConfusion this.1
            · exact hne (hOnlyLive j ep' ⟨t, htj', Or.inl h⟩)
            · exact hne (hOnlyLive j ep' ⟨t, htj', Or.inr (Or.inl h)⟩)
            · exact hne (hOnlyLive j ep' ⟨t, htj', Or.inr (Or.inr h)⟩)
          · exact hI.poolNoRef cid' j t hin htj'
      · -- closedDone
        intro cid' h
        rw [hcl] at h
        rw [hdn]
        exact hI.closedDone cid' h
      · -- mapForgot
        intro k' cid' h
        rw [hmapEq] at h
        rw [hfg]
        exact hI.mapForgot k' cid' h
      · -- mapOwner
        intro k' cid' h
        rw [hmapEq] at h
        obtain ⟨j, hRCj⟩ := hI.mapOwner k' cid' h
        have hjne : j ≠ i := by
          rintro rfl
          obtain ⟨fn0, ce0, h0 | h0⟩ := hRCj <;>
            (rw [ht] at h0; injection h0 with h0;
             injection h0 with hop hce hph; exact absurd hph (by simp))
        rw [hec]
        obtain ⟨fn', ce', h0 | h0⟩ := hRCj
        · exact ⟨j, fn', ce', Or.inl (by rw [hth, tset_other hjne]; exact h0)⟩
        · exact ⟨j, fn', ce', Or.inr (by rw [hth, tset_other hjne]; exact h0)⟩
      · -- mapInj
        intro k1 k2 cid' h1 h2
        rw [hmapEq] at h1 h2
        exact hI.mapInj k1 k2 cid' h1 h2
      · -- ownerKey
        intro j k' cid' ep' hRCj hforg
        rw [hfg] at hforg
        rw [hmapEq]
        obtain ⟨fn', ce', h0 | h0⟩ := hRCj
        · rw [hth] at h0
          rcases tset_cases h0 with ⟨rfl, hEq⟩ | ⟨hne, h0'⟩
          · injection hEq with hEq1 hEq2 hEq3
            exact absurd hEq3 (by simp)
          · exact hI.ownerKey j k' cid' ep' ⟨fn', ce', Or.inl h0'⟩ hforg
        · rw [hth] at h0
          rcases tset_cases h0 with ⟨rfl, hEq⟩ | ⟨hne, h0'⟩
          · injection hEq with hEq1 hEq2 hEq3
            exact absurd hEq3 (by simp)
          · exact hI.ownerKey j k' cid' ep' ⟨fn', ce', Or.inr h0'⟩ hforg
      · -- liveEpoch
        intro j cid' ep' hL
        rw [hec]
        obtain ⟨t, htj, hph⟩ := hL
        rw [hth] at htj
        rcases tset_cases htj with ⟨rfl, rfl⟩ | ⟨hne, htj'⟩
        · rcases hph with h | h | h <;> exact Phase.noConfusion h
        · exact hI.liveEpoch j cid' ep' ⟨t, htj', hph⟩
      · -- liveUnique
        intro j j' cid' ep1 ep2 h1 h2
        obtain ⟨t1, ht1, hph1⟩ := h1
        obtain ⟨t2, ht2, hph2⟩ := h2
        rw [hth] at ht1 ht2
        rcases tset_cases ht1 with ⟨rfl, rfl⟩ | ⟨hne1, ht1'⟩
        · rcases hph1 with h | h | h <;> exact Phase.noConfusion h
        · rcases tset_cases ht2 with ⟨h2i, rfl⟩ | ⟨hne2, ht2'⟩
          · rcases hph2 with h | h | h <;> exact Phase.noConfusion h
          · exact hI.liveUnique j j' cid' ep1 ep2 ⟨t1, ht1', hph1⟩ ⟨t2, ht2', hph2⟩
      · -- doneEpoch
        intro j cid' ep' hD
        rw [hec]
        obtain ⟨t, htj, hph⟩ := hD
        rw [hth] at htj
        rcases tset_cases htj with ⟨rfl, rfl⟩ | ⟨hne, htj'⟩
        · rcases hph with ⟨v0, sh0, e0, h⟩ | ⟨pe0, h⟩
          · injection h with hv0 hsh0 he0 hsrc
            injection hsrc with hc1 hc2
            rw [← hc1, ← hc2]
            exact ⟨hepi.2, le_of_eq hepi.1.symm⟩
          · exact Phase.noConfusion h
        · exact hI.doneEpoch j cid' ep' ⟨t, htj', hph⟩
      · -- doneLtLive
        intro j j' cid' ep1 ep2 hD hL
        obtain ⟨t1, ht1, hph1⟩ := hD
        obtain ⟨t2, ht2, hph2⟩ := hL
        rw [hth] at ht1 ht2
        rcases tset_cases ht2 with ⟨h2i, rfl⟩ | ⟨hne2, ht2'⟩
        · exfalso
          rcases hph2 with h | h | h <;> exact Phase.noConfusion h
        · rcases tset_cases ht1 with ⟨rfl, rfl⟩ | ⟨hne1, ht1'⟩
          · rcases hph1 with ⟨v0, sh0, e0, h⟩ | ⟨pe0, h⟩
            · injection h with hv0 hsh0 he0 hsrc
              injection hsrc with hc1 hc2
              exfalso
              rw [← hc1] at hph2
              exact hne2 (hOnlyLive j' ep2 ⟨t2, ht2', hph2⟩)
            · exact Phase.noConfusion h
          · exact hI.doneLtLive j j' cid' ep1 ep2 ⟨t1, ht1', hph1⟩ ⟨t2, ht2', hph2⟩
      · -- runClean
        intro j t cid' ep' htj hph
        rw [hth] at htj
        rcases tset_cases htj with ⟨rfl, rfl⟩ | ⟨hne, htj'⟩
        · simp at hph
        · rw [hcl, hpe]
          exact hI.runClean j t cid' ep' htj' hph
      · -- finishClosed
        intro j t cid' ep' htj hph hdone
        rw [hth] at htj
        rw [hdn] at hdone
        rw [hcl]
        rcases tset_cases htj with ⟨rfl, rfl⟩ | ⟨hne, htj'⟩
        · simp at hph
        · exact hI.finishClosed j t cid' ep' htj' hph hdone
      · -- outcome
        intro j k' fn' ce' cid' ep' h
        rcases h with h | h
        all_goals rw [hth] at h
        all_goals
          rcases tset_cases h with ⟨rfl, hEq⟩ | ⟨hne, h'⟩
        · injection hEq with hEq1 hEq2 hEq3
          exact absurd hEq3 (by simp)
        · by_cases hc : cid' = cid
          · exfalso
            have hLj : LiveOwn c j cid ep' :=
              ⟨_, h', Or.inr (Or.inl (by rw [← hc]))⟩
            exact hne (hOnlyLive j ep' hLj)
          · rw [hheapNe cid' hc]
            exact hI.outcome j k' fn' ce' cid' ep' (Or.inl h')
        · injection hEq with hEq1 hEq2 hEq3
          exact absurd hEq3 (by simp)
        · by_cases hc : cid' = cid
          · exfalso
            have hLj : LiveOwn c j cid ep' :=
              ⟨_, h', Or.inr (Or.inr (by rw [← hc]))⟩
            exact hne (hOnlyLive j ep' hLj)
          · rw [hheapNe cid' hc]
            exact hI.outcome j k' fn' ce' cid' ep' (Or.inr h')
      · -- waiter
        intro j t cid' ep' htj hph
        rw [hth] at htj
        rw [hdn, hec]
        rcases tset_cases htj with ⟨rfl, rfl⟩ | ⟨hne, htj'⟩
        · simp at hph
        · exact hI.waiter j t cid' ep' htj' hph
      · -- ldoneRet
        intro j k' fn' ce' v' sh e' cid' ep' h
        rw [hth] at h
        rcases tset_cases h with ⟨rfl, hEq⟩ | ⟨hne, h'⟩
        · injection hEq with hEq1 hEq2 hEq3
          injection hEq1 with hk hfn
          injection hEq3 with hv hsh he hsrc
          injection hsrc with hc1 hc2
          constructor
          · rw [hfn, hfnok, hv, he]
          · intro hguard
            refine ⟨?_, ?_, ?_⟩
            · rw [hpe, hc1]; exact hpm
            · rw [hsh, hdp, hc1, hzero.1]
              simp
            · intro hdone
              rw [hdn, hc1, hzero.2] at hdone
              cases hdone
        · have hI' := hI.ldoneRet j k' fn' ce' v' sh e' cid' ep' h'
          by_cases hc : cid' = cid
          · refine ⟨hI'.1, ?_⟩
            intro hguard
            exfalso
            have hD : DoneOwn c j cid' ep' := ⟨_, h', Or.inl ⟨v', sh, e', rfl⟩⟩
            rw [hc] at hD
            have hlt := hI.doneLtLive j i cid ep' ep hD hLi
            rw [hec, hc] at hguard
            omega
          · rw [hheapNe cid' hc]
            exact hI'
      · -- ldonePanic
        intro j k' fn' ce' pe' cid' ep' h
        rw [hth] at h
        rcases tset_cases h with ⟨rfl, hEq⟩ | ⟨hne, h'⟩
        · injection hEq with hEq1 hEq2 hEq3
          exact absurd hEq3 (by simp)
        · have hI' := hI.ldonePanic j k' fn' ce' pe' cid' ep' h'
          by_cases hc : cid' = cid
          · exfalso
            rw [hc] at hI'
            rw [hI'.2.1] at hpm
            cases hpm
          · rw [hheapNe cid' hc]
            refine ⟨hI'.1, hI'.2.1, hI'.2.2.1, hI'.2.2.2.1, ?_⟩
            rw [hpoolEq]
            intro hmem
            rcases List.mem_cons.mp hmem with hEq | hmem
            · exact hc hEq
            · exact hI'.2.2.2.2 hmem
      · -- fObs
        intro j t v' sh e' cid' ep' htj hph
        rw [hth] at htj
        rcases tset_cases htj with ⟨rfl, rfl⟩ | ⟨hne, htj'⟩
        · injection hph with hv hsh he hsrc
          exact absurd hsrc (by simp)
        · have h := hI.fObs j t v' sh e' cid' ep' htj' hph
          by_cases hc : cid' = cid
          · exfalso
            rw [hc] at h
            have := hI.closedDone cid h.2.1
            rw [hzero.2] at this
            cases this
          · rw [hheapNe cid' hc]
            exact h
      · -- fObsPanic
        intro j t pe' cid' ep' htj hph
        rw [hth] at htj
        rcases tset_cases htj with ⟨rfl, rfl⟩ | ⟨hne, htj'⟩
        · simp at hph
        · have h := hI.fObsPanic j t pe' cid' ep' htj' hph
          by_cases hc : cid' = cid
          · exfalso
            rw [hc] at h
            have := hI.closedDone cid h.1
            rw [hzero.2] at this
            cases this
          · rw [hheapNe cid' hc]
            exact h
      · -- fCancel
        intro j t v' sh e' cid' ep' htj hph
        rw [hth] at htj
        rcases tset_cases htj with ⟨rfl, rfl⟩ | ⟨hne, htj'⟩
        · injection hph with hv hsh he hsrc
          exact absurd hsrc (by simp)
        · exact hI.fCancel j t v' sh e' cid' ep' htj' hph
    · -- no recycle: the shared state is unchanged
      have hgs : (finishCfg c i k fn ce cid ep).gs = c.gs := by
        show (if _ then _ else _) = _
        rw [if_neg]
        rintro ⟨h1, h2, h3⟩
        exact hzero ⟨h2, h3⟩
      refine ⟨?_, ?_, ?_, ?_, ?_, ?_, ?_, ?_, ?_, ?_, ?_, ?_, ?_, ?_, ?_, ?_, ?_, ?_, ?_, ?_, ?_, ?_, ?_, ?_, ?_, ?_⟩
      · -- fresh
        intro cid' h
        rw [hgs] at h ⊢
        exact hI.fresh cid' h
      · -- mapBound
        intro k' cid' h
        rw [hgs] at h ⊢
        exact hI.mapBound k' cid' h
      · -- poolBound
        intro cid' h
        rw [hgs] at h ⊢
        exact hI.poolBound cid' h
      · -- thBound
        intro j t cid' htj hcid'
        rw [hgs]
        rw [hth] at htj
        rcases tset_cases htj with ⟨rfl, rfl⟩ | ⟨hne, htj'⟩
        · simp [Phase.refCid, RetSrc.cid] at hcid'; omega
        · exact hI.thBound j t cid' htj' hcid'
      · -- poolNodup
        rw [hgs]; exact hI.poolNodup
      · -- poolClean
        intro cid' hin
        rw [hgs] at hin ⊢
        exact hI.poolClean cid' hin
      · -- poolUnmapped
        intro cid' k' hin hmap
        rw [hgs] at hin hmap
        exact hI.poolUnmapped cid' k' hin hmap
      · -- poolNoRef
        intro cid' j t hin htj
        rw [hgs] at hin
        rw [hth] at htj
        rcases tset_cases htj with ⟨rfl, rfl⟩ | ⟨hne, htj'⟩
        · rintro ⟨ep', h | h | h | h⟩ <;> exact Phase.noConfusion h
        · exact hI.poolNoRef cid' j t hin htj'
      · -- closedDone
        intro cid' h
        rw [hgs] at h ⊢
        exact hI.closedDone cid' h
      · -- mapForgot
        intro k' cid' h
        rw [hgs] at h ⊢
        exact hI.mapForgot k' cid' h
      · -- mapOwner
        intro k' cid' h
        rw [hgs] at h ⊢
        obtain ⟨j, hRCj⟩ := hI.mapOwner k' cid' h
        have hjne : j ≠ i := by
          rintro rfl
          obtain ⟨fn0, ce0, h0 | h0⟩ := hRCj <;>
            (rw [ht] at h0; injection h0 with h0;
             injection h0 with hop hce hph; exact absurd hph (by simp))
        obtain ⟨fn', ce', h0 | h0⟩ := hRCj
        · exact ⟨j, fn', ce', Or.inl (by rw [hth, tset_other hjne]; exact h0)⟩
        · exact ⟨j, fn', ce', Or.inr (by rw [hth, tset_other hjne]; exact h0)⟩
      · -- mapInj
        intro k1 k2 cid' h1 h2
        rw [hgs] at h1 h2
        exact hI.mapInj k1 k2 cid' h1 h2
      · -- ownerKey
        intro j k' cid' ep' hRCj hforg
        rw [hgs] at hforg ⊢
        obtain ⟨fn', ce', h0 | h0⟩ := hRCj
        · rw [hth] at h0
          rcases tset_cases h0 with ⟨rfl, hEq⟩ | ⟨hne, h0'⟩
          · injection hEq with hEq1 hEq2 hEq3
            exact absurd hEq3 (by simp)
          · exact hI.ownerKey j k' cid' ep' ⟨fn', ce', Or.inl h0'⟩ hforg
        · rw [hth] at h0
          rcases tset_cases h0 with ⟨rfl, hEq⟩ | ⟨hne, h0'⟩
          · injection hEq with hEq1 hEq2 hEq3
            exact absurd hEq3 (by simp)
          · exact hI.ownerKey j k' cid' ep' ⟨fn', ce', Or.inr h0'⟩ hforg
      · -- liveEpoch
        intro j cid' ep' hL
        rw [hgs]
        obtain ⟨t, htj, hph⟩ := hL
        rw [hth] at htj
        rcases tset_cases htj with ⟨rfl, rfl⟩ | ⟨hne, htj'⟩
        · rcases hph with h | h | h <;> exact Phase.noConfusion h
        · exact hI.liveEpoch j cid' ep' ⟨t, htj', hph⟩
      · -- liveUnique
        intro j j' cid' ep1 ep2 h1 h2
        obtain ⟨t1, ht1, hph1⟩ := h1
        obtain ⟨t2, ht2, hph2⟩ := h2
        rw [hth] at ht1 ht2
        rcases tset_cases ht1 with ⟨rfl, rfl⟩ | ⟨hne1, ht1'⟩
        · rcases hph1 with h | h | h <;> exact Phase.noConfusion h
        · rcases tset_cases ht2 with ⟨h2i, rfl⟩ | ⟨hne2, ht2'⟩
          · rcases hph2 with h | h | h <;> exact Phase.noConfusion h
          · exact hI.liveUnique j j' cid' ep1 ep2 ⟨t1, ht1', hph1⟩ ⟨t2, ht2', hph2⟩
      · -- doneEpoch
        intro j cid' ep' hD
        rw [hgs]
        obtain ⟨t, htj, hph⟩ := hD
        rw [hth] at htj
        rcases tset_cases htj with ⟨rfl, rfl⟩ | ⟨hne, htj'⟩
        · rcases hph with ⟨v0, sh0, e0, h⟩ | ⟨pe0, h⟩
          · injection h with hv0 hsh0 he0 hsrc
            injection hsrc with hc1 hc2
            rw [← hc1, ← hc2]
            exact ⟨hepi.2, le_of_eq hepi.1.symm⟩
          · exact Phase.noConfusion h
        · exact hI.doneEpoch j cid' ep' ⟨t, htj', hph⟩
      · -- doneLtLive
        intro j j' cid' ep1 ep2 hD hL
        obtain ⟨t1, ht1, hph1⟩ := hD
        obtain ⟨t2, ht2, hph2⟩ := hL
        rw [hth] at ht1 ht2
        rcases tset_cases ht2 with ⟨h2i, rfl⟩ | ⟨hne2, ht2'⟩
        · exfalso
          rcases hph2 with h | h | h <;> exact Phase.noConfusion h
        · rcases tset_cases ht1 with ⟨rfl, rfl⟩ | ⟨hne1, ht1'⟩
          · rcases hph1 with ⟨v0, sh0, e0, h⟩ | ⟨pe0, h⟩
            · injection h with hv0 hsh0 he0 hsrc
              injection hsrc with hc1 hc2
              exfalso
              rw [← hc1] at hph2
              exact hne2 (hOnlyLive j' ep2 ⟨t2, ht2', hph2⟩)
            · exact Phase.noConfusion h
          · exact hI.doneLtLive j j' cid' ep1 ep2 ⟨t1, ht1', hph1⟩ ⟨t2, ht2', hph2⟩
      · -- runClean
        intro j t cid' ep' htj hph
        rw [hgs]
        rw [hth] at htj
        rcases tset_cases htj with ⟨rfl, rfl⟩ | ⟨hne, htj'⟩
        · simp at hph
        · exact hI.runClean j t cid' ep' htj' hph
      · -- finishClosed
        intro j t cid' ep' htj hph hdone
        rw [hgs] at hdone ⊢
        rw [hth] at htj
        rcases tset_cases htj with ⟨rfl, rfl⟩ | ⟨hne, htj'⟩
        · simp at hph
        · exact hI.finishClosed j t cid' ep' htj' hph hdone
      · -- outcome
        intro j k' fn' ce' cid' ep' h
        rw [hgs]
        rcases h with h | h
        all_goals rw [hth] at h
        all_goals
          rcases tset_cases h with ⟨rfl, hEq⟩ | ⟨hne, h'⟩
        · injection hEq with hEq1 hEq2 hEq3
          exact absurd hEq3 (by simp)
        · exact hI.outcome j k' fn' ce' cid' ep' (Or.inl h')
        · injection hEq with hEq1 hEq2 hEq3
          exact absurd hEq3 (by simp)
        · exact hI.outcome j k' fn' ce' cid' ep' (Or.inr h')
      · -- waiter
        intro j t cid' ep' htj hph
        rw [hgs]
        rw [hth] at htj
        rcases tset_cases htj with ⟨rfl, rfl⟩ | ⟨hne, htj'⟩
        · simp at hph
        · exact hI.waiter j t cid' ep' htj' hph
      · -- ldoneRet
        intro j k' fn' ce' v' sh e' cid' ep' h
        rw [hgs]
        rw [hth] at h
        rcases tset_cases h with ⟨rfl, hEq⟩ | ⟨hne, h'⟩
        · injection hEq with hEq1 hEq2 hEq3
          injection hEq1 with hk hfn
          injection hEq3 with hv hsh he hsrc
          injection hsrc with hc1 hc2
          constructor
          · rw [hfn, hfnok, hv, he]
          · intro hguard
            refine ⟨?_, ?_, ?_⟩
            · rw [hc1]; exact hpm
            · rw [hsh, hc1]
              simp
            · intro hdone
              rw [hc1] at hdone
              refine ⟨?_, ?_, ?_⟩
              · rw [hc1]; exact hfc hdone
              · rw [hv, hc1]
              · rw [he, hc1]
        · exact hI.ldoneRet j k' fn' ce' v' sh e' cid' ep' h'
      · -- ldonePanic
        intro j k' fn' ce' pe' cid' ep' h
        rw [hgs]
        rw [hth] at h
        rcases tset_cases h with ⟨rfl, hEq⟩ | ⟨hne, h'⟩
        · injection hEq with hEq1 hEq2 hEq3
          exact absurd hEq3 (by simp)
        · exact hI.ldonePanic j k' fn' ce' pe' cid' ep' h'
      · -- fObs
        intro j t v' sh e' cid' ep' htj hph
        rw [hgs]
        rw [hth] at htj
        rcases tset_cases htj with ⟨rfl, rfl⟩ | ⟨hne, htj'⟩
        · injection hph with hv hsh he hsrc
          exact absurd hsrc (by simp)
        · exact hI.fObs j t v' sh e' cid' ep' htj' hph
      · -- fObsPanic
        intro j t pe' cid' ep' htj hph
        rw [hgs]
        rw [hth] at htj
        rcases tset_cases htj with ⟨rfl, rfl⟩ | ⟨hne, htj'⟩
        · simp at hph
        · exact hI.fObsPanic j t pe' cid' ep' htj' hph
      · -- fCancel
        intro j t v' sh e' cid' ep' htj hph
        rw [hth] at htj
        rcases tset_cases htj with ⟨rfl, rfl⟩ | ⟨hne, htj'⟩
        · injection hph with hv hsh he hsrc
          exact absurd hsrc (by simp)
        · exact hI.fCancel j t v' sh e' cid' ep' htj' hph
  · -- fn panicked: the leader re-raises; the record is never pooled
    have hth : (finishCfg c i k fn ce cid ep).threads = tset c.threads i
        ⟨.doOp k fn, ce, .donePanic pe (.leaderSrc cid ep)⟩ := by
      show tset c.threads i ⟨_, _,
        (match (c.gs.heap cid).panicErr with
         | some pe => Phase.donePanic pe (.leaderSrc cid ep)
         | none => Phase.doneRet (c.gs.heap cid).val
             (decide (0 < (c.gs.heap cid).dups)) (c.gs.heap cid).err
             (.leaderSrc cid ep))⟩ = _
      rw [hpm]
    have hfnpanic : fn = .panics pe.1 pe.2 := by
      cases fn with
      | ok v0 e0 =>
        obtain ⟨h1, h2, h3⟩ := hout
        rw [h3] at hpm
        cases hpm
      | panics p0 s0 =>
        rw [OutMatch] at hout
        rw [hout] at hpm
        injection hpm with hpm
        rw [← hpm]
    have hgs : (finishCfg c i k fn ce cid ep).gs = c.gs := by
      show (if _ then _ else _) = _
      rw [if_neg]
      rintro ⟨h1, h2, h3⟩
      rw [hpm] at h1
      exact Bool.noConfusion h1
    refine ⟨?_, ?_, ?_, ?_, ?_, ?_, ?_, ?_, ?_, ?_, ?_, ?_, ?_, ?_, ?_, ?_, ?_, ?_, ?_, ?_, ?_, ?_, ?_, ?_, ?_, ?_⟩
    · -- fresh
      intro cid' h
      rw [hgs] at h ⊢
      exact hI.fresh cid' h
    · -- mapBound
      intro k' cid' h
      rw [hgs] at h ⊢
      exact hI.mapBound k' cid' h
    · -- poolBound
      intro cid' h
      rw [hgs] at h ⊢
      exact hI.poolBound cid' h
    · -- thBound
      intro j t cid' htj hcid'
      rw [hgs]
      rw [hth] at htj
      rcases tset_cases htj with ⟨rfl, rfl⟩ | ⟨hne, htj'⟩
      · simp [Phase.refCid, RetSrc.cid] at hcid'; omega
      · exact hI.thBound j t cid' htj' hcid'
    · -- poolNodup
      rw [hgs]; exact hI.poolNodup
    · -- poolClean
      intro cid' hin
      rw [hgs] at hin ⊢
      exact hI.poolClean cid' hin
    · -- poolUnmapped
      intro cid' k' hin hmap
      rw [hgs] at hin hmap
      exact hI.poolUnmapped cid' k' hin hmap
    · -- poolNoRef
      intro cid' j t hin htj
      rw [hgs] at hin
      rw [hth] at htj
      rcases tset_cases htj with ⟨rfl, rfl⟩ | ⟨hne, htj'⟩
      · rintro ⟨ep', h | h | h | h⟩ <;> exact Phase.noConfusion h
      · exact hI.poolNoRef cid' j t hin htj'
    · -- closedDone
      intro cid' h
      rw [hgs] at h ⊢
      exact hI.closedDone cid' h
    · -- mapForgot
      intro k' cid' h
      rw [hgs] at h ⊢
      exact hI.mapForgot k' cid' h
    · -- mapOwner
      intro k' cid' h
      rw [hgs] at h ⊢
      obtain ⟨j, hRCj⟩ := hI.mapOwner k' cid' h
      have hjne : j ≠ i := by
        rintro rfl
        obtain ⟨fn0, ce0, h0 | h0⟩ := hRCj <;>
          (rw [ht] at h0; injection h0 with h0;
           injection h0 with hop hce hph; exact absurd hph (by simp))
      obtain ⟨fn', ce', h0 | h0⟩ := hRCj
      · exact ⟨j, fn', ce', Or.inl (by rw [hth, tset_other hjne]; exact h0)⟩
      · exact ⟨j, fn', ce', Or.inr (by rw [hth, tset_other hjne]; exact h0)⟩
    · -- mapInj
      intro k1 k2 cid' h1 h2
      rw [hgs] at h1 h2
      exact hI.mapInj k1 k2 cid' h1 h2
    · -- ownerKey
      intro j k' cid' ep' hRCj hforg
      rw [hgs] at hforg ⊢
      obtain ⟨fn', ce', h0 | h0⟩ := hRCj
      · rw [hth] at h0
        rcases tset_cases h0 with ⟨rfl, hEq⟩ | ⟨hne, h0'⟩
        · injection hEq with hEq1 hEq2 hEq3
          exact absurd hEq3 (by simp)
        · exact hI.ownerKey j k' cid' ep' ⟨fn', ce', Or.inl h0'⟩ hforg
      · rw [hth] at h0
        rcases tset_cases h0 with ⟨rfl, hEq⟩ | ⟨hne, h0'⟩
        · injection hEq with hEq1 hEq2 hEq3
          exact absurd hEq3 (by simp)
        · exact hI.ownerKey j k' cid' ep' ⟨fn', ce', Or.inr h0'⟩ hforg
    · -- liveEpoch
      intro j cid' ep' hL
      rw [hgs]
      obtain ⟨t, htj, hph⟩ := hL
      rw [hth] at htj
      rcases tset_cases htj with ⟨rfl, rfl⟩ | ⟨hne, htj'⟩
      · rcases hph with h | h | h <;> exact Phase.noConfusion h
      · exact hI.liveEpoch j cid' ep' ⟨t, htj', hph⟩
    · -- liveUnique
      intro j j' cid' ep1 ep2 h1 h2
      obtain ⟨t1, ht1, hph1⟩ := h1
      obtain ⟨t2, ht2, hph2⟩ := h2
      rw [hth] at ht1 ht2
      rcases tset_cases ht1 with ⟨rfl, rfl⟩ | ⟨hne1, ht1'⟩
      · rcases hph1 with h | h | h <;> exact Phase.noConfusion h
      · rcases tset_cases ht2 with ⟨h2i, rfl⟩ | ⟨hne2, ht2'⟩
        · rcases hph2 with h | h | h <;> exact Phase.noConfusion h
        · exact hI.liveUnique j j' cid' ep1 ep2 ⟨t1, ht1', hph1⟩ ⟨t2, ht2', hph2⟩
    · -- doneEpoch
      intro j cid' ep' hD
      rw [hgs]
      obtain ⟨t, htj, hph⟩ := hD
      rw [hth] at htj
      rcases tset_cases htj with ⟨rfl, rfl⟩ | ⟨hne, htj'⟩
      · rcases hph with ⟨v0, sh0, e0, h⟩ | ⟨pe0, h⟩
        · exact Phase.noConfusion h
        · injection h with hpe0 hsrc
          injection hsrc with hc1 hc2
          rw [← hc1, ← hc2]
          exact ⟨hepi.2, le_of_eq hepi.1.symm⟩
      · exact hI.doneEpoch j cid' ep' ⟨t, htj', hph⟩
    · -- doneLtLive
      intro j j' cid' ep1 ep2 hD hL
      obtain ⟨t1, ht1, hph1⟩ := hD
      obtain ⟨t2, ht2, hph2⟩ := hL
      rw [hth] at ht1 ht2
      rcases tset_cases ht2 with ⟨h2i, rfl⟩ | ⟨hne2, ht2'⟩
      · exfalso
        rcases hph2 with h | h | h <;> exact Phase.noConfusion h
      · rcases tset_cases ht1 with ⟨rfl, rfl⟩ | ⟨hne1, ht1'⟩
        · rcases hph1 with ⟨v0, sh0, e0, h⟩ | ⟨pe0, h⟩
          · exact Phase.noConfusion h
          · injection h with hpe0 hsrc
            injection hsrc with hc1 hc2
            exfalso
            rw [← hc1] at hph2
            exact hne2 (hOnlyLive j' ep2 ⟨t2, ht2', hph2⟩)
        · exact hI.doneLtLive j j' cid' ep1 ep2 ⟨t1, ht1', hph1⟩ ⟨t2, ht2', hph2⟩
    · -- runClean
      intro j t cid' ep' htj hph
      rw [hgs]
      rw [hth] at htj
      rcases tset_cases htj with ⟨rfl, rfl⟩ | ⟨hne, htj'⟩
      · simp at hph
      · exact hI.runClean j t cid' ep' htj' hph
    · -- finishClosed
      intro j t cid' ep' htj hph hdone
      rw [hgs] at hdone ⊢
      rw [hth] at htj
      rcases tset_cases htj with ⟨rfl, rfl⟩ | ⟨hne, htj'⟩
      · simp at hph
      · exact hI.finishClosed j t cid' ep' htj' hph hdone
    · -- outcome
      intro j k' fn' ce' cid' ep' h
      rw [hgs]
      rcases h with h | h
      all_goals rw [hth] at h
      all_goals
        rcases tset_cases h with ⟨rfl, hEq⟩ | ⟨hne, h'⟩
      · injection hEq with hEq1 hEq2 hEq3
        exact absurd hEq3 (by simp)
      · exact hI.outcome j k' fn' ce' cid' ep' (Or.inl h')
      · injection hEq with hEq1 hEq2 hEq3
        exact absurd hEq3 (by simp)
      · exact hI.outcome j k' fn' ce' cid' ep' (Or.inr h')
    · -- waiter
      intro j t cid' ep' htj hph
      rw [hgs]
      rw [hth] at htj
      rcases tset_cases htj with ⟨rfl, rfl⟩ | ⟨hne, htj'⟩
      · simp at hph
      · exact hI.waiter j t cid' ep' htj' hph
    · -- ldoneRet
      intro j k' fn' ce' v' sh e' cid' ep' h
      rw [hgs]
      rw [hth] at h
      rcases tset_cases h with ⟨rfl, hEq⟩ | ⟨hne, h'⟩
      · injection hEq with hEq1 hEq2 hEq3
        exact absurd hEq3 (by simp)
      · exact hI.ldoneRet j k' fn' ce' v' sh e' cid' ep' h'
    · -- ldonePanic
      intro j k' fn' ce' pe' cid' ep' h
      rw [hgs]
      rw [hth] at h
      rcases tset_cases h with ⟨rfl, hEq⟩ | ⟨hne, h'⟩
      · injection hEq with hEq1 hEq2 hEq3
        injection hEq1 with hk hfn
        injection hEq3 with hpe0 hsrc
        injection hsrc with hc1 hc2
        refine ⟨?_, ?_, ?_, ?_, ?_⟩
        · rw [hfn, hfnpanic, hpe0]
        · rw [hc1, hpe0]; exact hpm
        · rw [hc1, hc2]; exact hepi.1
        · intro hdone
          rw [hc1] at hdone ⊢
          exact hfc hdone
        · rw [hc1]; exact hnotpool
      · exact hI.ldonePanic j k' fn' ce' pe' cid' ep' h'
    · -- fObs
      intro j t v' sh e' cid' ep' htj hph
      rw [hgs]
      rw [hth] at htj
      rcases tset_cases htj with ⟨rfl, rfl⟩ | ⟨hne, htj'⟩
      · simp at hph
      · exact hI.fObs j t v' sh e' cid' ep' htj' hph
    · -- fObsPanic
      intro j t pe' cid' ep' htj hph
      rw [hgs]
      rw [hth] at htj
      rcases tset_cases htj with ⟨rfl, rfl⟩ | ⟨hne, htj'⟩
      · injection hph with hpe0 hsrc
        exact absurd hsrc (by simp)
      · exact hI.fObsPanic j t pe' cid' ep' htj' hph
    · -- fCancel
      intro j t v' sh e' cid' ep' htj hph
      rw [hth] at htj
      rcases tset_cases htj with ⟨rfl, rfl⟩ | ⟨hne, htj'⟩
      · simp at hph
      · exact hI.fCancel j t v' sh e' cid' ep' htj' hph

theorem inv_observe {c : Config K V E P S} {i : Nat} {k : K} {fn : FnRes V E P S}
    {ce : E} {cid ep : Nat} (hI : Inv c)
    (ht : c.threads i = some ⟨.doOp k fn, ce, .followerWait cid ep⟩)
    (hc : (c.gs.heap cid).closed = true) :
    Inv (observeCfg c i k fn ce cid ep) := by
  have hw := hI.waiter i _ cid ep ht rfl
  have hcidlt : cid < c.gs.nextId := hI.thBound i _ cid ht rfl
  have hgs : (observeCfg c i k fn ce cid ep).gs = c.gs := rfl
  have hnt : ∃ φ, (observeCfg c i k fn ce cid ep).threads =
      tset c.threads i ⟨.doOp k fn, ce, φ⟩ ∧
      ((∃ pe, (c.gs.heap cid).panicErr = some pe ∧
          φ = .donePanic pe (.followerObsSrc cid ep)) ∨
       ((c.gs.heap cid).panicErr = none ∧
          φ = .doneRet (c.gs.heap cid).val true (c.gs.heap cid).err
            (.followerObsSrc cid ep))) := by
    rcases hpm : (c.gs.heap cid).panicErr with _ | pe
    · refine ⟨_, ?_, Or.inr ⟨rfl, rfl⟩⟩
      show tset c.threads i ⟨_, _,
        (match (c.gs.heap cid).panicErr with
         | some pe => Phase.donePanic pe (.followerObsSrc cid ep)
         | none => Phase.doneRet (c.gs.heap cid).val true (c.gs.heap cid).err
             (.followerObsSrc cid ep))⟩ = _
      rw [hpm]
    · refine ⟨_, ?_, Or.inl ⟨pe, rfl, rfl⟩⟩
      show tset c.threads i ⟨_, _,
        (match (c.gs.heap cid).panicErr with
         | some pe => Phase.donePanic pe (.followerObsSrc cid ep)
         | none => Phase.doneRet (c.gs.heap cid).val true (c.gs.heap cid).err
             (.followerObsSrc cid ep))⟩ = _
      rw [hpm]
  obtain ⟨φ, hth, hφ⟩ := hnt
  have hφnotlive : ∀ cid0 ep0, φ ≠ .followerWait cid0 ep0 ∧
      φ ≠ .leaderRun cid0 ep0 ∧ φ ≠ .leaderCleanup cid0 ep0 ∧
      φ ≠ .leaderFinish cid0 ep0 := by
    intro cid0 ep0
    rcases hφ with ⟨pe, _, rfl⟩ | ⟨_, rfl⟩ <;>
      exact ⟨by simp, by simp, by simp, by simp⟩
  have hφcid : ∀ cid0, (Phase.refCid φ) = some cid0 → cid0 = cid := by
    intro cid0 h0
    rcases hφ with ⟨pe, _, rfl⟩ | ⟨_, rfl⟩ <;>
      (simp [Phase.refCid, RetSrc.cid] at h0; omega)
  constructor
  case fresh =>
    intro cid' h
    rw [hgs] at h ⊢
    exact hI.fresh cid' h
  case mapBound =>
    intro k' cid' h
    rw [hgs] at h ⊢
    exact hI.mapBound k' cid' h
  case poolBound =>
    intro cid' h
    rw [hgs] at h ⊢
    exact hI.poolBound cid' h
  case thBound =>
    intro j t cid' htj hcid'
    rw [hgs]
    rw [hth] at htj
    rcases tset_cases htj with ⟨rfl, rfl⟩ | ⟨hne, htj'⟩
    · rw [hφcid cid' hcid']
      exact hcidlt
    · exact hI.thBound j t cid' htj' hcid'
  case poolNodup =>
    rw [hgs]; exact hI.poolNodup
  case poolClean =>
    intro cid' hin
    rw [hgs] at hin ⊢
    exact hI.poolClean cid' hin
  case poolUnmapped =>
    intro cid' k' hin hmap
    rw [hgs] at hin hmap
    exact hI.poolUnmapped cid' k' hin hmap
  case poolNoRef =>
    intro cid' j t hin htj
    rw [hgs] at hin
    rw [hth] at htj
    rcases tset_cases htj with ⟨rfl, rfl⟩ | ⟨hne, htj'⟩
    · rintro ⟨ep', h | h | h | h⟩
      · exact (hφnotlive cid' ep').1 h
      · exact (hφnotlive cid' ep').2.1 h
      · exact (hφnotlive cid' ep').2.2.1 h
      · exact (hφnotlive cid' ep').2.2.2 h
    · exact hI.poolNoRef cid' j t hin htj'
  case closedDone =>
    intro cid' h
    rw [hgs] at h ⊢
    exact hI.closedDone cid' h
  case mapForgot =>
    intro k' cid' h
    rw [hgs] at h ⊢
    exact hI.mapForgot k' cid' h
  case mapOwner =>
    intro k' cid' h
    rw [hgs] at h ⊢
    obtain ⟨j, hRCj⟩ := hI.mapOwner k' cid' h
    have hjne : j ≠ i := by
      rintro rfl
      obtain ⟨fn0, ce0, h0 | h0⟩ := hRCj <;>
        (rw [ht] at h0; injection h0 with h0;
         injection h0 with hop hce hph; exact absurd hph (by simp))
    obtain ⟨fn', ce', h0 | h0⟩ := hRCj
    · exact ⟨j, fn', ce', Or.inl (by rw [hth, tset_other hjne]; exact h0)⟩
    · exact ⟨j, fn', ce', Or.inr (by rw [hth, tset_other hjne]; exact h0)⟩
  case mapInj =>
    intro k1 k2 cid' h1 h2
    rw [hgs] at h1 h2
    exact hI.mapInj k1 k2 cid' h1 h2
  case ownerKey =>
    intro j k' cid' ep' hRCj hforg
    rw [hgs] at hforg ⊢
    obtain ⟨fn', ce', h0 | h0⟩ := hRCj
    · rw [hth] at h0
      rcases tset_cases h0 with ⟨rfl, hEq⟩ | ⟨hne, h0'⟩
      · injection hEq with hEq1 hEq2 hEq3
        exact absurd hEq3.symm ((hφnotlive cid' ep').2.1)
      · exact hI.ownerKey j k' cid' ep' ⟨fn', ce', Or.inl h0'⟩ hforg
    · rw [hth] at h0
      rcases tset_cases h0 with ⟨rfl, hEq⟩ | ⟨hne, h0'⟩
      · injection hEq with hEq1 hEq2 hEq3
        exact absurd hEq3.symm ((hφnotlive cid' ep').2.2.1)
      · exact hI.ownerKey j k' cid' ep' ⟨fn', ce', Or.inr h0'⟩ hforg
  case liveEpoch =>
    intro j cid' ep' hL
    rw [hgs]
    obtain ⟨t, htj, hph⟩ := hL
    rw [hth] at htj
    rcases tset_cases htj with ⟨rfl, rfl⟩ | ⟨hne, htj'⟩
    · rcases hph with h | h | h
      · exact absurd h ((hφnotlive cid' ep').2.1)
      · exact absurd h ((hφnotlive cid' ep').2.2.1)
      · exact absurd h ((hφnotlive cid' ep').2.2.2)
    · exact hI.liveEpoch j cid' ep' ⟨t, htj', hph⟩
  case liveUnique =>
    intro j j' cid' ep1 ep2 h1 h2
    obtain ⟨t1, ht1, hph1⟩ := h1
    obtain ⟨t2, ht2, hph2⟩ := h2
    rw [hth] at ht1 ht2
    rcases tset_cases ht1 with ⟨rfl, rfl⟩ | ⟨hne1, ht1'⟩
    · rcases hph1 with h | h | h
      · exact absurd h ((hφnotlive cid' ep1).2.1)
      · exact absurd h ((hφnotlive cid' ep1).2.2.1)
      · exact absurd h ((hφnotlive cid' ep1).2.2.2)
    · rcases tset_cases ht2 with ⟨h2i, rfl⟩ | ⟨hne2, ht2'⟩
      · rcases hph2 with h | h | h
        · exact absurd h ((hφnotlive cid' ep2).2.1)
        · exact absurd h ((hφnotlive cid' ep2).2.2.1)
        · exact absurd h ((hφnotlive cid' ep2).2.2.2)
      · exact hI.liveUnique j j' cid' ep1 ep2 ⟨t1, ht1', hph1⟩ ⟨t2, ht2', hph2⟩
  case doneEpoch =>
    intro j cid' ep' hD
    rw [hgs]
    obtain ⟨t, htj, hph⟩ := hD
    rw [hth] at htj
    rcases tset_cases htj with ⟨rfl, rfl⟩ | ⟨hne, htj'⟩
    · exfalso
      rcases hφ with ⟨pe, _, hφEq⟩ | ⟨_, hφEq⟩ <;> subst hφEq <;>
        rcases hph with ⟨v0, sh0, e0, h⟩ | ⟨pe0, h⟩ <;>
          first
            | exact Phase.noConfusion h
            | (injection h with h1 h2; exact RetSrc.noConfusion h2)
            | (injection h with h1 h2 h3 h4; exact RetSrc.noConfusion h4)
    · exact hI.doneEpoch j cid' ep' ⟨t, htj', hph⟩
  case doneLtLive =>
    intro j j' cid' ep1 ep2 hD hL
    obtain ⟨t1, ht1, hph1⟩ := hD
    obtain ⟨t2, ht2, hph2⟩ := hL
    rw [hth] at ht1 ht2
    rcases tset_cases ht2 with ⟨h2i, rfl⟩ | ⟨hne2, ht2'⟩
    · exfalso
      rcases hph2 with h | h | h
      · exact absurd h ((hφnotlive cid' ep2).2.1)
      · exact absurd h ((hφnotlive cid' ep2).2.2.1)
      · exact absurd h ((hφnotlive cid' ep2).2.2.2)
    · rcases tset_cases ht1 with ⟨rfl, rfl⟩ | ⟨hne1, ht1'⟩
      · exfalso
        rcases hφ with ⟨pe, _, hφEq⟩ | ⟨_, hφEq⟩ <;> subst hφEq <;>
          rcases hph1 with ⟨v0, sh0, e0, h⟩ | ⟨pe0, h⟩ <;>
            first
              | exact Phase.noConfusion h
              | (injection h with h1 h2; exact RetSrc.noConfusion h2)
              | (injection h with h1 h2 h3 h4; exact RetSrc.noConfusion h4)
      · exact hI.doneLtLive j j' cid' ep1 ep2 ⟨t1, ht1', hph1⟩ ⟨t2, ht2', hph2⟩
  case runClean =>
    intro j t cid' ep' htj hph
    rw [hgs]
    rw [hth] at htj
    rcases tset_cases htj with ⟨rfl, rfl⟩ | ⟨hne, htj'⟩
    · exact absurd hph ((hφnotlive cid' ep').2.1)
    · exact hI.runClean j t cid' ep' htj' hph
  case finishClosed =>
    intro j t cid' ep' htj hph hdone
    rw [hgs] at hdone ⊢
    rw [hth] at htj
    rcases tset_cases htj with ⟨rfl, rfl⟩ | ⟨hne, htj'⟩
    · exact absurd hph ((hφnotlive cid' ep').2.2.2)
    · exact hI.finishClosed j t cid' ep' htj' hph hdone
  case outcome =>
    intro j k' fn' ce' cid' ep' h
    rw [hgs]
    rcases h with h | h
    all_goals rw [hth] at h
    all_goals
      rcases tset_cases h with ⟨rfl, hEq⟩ | ⟨hne, h'⟩
    · injection hEq with hEq1 hEq2 hEq3
      exact absurd hEq3.symm ((hφnotlive cid' ep').2.2.1)
    · exact hI.outcome j k' fn' ce' cid' ep' (Or.inl h')
    · injection hEq with hEq1 hEq2 hEq3
      exact absurd hEq3.symm ((hφnotlive cid' ep').2.2.2)
    · exact hI.outcome j k' fn' ce' cid' ep' (Or.inr h')
  case waiter =>
    intro j t cid' ep' htj hph
    rw [hgs]
    rw [hth] at htj
    rcases tset_cases htj with ⟨rfl, rfl⟩ | ⟨hne, htj'⟩
    · exact absurd hph ((hφnotlive cid' ep').1)
    · exact hI.waiter j t cid' ep' htj' hph
  case ldoneRet =>
    intro j k' fn' ce' v' sh e' cid' ep' h
    rw [hgs]
    rw [hth] at h
    rcases tset_cases h with ⟨rfl, hEq⟩ | ⟨hne, h'⟩
    · exfalso
      injection hEq with hEq1 hEq2 hEq3
      rcases hφ with ⟨pe, _, hφEq⟩ | ⟨_, hφEq⟩ <;> subst hφEq
      · exact Phase.noConfusion hEq3
      · injection hEq3 with h1 h2 h3 h4
        exact RetSrc.noConfusion h4
    · exact hI.ldoneRet j k' fn' ce' v' sh e' cid' ep' h'
  case ldonePanic =>
    intro j k' fn' ce' pe' cid' ep' h
    rw [hgs]
    rw [hth] at h
    rcases tset_cases h with ⟨rfl, hEq⟩ | ⟨hne, h'⟩
    · exfalso
      injection hEq with hEq1 hEq2 hEq3
      rcases hφ with ⟨pe, _, hφEq⟩ | ⟨_, hφEq⟩ <;> subst hφEq
      · injection hEq3 with h1 h2
        exact RetSrc.noConfusion h2
      · exact Phase.noConfusion hEq3
    · exact hI.ldonePanic j k' fn' ce' pe' cid' ep' h'
  case fObs =>
    intro j t v' sh e' cid' ep' htj hph
    rw [hgs]
    rw [hth] at htj
    rcases tset_cases htj with ⟨rfl, rfl⟩ | ⟨hne, htj'⟩
    · rcases hφ with ⟨pe, hpm, hφEq⟩ | ⟨hpm, hφEq⟩ <;> subst hφEq
      · exact absurd hph (by simp)
      · injection hph with h1 h2 h3 h4
        injection h4 with hc1 hc2
        rw [← h1, ← h2, ← h3, ← hc1, ← hc2]
        exact ⟨rfl, hc, hw.2, rfl, rfl, hpm⟩
    · exact hI.fObs j t v' sh e' cid' ep' htj' hph
  case fObsPanic =>
    intro j t pe' cid' ep' htj hph
    rw [hgs]
    rw [hth] at htj
    rcases tset_cases htj with ⟨rfl, rfl⟩ | ⟨hne, htj'⟩
    · rcases hφ with ⟨pe, hpm, hφEq⟩ | ⟨hpm, hφEq⟩ <;> subst hφEq
      · injection hph with h1 h2
        injection h2 with hc1 hc2
        rw [← h1, ← hc1, ← hc2]
        exact ⟨hc, hw.2, hpm⟩
      · exact absurd hph (by simp)
    · exact hI.fObsPanic j t pe' cid' ep' htj' hph
  case fCancel =>
    intro j t v' sh e' cid' ep' htj hph
    rw [hth] at htj
    rcases tset_cases htj with ⟨rfl, rfl⟩ | ⟨hne, htj'⟩
    · exfalso
      rcases hφ with ⟨pe, _, hφEq⟩ | ⟨_, hφEq⟩ <;> subst hφEq
      · exact Phase.noConfusion hph
      · injection hph with h1 h2 h3 h4
        exact RetSrc.noConfusion h4
    · exact hI.fCancel j t v' sh e' cid' ep' htj' hph

theorem inv_cancel {c : Config K V E P S} {i : Nat} {k : K} {fn : FnRes V E P S}
    {ce : E} {cid ep : Nat} (hI : Inv c)
    (ht : c.threads i = some ⟨.doOp k fn, ce, .followerWait cid ep⟩) :
    Inv (cancelCfg c i k fn ce cid ep) := by
  have hcidlt : cid < c.gs.nextId := hI.thBound i _ cid ht rfl
  have hgs : (cancelCfg c i k fn ce cid ep).gs = c.gs := rfl
  have hth : (cancelCfg c i k fn ce cid ep).threads = tset c.threads i
      ⟨.doOp k fn, ce, .doneRet default true (some ce)
        (.followerCancelSrc cid ep)⟩ := rfl
  constructor
  case fresh =>
    intro cid' h
    rw [hgs] at h ⊢
    exact hI.fresh cid' h
  case mapBound =>
    intro k' cid' h
    rw [hgs] at h ⊢
    exact hI.mapBound k' cid' h
  case poolBound =>
    intro cid' h
    rw [hgs] at h ⊢
    exact hI.poolBound cid' h
  case thBound =>
    intro j t cid' htj hcid'
    rw [hgs]
    rw [hth] at htj
    rcases tset_cases htj with ⟨rfl, rfl⟩ | ⟨hne, htj'⟩
    · simp [Phase.refCid, RetSrc.cid] at hcid'; omega
    · exact hI.thBound j t cid' htj' hcid'
  case poolNodup =>
    rw [hgs]; exact hI.poolNodup
  case poolClean =>
    intro cid' hin
    rw [hgs] at hin ⊢
    exact hI.poolClean cid' hin
  case poolUnmapped =>
    intro cid' k' hin hmap
    rw [hgs] at hin hmap
    exact hI.poolUnmapped cid' k' hin hmap
  case poolNoRef =>
    intro cid' j t hin htj
    rw [hgs] at hin
    rw [hth] at htj
    rcases tset_cases htj with ⟨rfl, rfl⟩ | ⟨hne, htj'⟩
    · rintro ⟨ep', h | h | h | h⟩ <;> exact Phase.noConfusion h
    · exact hI.poolNoRef cid' j t hin htj'
  case closedDone =>
    intro cid' h
    rw [hgs] at h ⊢
    exact hI.closedDone cid' h
  case mapForgot =>
    intro k' cid' h
    rw [hgs] at h ⊢
    exact hI.mapForgot k' cid' h
  case mapOwner =>
    intro k' cid' h
    rw [hgs] at h ⊢
    obtain ⟨j, hRCj⟩ := hI.mapOwner k' cid' h
    have hjne : j ≠ i := by
      rintro rfl
      obtain ⟨fn0, ce0, h0 | h0⟩ := hRCj <;>
        (rw [ht] at h0; injection h0 with h0;
         injection h0 with hop hce hph; exact absurd hph (by simp))
    obtain ⟨fn', ce', h0 | h0⟩ := hRCj
    · exact ⟨j, fn', ce', Or.inl (by rw [hth, tset_other hjne]; exact h0)⟩
    · exact ⟨j, fn', ce', Or.inr (by rw [hth, tset_other hjne]; exact h0)⟩
  case mapInj =>
    intro k1 k2 cid' h1 h2
    rw [hgs] at h1 h2
    exact hI.mapInj k1 k2 cid' h1 h2
  case ownerKey =>
    intro j k' cid' ep' hRCj hforg
    rw [hgs] at hforg ⊢
    obtain ⟨fn', ce', h0 | h0⟩ := hRCj
    · rw [hth] at h0
      rcases tset_cases h0 with ⟨rfl, hEq⟩ | ⟨hne, h0'⟩
      · injection hEq with hEq1 hEq2 hEq3
        exact absurd hEq3 (by simp)
      · exact hI.ownerKey j k' cid' ep' ⟨fn', ce', Or.inl h0'⟩ hforg
    · rw [hth] at h0
      rcases tset_cases h0 with ⟨rfl, hEq⟩ | ⟨hne, h0'⟩
      · injection hEq with hEq1 hEq2 hEq3
        exact absurd hEq3 (by simp)
      · exact hI.ownerKey j k' cid' ep' ⟨fn', ce', Or.inr h0'⟩ hforg
  case liveEpoch =>
    intro j cid' ep' hL
    rw [hgs]
    obtain ⟨t, htj, hph⟩ := hL
    rw [hth] at htj
    rcases tset_cases htj with ⟨rfl, rfl⟩ | ⟨hne, htj'⟩
    · rcases hph with h | h | h <;> exact Phase.noConfusion h
    · exact hI.liveEpoch j cid' ep' ⟨t, htj', hph⟩
  case liveUnique =>
    intro j j' cid' ep1 ep2 h1 h2
    obtain ⟨t1, ht1, hph1⟩ := h1
    obtain ⟨t2, ht2, hph2⟩ := h2
    rw [hth] at ht1 ht2
    rcases tset_cases ht1 with ⟨rfl, rfl⟩ | ⟨hne1, ht1'⟩
    · rcases hph1 with h | h | h <;> exact Phase.noConfusion h
    · rcases tset_cases ht2 with ⟨h2i, rfl⟩ | ⟨hne2, ht2'⟩
      · rcases hph2 with h | h | h <;> exact Phase.noConfusion h
      · exact hI.liveUnique j j' cid' ep1 ep2 ⟨t1, ht1', hph1⟩ ⟨t2, ht2', hph2⟩
  case doneEpoch =>
    intro j cid' ep' hD
    rw [hgs]
    obtain ⟨t, htj, hph⟩ := hD
    rw [hth] at htj
    rcases tset_cases htj with ⟨rfl, rfl⟩ | ⟨hne, htj'⟩
    · exfalso
      rcases hph with ⟨v0, sh0, e0, h⟩ | ⟨pe0, h⟩
      · injection h with h1 h2 h3 h4
        exact RetSrc.noConfusion h4
      · exact Phase.noConfusion h
    · exact hI.doneEpoch j cid' ep' ⟨t, htj', hph⟩
  case doneLtLive =>
    intro j j' cid' ep1 ep2 hD hL
    obtain ⟨t1, ht1, hph1⟩ := hD
    obtain ⟨t2, ht2, hph2⟩ := hL
    rw [hth] at ht1 ht2
    rcases tset_cases ht2 with ⟨h2i, rfl⟩ | ⟨hne2, ht2'⟩
    · exfalso
      rcases hph2 with h | h | h <;> exact Phase.noConfusion h
    · rcases tset_cases ht1 with ⟨rfl, rfl⟩ | ⟨hne1, ht1'⟩
      · exfalso
        rcases hph1 with ⟨v0, sh0, e0, h⟩ | ⟨pe0, h⟩
        · injection h with h1 h2 h3 h4
          exact RetSrc.noConfusion h4
        · exact Phase.noConfusion h
      · exact hI.doneLtLive j j' cid' ep1 ep2 ⟨t1, ht1', hph1⟩ ⟨t2, ht2', hph2⟩
  case runClean =>
    intro j t cid' ep' htj hph
    rw [hgs]
    rw [hth] at htj
    rcases tset_cases htj with ⟨rfl, rfl⟩ | ⟨hne, htj'⟩
    · simp at hph
    · exact hI.runClean j t cid' ep' htj' hph
  case finishClosed =>
    intro j t cid' ep' htj hph hdone
    rw [hgs] at hdone ⊢
    rw [hth] at htj
    rcases tset_cases htj with ⟨rfl, rfl⟩ | ⟨hne, htj'⟩
    · simp at hph
    · exact hI.finishClosed j t cid' ep' htj' hph hdone
  case outcome =>
    intro j k' fn' ce' cid' ep' h
    rw [hgs]
    rcases h with h | h
    all_goals rw [hth] at h
    all_goals
      rcases tset_cases h with ⟨rfl, hEq⟩ | ⟨hne, h'⟩
    · injection hEq with hEq1 hEq2 hEq3
      exact absurd hEq3 (by simp)
    · exact hI.outcome j k' fn' ce' cid' ep' (Or.inl h')
    · injection hEq with hEq1 hEq2 hEq3
      exact absurd hEq3 (by simp)
    · exact hI.outcome j k' fn' ce' cid' ep' (Or.inr h')
  case waiter =>
    intro j t cid' ep' htj hph
    rw [hgs]
    rw [hth] at htj
    rcases tset_cases htj with ⟨rfl, rfl⟩ | ⟨hne, htj'⟩
    · simp at hph
    · exact hI.waiter j t cid' ep' htj' hph
  case ldoneRet =>
    intro j k' fn' ce' v' sh e' cid' ep' h
    rw [hgs]
    rw [hth] at h
    rcases tset_cases h with ⟨rfl, hEq⟩ | ⟨hne, h'⟩
    · exfalso
      injection hEq with hEq1 hEq2 hEq3
      injection hEq3 with h1 h2 h3 h4
      exact RetSrc.noConfusion h4
    · exact hI.ldoneRet j k' fn' ce' v' sh e' cid' ep' h'
  case ldonePanic =>
    intro j k' fn' ce' pe' cid' ep' h
    rw [hgs]
    rw [hth] at h
    rcases tset_cases h with ⟨rfl, hEq⟩ | ⟨hne, h'⟩
    · injection hEq with hEq1 hEq2 hEq3
      exact absurd hEq3 (by simp)
    · exact hI.ldonePanic j k' fn' ce' pe' cid' ep' h'
  case fObs =>
    intro j t v' sh e' cid' ep' htj hph
    rw [hgs]
    rw [hth] at htj
    rcases tset_cases htj with ⟨rfl, rfl⟩ | ⟨hne, htj'⟩
    · exfalso
      injection hph with h1 h2 h3 h4
      exact RetSrc.noConfusion h4
    · exact hI.fObs j t v' sh e' cid' ep' htj' hph
  case fObsPanic =>
    intro j t pe' cid' ep' htj hph
    rw [hgs]
    rw [hth] at htj
    rcases tset_cases htj with ⟨rfl, rfl⟩ | ⟨hne, htj'⟩
    · simp at hph
    · exact hI.fObsPanic j t pe' cid' ep' htj' hph
  case fCancel =>
    intro j t v' sh e' cid' ep' htj hph
    rw [hth] at htj
    rcases tset_cases htj with ⟨rfl, rfl⟩ | ⟨hne, htj'⟩
    · injection hph with h1 h2 h3 h4
      exact ⟨h1.symm, h2.symm, h3.symm⟩
    · exact hI.fCancel j t v' sh e' cid' ep' htj' hph

theorem inv_forgetHit {c : Config K V E P S} {i : Nat} {k : K} {ce : E} {cid : Nat}
    (hI : Inv c)
    (ht : c.threads i = some ⟨.forgetOp k, ce, .start⟩)
    (hm : mapOf c.gs k = some cid) :
    Inv (forgetHitCfg c i k ce cid) := by
  have hcidlt : cid < c.gs.nextId := hI.mapBound k cid hm
  have hnid : (forgetHitCfg c i k ce cid).gs.nextId = c.gs.nextId := rfl
  have hpoolEq : (forgetHitCfg c i k ce cid).gs.pool = c.gs.pool := rfl
  have hth : (forgetHitCfg c i k ce cid).threads = tset c.threads i
      ⟨.forgetOp k, ce, .forgetDone⟩ := rfl
  have hheapNe : ∀ j, j ≠ cid →
      (forgetHitCfg c i k ce cid).gs.heap j = c.gs.heap j := by
    intro j hj; exact hset_other hj
  have hheapEq : (forgetHitCfg c i k ce cid).gs.heap cid =
      { c.gs.heap cid with forgotten := true } := hset_same
  have hvl : ∀ cid', ((forgetHitCfg c i k ce cid).gs.heap cid').val =
      (c.gs.heap cid').val := by
    intro cid'
    by_cases hc : cid' = cid
    · rw [hc, hheapEq]
    · rw [hheapNe cid' hc]
  have her : ∀ cid', ((forgetHitCfg c i k ce cid).gs.heap cid').err =
      (c.gs.heap cid').err := by
    intro cid'
    by_cases hc : cid' = cid
    · rw [hc, hheapEq]
    · rw [hheapNe cid' hc]
  have hpe : ∀ cid', ((forgetHitCfg c i k ce cid).gs.heap cid').panicErr =
      (c.gs.heap cid').panicErr := by
    intro cid'
    by_cases hc : cid' = cid
    · rw [hc, hheapEq]
    · rw [hheapNe cid' hc]
  have hdn : ∀ cid', ((forgetHitCfg c i k ce cid).gs.heap cid').done =
      (c.gs.heap cid').done := by
    intro cid'
    by_cases hc : cid' = cid
    · rw [hc, hheapEq]
    · rw [hheapNe cid' hc]
  have hcl : ∀ cid', ((forgetHitCfg c i k ce cid).gs.heap cid').closed =
      (c.gs.heap cid').closed := by
    intro cid'
    by_cases hc : cid' = cid
    · rw [hc, hheapEq]
    · rw [hheapNe cid' hc]
  have hdp : ∀ cid', ((forgetHitCfg c i k ce cid).gs.heap cid').dups =
      (c.gs.heap cid').dups := by
    intro cid'
    by_cases hc : cid' = cid
    · rw [hc, hheapEq]
    · rw [hheapNe cid' hc]
  have hec : ∀ cid', ((forgetHitCfg c i k ce cid).gs.heap cid').epoch =
      (c.gs.heap cid').epoch := by
    intro cid'
    by_cases hc : cid' = cid
    · rw [hc, hheapEq]
    · rw [hheapNe cid' hc]
  have hmapAt : ∀ k', mapOf (forgetHitCfg c i k ce cid).gs k' =
      if k' = k then none else mapOf c.gs k' := by
    intro k'
    exact getD_map_mset c.gs.calls k k'
  have hmapLe : ∀ k' cid'', mapOf (forgetHitCfg c i k ce cid).gs k' = some cid'' →
      mapOf c.gs k' = some cid'' := by
    intro k' cid'' h
    rw [hmapAt] at h
    by_cases hk : k' = k
    · rw [if_pos hk] at h; cases h
    · rwa [if_neg hk] at h
  constructor
  case fresh =>
    intro cid' h
    rw [hnid] at h
    rw [hheapNe cid' (by omega)]
    exact hI.fresh cid' h
  case mapBound =>
    intro k' cid' h
    rw [hnid]
    exact hI.mapBound k' cid' (hmapLe k' cid' h)
  case poolBound =>
    intro cid' h
    rw [hpoolEq] at h
    rw [hnid]
    exact hI.poolBound cid' h
  case thBound =>
    intro j t cid' htj hcid'
    rw [hnid]
    rw [hth] at htj
    rcases tset_cases htj with ⟨rfl, rfl⟩ | ⟨hne, htj'⟩
    · simp [Phase.refCid] at hcid'
    · exact hI.thBound j t cid' htj' hcid'
  case poolNodup =>
    rw [hpoolEq]; exact hI.poolNodup
  case poolClean =>
    intro cid' hin
    rw [hpoolEq] at hin
    have h := hI.poolClean cid' hin
    exact ⟨by rw [hdn]; exact h.1, by rw [hcl]; exact h.2.1,
      by rw [hdp]; exact h.2.2.1, by rw [hvl]; exact h.2.2.2.1,
      by rw [her]; exact h.2.2.2.2.1, by rw [hpe]; exact h.2.2.2.2.2⟩
  case poolUnmapped =>
    intro cid' k' hin hmap
    rw [hpoolEq] at hin
    exact hI.poolUnmapped cid' k' hin (hmapLe k' cid' hmap)
  case poolNoRef =>
    intro cid' j t hin htj
    rw [hpoolEq] at hin
    rw [hth] at htj
    rcases tset_cases htj with ⟨rfl, rfl⟩ | ⟨hne, htj'⟩
    · rintro ⟨ep', h | h | h | h⟩ <;> exact Phase.noConfusion h
    · exact hI.poolNoRef cid' j t hin htj'
  case closedDone =>
    intro cid' h
    rw [hcl] at h
    rw [hdn]
    exact hI.closedDone cid' h
  case mapForgot =>
    intro k' cid' h
    have hmOld := hmapLe k' cid' h
    have hkne : k' ≠ k := by
      intro hEq
      rw [hmapAt, if_pos hEq] at h
      cases h
    have hcne : cid' ≠ cid := by
      intro hEq
      rw [hEq] at hmOld
      exact hkne (hI.mapInj k' k cid hmOld hm)
    rw [hheapNe cid' hcne]
    exact hI.mapForgot k' cid' hmOld
  case mapOwner =>
    intro k' cid' h
    have hmOld := hmapLe k' cid' h
    have hkne : k' ≠ k := by
      intro hEq
      rw [hmapAt, if_pos hEq] at h
      cases h
    have hcne : cid' ≠ cid := by
      intro hEq
      rw [hEq] at hmOld
      exact hkne (hI.mapInj k' k cid hmOld hm)
    obtain ⟨j, hRCj⟩ := hI.mapOwner k' cid' hmOld
    have hjne : j ≠ i := by
      rintro rfl
      obtain ⟨fn0, ce0, h0 | h0⟩ := hRCj <;>
        (rw [ht] at h0; injection h0 with h0;
         injection h0 with hop hce hph; exact Op.noConfusion hop)
    rw [hec]
    obtain ⟨fn', ce', h0 | h0⟩ := hRCj
    · exact ⟨j, fn', ce', Or.inl (by rw [hth, tset_other hjne]; exact h0)⟩
    · exact ⟨j, fn', ce', Or.inr (by rw [hth, tset_other hjne]; exact h0)⟩
  case mapInj =>
    intro k1 k2 cid' h1 h2
    exact hI.mapInj k1 k2 cid' (hmapLe k1 cid' h1) (hmapLe k2 cid' h2)
  case ownerKey =>
    intro j k' cid' ep' hRCj hforg
    have hRCold : RCOwn c j k' cid' ep' := by
      obtain ⟨fn', ce', h0 | h0⟩ := hRCj
      · rw [hth] at h0
        rcases tset_cases h0 with ⟨rfl, hEq⟩ | ⟨hne, h0'⟩
        · injection hEq with hEq1 hEq2 hEq3
          exact absurd hEq3 (by simp)
        · exact ⟨fn', ce', Or.inl h0'⟩
      · rw [hth] at h0
        rcases tset_cases h0 with ⟨rfl, hEq⟩ | ⟨hne, h0'⟩
        · injection hEq with hEq1 hEq2 hEq3
          exact absurd hEq3 (by simp)
        · exact ⟨fn', ce', Or.inr h0'⟩
    have hcne : cid' ≠ cid := by
      intro hEq
      rw [hEq, hheapEq] at hforg
      cases hforg
    rw [hheapNe cid' hcne] at hforg
    have hmk := hI.ownerKey j k' cid' ep' hRCold hforg
    have hkne : k' ≠ k := by
      intro hEq
      rw [hEq, hm] at hmk
      injection hmk with h2
      exact hcne h2.symm
    rw [hmapAt, if_neg hkne]
    exact hmk
  case liveEpoch =>
    intro j cid' ep' hL
    rw [hec]
    obtain ⟨t, htj, hph⟩ := hL
    rw [hth] at htj
    rcases tset_cases htj with ⟨rfl, rfl⟩ | ⟨hne, htj'⟩
    · rcases hph with h | h | h <;> exact Phase.noConfusion h
    · exact hI.liveEpoch j cid' ep' ⟨t, htj', hph⟩
  case liveUnique =>
    intro j j' cid' ep1 ep2 h1 h2
    obtain ⟨t1, ht1, hph1⟩ := h1
    obtain ⟨t2, ht2, hph2⟩ := h2
    rw [hth] at ht1 ht2
    rcases tset_cases ht1 with ⟨rfl, rfl⟩ | ⟨hne1, ht1'⟩
    · rcases hph1 with h | h | h <;> exact Phase.noConfusion h
    · rcases tset_cases ht2 with ⟨h2i, rfl⟩ | ⟨hne2, ht2'⟩
      · rcases hph2 with h | h | h <;> exact Phase.noConfusion h
      · exact hI.liveUnique j j' cid' ep1 ep2 ⟨t1, ht1', hph1⟩ ⟨t2, ht2', hph2⟩
  case doneEpoch =>
    intro j cid' ep' hD
    rw [hec]
    obtain ⟨t, htj, hph⟩ := hD
    rw [hth] at htj
    rcases tset_cases htj with ⟨rfl, rfl⟩ | ⟨hne, htj'⟩
    · exfalso
      rcases hph with ⟨v0, sh0, e0, h⟩ | ⟨pe0, h⟩ <;> exact Phase.noConfusion h
    · exact hI.doneEpoch j cid' ep' ⟨t, htj', hph⟩
  case doneLtLive =>
    intro j j' cid' ep1 ep2 hD hL
    obtain ⟨t1, ht1, hph1⟩ := hD
    obtain ⟨t2, ht2, hph2⟩ := hL
    rw [hth] at ht1 ht2
    rcases tset_cases ht2 with ⟨h2i, rfl⟩ | ⟨hne2, ht2'⟩
    · exfalso
      rcases hph2 with h | h | h <;> exact Phase.noConfusion h
    · rcases tset_cases ht1 with ⟨rfl, rfl⟩ | ⟨hne1, ht1'⟩
      · exfalso
        rcases hph1 with ⟨v0, sh0, e0, h⟩ | ⟨pe0, h⟩ <;> exact Phase.noConfusion h
      · exact hI.doneLtLive j j' cid' ep1 ep2 ⟨t1, ht1', hph1⟩ ⟨t2, ht2', hph2⟩
  case runClean =>
    intro j t cid' ep' htj hph
    rw [hcl, hpe]
    rw [hth] at htj
    rcases tset_cases htj with ⟨rfl, rfl⟩ | ⟨hne, htj'⟩
    · simp at hph
    · exact hI.runClean j t cid' ep' htj' hph
  case finishClosed =>
    intro j t cid' ep' htj hph hdone
    rw [hdn] at hdone
    rw [hcl]
    rw [hth] at htj
    rcases tset_cases htj with ⟨rfl, rfl⟩ | ⟨hne, htj'⟩
    · simp at hph
    · exact hI.finishClosed j t cid' ep' htj' hph hdone
  case outcome =>
    intro j k' fn' ce' cid' ep' h
    rcases h with h | h
    all_goals rw [hth] at h
    all_goals
      rcases tset_cases h with ⟨rfl, hEq⟩ | ⟨hne, h'⟩
    · injection hEq with hEq1 hEq2 hEq3
      exact absurd hEq3 (by simp)
    · exact (hI.outcome j k' fn' ce' cid' ep' (Or.inl h')).transfer
        (hvl cid') (her cid') (hpe cid')
    · injection hEq with hEq1 hEq2 hEq3
      exact absurd hEq3 (by simp)
    · exact (hI.outcome j k' fn' ce' cid' ep' (Or.inr h')).transfer
        (hvl cid') (her cid') (hpe cid')
  case waiter =>
    intro j t cid' ep' htj hph
    rw [hdn, hec]
    rw [hth] at htj
    rcases tset_cases htj with ⟨rfl, rfl⟩ | ⟨hne, htj'⟩
    · simp at hph
    · exact hI.waiter j t cid' ep' htj' hph
  case ldoneRet =>
    intro j k' fn' ce' v' sh e' cid' ep' h
    rw [hth] at h
    rcases tset_cases h with ⟨rfl, hEq⟩ | ⟨hne, h'⟩
    · injection hEq with hEq1 hEq2 hEq3
      exact absurd hEq3 (by simp)
    · have hI' := hI.ldoneRet j k' fn' ce' v' sh e' cid' ep' h'
      refine ⟨hI'.1, ?_⟩
      intro hguard
      rw [hec] at hguard
      have h2 := hI'.2 hguard
      refine ⟨by rw [hpe]; exact h2.1, ?_, ?_⟩
      · rw [hdp]; exact h2.2.1
      · intro hdone
        rw [hdn] at hdone
        have h3 := h2.2.2 hdone
        exact ⟨by rw [hcl]; exact h3.1, by rw [hvl]; exact h3.2.1,
          by rw [her]; exact h3.2.2⟩
  case ldonePanic =>
    intro j k' fn' ce' pe' cid' ep' h
    rw [hth] at h
    rcases tset_cases h with ⟨rfl, hEq⟩ | ⟨hne, h'⟩
    · injection hEq with hEq1 hEq2 hEq3
      exact absurd hEq3 (by simp)
    · have hI' := hI.ldonePanic j k' fn' ce' pe' cid' ep' h'
      refine ⟨hI'.1, by rw [hpe]; exact hI'.2.1, by rw [hec]; exact hI'.2.2.1, ?_, ?_⟩
      · intro hdone
        rw [hdn] at hdone
        rw [hcl]
        exact hI'.2.2.2.1 hdone
      · rw [hpoolEq]
        exact hI'.2.2.2.2
  case fObs =>
    intro j t v' sh e' cid' ep' htj hph
    rw [hth] at htj
    rcases tset_cases htj with ⟨rfl, rfl⟩ | ⟨hne, htj'⟩
    · simp at hph
    · have h := hI.fObs j t v' sh e' cid' ep' htj' hph
      exact ⟨h.1, by rw [hcl]; exact h.2.1, by rw [hec]; exact h.2.2.1,
        by rw [hvl]; exact h.2.2.2.1, by rw [her]; exact h.2.2.2.2.1,
        by rw [hpe]; exact h.2.2.2.2.2⟩
  case fObsPanic =>
    intro j t pe' cid' ep' htj hph
    rw [hth] at htj
    rcases tset_cases htj with ⟨rfl, rfl⟩ | ⟨hne, htj'⟩
    · simp at hph
    · have h := hI.fObsPanic j t pe' cid' ep' htj' hph
      exact ⟨by rw [hcl]; exact h.1, by rw [hec]; exact h.2.1,
        by rw [hpe]; exact h.2.2⟩
  case fCancel =>
    intro j t v' sh e' cid' ep' htj hph
    rw [hth] at htj
    rcases tset_cases htj with ⟨rfl, rfl⟩ | ⟨hne, htj'⟩
    · simp at hph
    · exact hI.fCancel j t v' sh e' cid' ep' htj' hph

theorem inv_forgetMiss {c : Config K V E P S} {i : Nat} {k : K} {ce : E}
    (hI : Inv c)
    (ht : c.threads i = some ⟨.forgetOp k, ce, .start⟩)
    (hm : mapOf c.gs k = none) :
    Inv (forgetMissCfg c i k ce) := by
  have hnid : (forgetMissCfg c i k ce).gs.nextId = c.gs.nextId := rfl
  have hpoolEq : (forgetMissCfg c i k ce).gs.pool = c.gs.pool := rfl
  have hheapEq : (forgetMissCfg c i k ce).gs.heap = c.gs.heap := rfl
  have hth : (forgetMissCfg c i k ce).threads = tset c.threads i
      ⟨.forgetOp k, ce, .forgetDone⟩ := rfl
  have hmapEq : ∀ k', mapOf (forgetMissCfg c i k ce).gs k' = mapOf c.gs k' := by
    intro k'
    have := getD_map_mset (K := K) c.gs.calls k k'
    by_cases hk : k' = k
    · rw [hk] at this ⊢
      rw [if_pos rfl] at this
      rw [hm]
      exact this
    · rw [if_neg hk] at this
      exact this
  constructor
  case fresh =>
    intro cid' h
    rw [hnid] at h
    rw [hheapEq]
    exact hI.fresh cid' h
  case mapBound =>
    intro k' cid' h
    rw [hmapEq] at h
    rw [hnid]
    exact hI.mapBound k' cid' h
  case poolBound =>
    intro cid' h
    rw [hpoolEq] at h
    rw [hnid]
    exact hI.poolBound cid' h
  case thBound =>
    intro j t cid' htj hcid'
    rw [hnid]
    rw [hth] at htj
    rcases tset_cases htj with ⟨rfl, rfl⟩ | ⟨hne, htj'⟩
    · simp [Phase.refCid] at hcid'
    · exact hI.thBound j t cid' htj' hcid'
  case poolNodup =>
    rw [hpoolEq]; exact hI.poolNodup
  case poolClean =>
    intro cid' hin
    rw [hpoolEq] at hin
    rw [hheapEq]
    exact hI.poolClean cid' hin
  case poolUnmapped =>
    intro cid' k' hin hmap
    rw [hpoolEq] at hin
    rw [hmapEq] at hmap
    exact hI.poolUnmapped cid' k' hin hmap
  case poolNoRef =>
    intro cid' j t hin htj
    rw [hpoolEq] at hin
    rw [hth] at htj
    rcases tset_cases htj with ⟨rfl, rfl⟩ | ⟨hne, htj'⟩
    · rintro ⟨ep', h | h | h | h⟩ <;> exact Phase.noConfusion h
    · exact hI.poolNoRef cid' j t hin htj'
  case closedDone =>
    intro cid' h
    rw [hheapEq] at h ⊢
    exact hI.closedDone cid' h
  case mapForgot =>
    intro k' cid' h
    rw [hmapEq] at h
    rw [hheapEq]
    exact hI.mapForgot k' cid' h
  case mapOwner =>
    intro k' cid' h
    rw [hmapEq] at h
    rw [hheapEq]
    obtain ⟨j, hRCj⟩ := hI.mapOwner k' cid' h
    have hjne : j ≠ i := by
      rintro rfl
      obtain ⟨fn0, ce0, h0 | h0⟩ := hRCj <;>
        (rw [ht] at h0; injection h0 with h0;
         injection h0 with hop hce hph; exact Op.noConfusion hop)
    obtain ⟨fn', ce', h0 | h0⟩ := hRCj
    · exact ⟨j, fn', ce', Or.inl (by rw [hth, tset_other hjne]; exact h0)⟩
    · exact ⟨j, fn', ce', Or.inr (by rw [hth, tset_other hjne]; exact h0)⟩
  case mapInj =>
    intro k1 k2 cid' h1 h2
    rw [hmapEq] at h1 h2
    exact hI.mapInj k1 k2 cid' h1 h2
  case ownerKey =>
    intro j k' cid' ep' hRCj hforg
    rw [hheapEq] at hforg
    rw [hmapEq]
    obtain ⟨fn', ce', h0 | h0⟩ := hRCj
    · rw [hth] at h0
      rcases tset_cases h0 with ⟨rfl, hEq⟩ | ⟨hne, h0'⟩
      · injection hEq with hEq1 hEq2 hEq3
        exact absurd hEq3 (by simp)
      · exact hI.ownerKey j k' cid' ep' ⟨fn', ce', Or.inl h0'⟩ hforg
    · rw [hth] at h0
      rcases tset_cases h0 with ⟨rfl, hEq⟩ | ⟨hne, h0'⟩
      · injection hEq with hEq1 hEq2 hEq3
        exact absurd hEq3 (by simp)
      · exact hI.ownerKey j k' cid' ep' ⟨fn', ce', Or.inr h0'⟩ hforg
  case liveEpoch =>
    intro j cid' ep' hL
    rw [hheapEq]
    obtain ⟨t, htj, hph⟩ := hL
    rw [hth] at htj
    rcases tset_cases htj with ⟨rfl, rfl⟩ | ⟨hne, htj'⟩
    · rcases hph with h | h | h <;> exact Phase.noConfusion h
    · exact hI.liveEpoch j cid' ep' ⟨t, htj', hph⟩
  case liveUnique =>
    intro j j' cid' ep1 ep2 h1 h2
    obtain ⟨t1, ht1, hph1⟩ := h1
    obtain ⟨t2, ht2, hph2⟩ := h2
    rw [hth] at ht1 ht2
    rcases tset_cases ht1 with ⟨rfl, rfl⟩ | ⟨hne1, ht1'⟩
    · rcases hph1 with h | h | h <;> exact Phase.noConfusion h
    · rcases tset_cases ht2 with ⟨h2i, rfl⟩ | ⟨hne2, ht2'⟩
      · rcases hph2 with h | h | h <;> exact Phase.noConfusion h
      · exact hI.liveUnique j j' cid' ep1 ep2 ⟨t1, ht1', hph1⟩ ⟨t2, ht2', hph2⟩
  case doneEpoch =>
    intro j cid' ep' hD
    rw [hheapEq]
    obtain ⟨t, htj, hph⟩ := hD
    rw [hth] at htj
    rcases tset_cases htj with ⟨rfl, rfl⟩ | ⟨hne, htj'⟩
    · exfalso
      rcases hph with ⟨v0, sh0, e0, h⟩ | ⟨pe0, h⟩ <;> exact Phase.noConfusion h
    · exact hI.doneEpoch j cid' ep' ⟨t, htj', hph⟩
  case doneLtLive =>
    intro j j' cid' ep1 ep2 hD hL
    obtain ⟨t1, ht1, hph1⟩ := hD
    obtain ⟨t2, ht2, hph2⟩ := hL
    rw [hth] at ht1 ht2
    rcases tset_cases ht2 with ⟨h2i, rfl⟩ | ⟨hne2, ht2'⟩
    · exfalso
      rcases hph2 with h | h | h <;> exact Phase.noConfusion h
    · rcases tset_cases ht1 with ⟨rfl, rfl⟩ | ⟨hne1, ht1'⟩
      · exfalso
        rcases hph1 with ⟨v0, sh0, e0, h⟩ | ⟨pe0, h⟩ <;> exact Phase.noConfusion h
      · exact hI.doneLtLive j j' cid' ep1 ep2 ⟨t1, ht1', hph1⟩ ⟨t2, ht2', hph2⟩
  case runClean =>
    intro j t cid' ep' htj hph
    rw [hheapEq]
    rw [hth] at htj
    rcases tset_cases htj with ⟨rfl, rfl⟩ | ⟨hne, htj'⟩
    · simp at hph
    · exact hI.runClean j t cid' ep' htj' hph
  case finishClosed =>
    intro j t cid' ep' htj hph hdone
    rw [hheapEq] at hdone ⊢
    rw [hth] at htj
    rcases tset_cases htj with ⟨rfl, rfl⟩ | ⟨hne, htj'⟩
    · simp at hph
    · exact hI.finishClosed j t cid' ep' htj' hph hdone
  case outcome =>
    intro j k' fn' ce' cid' ep' h
    rw [hheapEq]
    rcases h with h | h
    all_goals rw [hth] at h
    all_goals
      rcases tset_cases h with ⟨rfl, hEq⟩ | ⟨hne, h'⟩
    · injection hEq with hEq1 hEq2 hEq3
      exact absurd hEq3 (by simp)
    · exact hI.outcome j k' fn' ce' cid' ep' (Or.inl h')
    · injection hEq with hEq1 hEq2 hEq3
      exact absurd hEq3 (by simp)
    · exact hI.outcome j k' fn' ce' cid' ep' (Or.inr h')
  case waiter =>
    intro j t cid' ep' htj hph
    rw [hheapEq]
    rw [hth] at htj
    rcases tset_cases htj with ⟨rfl, rfl⟩ | ⟨hne, htj'⟩
    · simp at hph
    · exact hI.waiter j t cid' ep' htj' hph
  case ldoneRet =>
    intro j k' fn' ce' v' sh e' cid' ep' h
    rw [hheapEq]
    rw [hth] at h
    rcases tset_cases h with ⟨rfl, hEq⟩ | ⟨hne, h'⟩
    · injection hEq with hEq1 hEq2 hEq3
      exact absurd hEq3 (by simp)
    · exact hI.ldoneRet j k' fn' ce' v' sh e' cid' ep' h'
  case ldonePanic =>
    intro j k' fn' ce' pe' cid' ep' h
    rw [hth] at h
    rcases tset_cases h with ⟨rfl, hEq⟩ | ⟨hne, h'⟩
    · injection hEq with hEq1 hEq2 hEq3
      exact absurd hEq3 (by simp)
    · have hI' := hI.ldonePanic j k' fn' ce' pe' cid' ep' h'
      rw [hheapEq]
      refine ⟨hI'.1, hI'.2.1, hI'.2.2.1, hI'.2.2.2.1, ?_⟩
      rw [hpoolEq]
      exact hI'.2.2.2.2
  case fObs =>
    intro j t v' sh e' cid' ep' htj hph
    rw [hheapEq]
    rw [hth] at htj
    rcases tset_cases htj with ⟨rfl, rfl⟩ | ⟨hne, htj'⟩
    · simp at hph
    · exact hI.fObs j t v' sh e' cid' ep' htj' hph
  case fObsPanic =>
    intro j t pe' cid' ep' htj hph
    rw [hheapEq]
    rw [hth] at htj
    rcases tset_cases htj with ⟨rfl, rfl⟩ | ⟨hne, htj'⟩
    · simp at hph
    · exact hI.fObsPanic j t pe' cid' ep' htj' hph
  case fCancel =>
    intro j t v' sh e' cid' ep' htj hph
    rw [hth] at htj
    rcases tset_cases htj with ⟨rfl, rfl⟩ | ⟨hne, htj'⟩
    · simp at hph
    · exact hI.fCancel j t v' sh e' cid' ep' htj' hph

/-- Every step preserves the invariant. -/
theorem step_inv {c : Config K V E P S} {l : Lab} {c' : Config K V E P S}
    (hs : Step c l c') (hI : Inv c) : Inv c' := by
  cases hs with
  | join i k fn ce cid ht hm => exact inv_join hI ht hm
  | leadPool i k fn ce cid rest ht hm hp => exact inv_leadPool hI ht hm hp
  | leadFresh i k fn ce ht hm hp => exact inv_leadFresh hI ht hm hp
  | invokeOk i k v e ce cid ep ht => exact inv_invokeOk hI ht
  | invokePanic i k p s ce cid ep ht => exact inv_invokePanic hI ht
  | cleanup i k fn ce cid ep ht => exact inv_cleanup hI ht
  | finish i k fn ce cid ep ht => exact inv_finish hI ht
  | observe i k fn ce cid ep ht hc => exact inv_observe hI ht hc
  | cancel i k fn ce cid ep ht => exact inv_cancel hI ht
  | forgetHit i k ce cid ht hm => exact inv_forgetHit hI ht hm
  | forgetMiss i k ce ht hm => exact inv_forgetMiss hI ht hm

/-- The invariant holds in every reachable configuration. -/
theorem trace_inv {b : Bool} {ops : List (Op K V E P S × E)} {ls : List Lab}
    {c : Config K V E P S} (h : Trace (initConfig b ops) ls c) : Inv c := by
  induction h with
  | refl => exact inv_init b ops
  | snoc h hs ih => exact step_inv hs ih

theorem reaches_inv {b : Bool} {ops : List (Op K V E P S × E)}
    {c : Config K V E P S} (h : Reaches (initConfig b ops) c) : Inv c := by
  obtain ⟨ls, h⟩ := h
  exact trace_inv h

end Preserve

section Counting

variable {K V E P S : Type} [DecidableEq K] [Inhabited V]

/-- Count of labels satisfying a Boolean predicate. -/
def cntP (p : Lab → Bool) : List Lab → Nat
  | [] => 0
  | l :: ls => (if p l then 1 else 0) + cntP p ls

theorem cntP_append (p : Lab → Bool) (l1 l2 : List Lab) :
    cntP p (l1 ++ l2) = cntP p l1 + cntP p l2 := by
  induction l1 with
  | nil => simp [cntP]
  | cons a l ih => simp [cntP, ih]; omega

theorem cntP_snoc (p : Lab → Bool) (ls : List Lab) (l : Lab) :
    cntP p (ls ++ [l]) = cntP p ls + (if p l then 1 else 0) := by
  rw [cntP_append]
  simp [cntP]

theorem cntP_eq_zero_of (p : Lab → Bool) (ls : List Lab)
    (h : ∀ l ∈ ls, p l = false) : cntP p ls = 0 := by
  induction ls with
  | nil => rfl
  | cons a l ih =>
    have ha := h a (List.mem_cons_self a l)
    rw [cntP, ha]
    simp only [Bool.false_eq_true, if_false, Nat.zero_add]
    exact ih (fun x hx => h x (List.mem_cons_of_mem a hx))

/-- Is this label a follower join on call instance `(cid, ep)`? -/
def isJoinOn (cid ep : Nat) : Lab → Bool
  | .joinL _ c e => decide (c = cid ∧ e = ep)
  | _ => false

/-- Number of follower joins on call instance `(cid, ep)` in the trace. -/
def joinCount (ls : List Lab) (cid ep : Nat) : Nat := cntP (isJoinOn cid ep) ls

/-- Number of `fn` invocations by thread `i` in the trace. -/
def invokeCount (ls : List Lab) (i : Nat) : Nat :=
  cntP (fun l => decide (l = Lab.invokeL i)) ls

theorem invokeCount_snoc_ne (ls : List Lab) (l : Lab) (i : Nat)
    (h : l ≠ Lab.invokeL i) : invokeCount (ls ++ [l]) i = invokeCount ls i := by
  rw [invokeCount, cntP_snoc, decide_eq_false h]
  simp [invokeCount]

theorem invokeCount_snoc_self (ls : List Lab) (i : Nat) :
    invokeCount (ls ++ [Lab.invokeL i]) i = invokeCount ls i + 1 := by
  rw [invokeCount, cntP_snoc]
  simp [invokeCount]

theorem joinCount_snoc_other (ls : List Lab) (l : Lab) (cid ep : Nat)
    (h : isJoinOn cid ep l = false) :
    joinCount (ls ++ [l]) cid ep = joinCount ls cid ep := by
  rw [joinCount, cntP_snoc, h]
  simp [joinCount]

theorem joinCount_snoc_join (ls : List Lab) (i cid ep : Nat) :
    joinCount (ls ++ [Lab.joinL i cid ep]) cid ep = joinCount ls cid ep + 1 := by
  rw [joinCount, cntP_snoc]
  simp [joinCount, isJoinOn]

theorem joinCount_mono (ls : List Lab) (l : Lab) (cid ep : Nat) :
    joinCount ls cid ep ≤ joinCount (ls ++ [l]) cid ep := by
  simp only [joinCount, cntP_snoc]
  omega

theorem isJoinOn_leadL (cid ep i c0 : Nat) : isJoinOn cid ep (Lab.leadL i c0) = false := rfl

theorem isJoinOn_invokeL (cid ep i : Nat) : isJoinOn cid ep (Lab.invokeL i) = false := rfl

theorem isJoinOn_cleanupL (cid ep i : Nat) : isJoinOn cid ep (Lab.cleanupL i) = false := rfl

theorem isJoinOn_finishL (cid ep i : Nat) : isJoinOn cid ep (Lab.finishL i) = false := rfl

theorem isJoinOn_observeL (cid ep i : Nat) : isJoinOn cid ep (Lab.observeL i) = false := rfl

theorem isJoinOn_cancelL (cid ep i : Nat) : isJoinOn cid ep (Lab.cancelL i) = false := rfl

theorem isJoinOn_forgetL (cid ep i : Nat) : isJoinOn cid ep (Lab.forgetL i) = false := rfl

theorem isJoinOn_false_of {c' e' cid ep : Nat} (i : Nat)
    (h : ¬(c' = cid ∧ e' = ep)) : isJoinOn cid ep (Lab.joinL i c' e') = false := by
  rw [isJoinOn, decide_eq_false h]

theorem joinCount_zero_of_big {ls : List Lab} {cid a b : Nat}
    (hall : ∀ i e, Lab.joinL i cid e ∈ ls → e ≤ a) (hlt : a < b) :
    joinCount ls cid b = 0 := by
  apply cntP_eq_zero_of
  intro lab hmem
  cases lab with
  | joinL i' c' e' =>
    refine isJoinOn_false_of i' ?_
    rintro ⟨rfl, he⟩
    have := hall i' e' hmem
    omega
  | leadL i' c' => rfl
  | invokeL i' => rfl
  | cleanupL i' => rfl
  | finishL i' => rfl
  | observeL i' => rfl
  | cancelL i' => rfl
  | forgetL i' => rfl

/-- Phases from which the thread has definitely not (yet) invoked `fn`:
everything except a leader at or past its `doCall`. -/
def PreRun : Phase V E P S → Prop
  | .start => True
  | .followerWait _ _ => True
  | .leaderRun _ _ => True
  | .leaderCleanup _ _ => False
  | .leaderFinish _ _ => False
  | .doneRet _ _ _ s =>
      match s with
      | .leaderSrc _ _ => False
      | _ => True
  | .donePanic _ s =>
      match s with
      | .leaderSrc _ _ => False
      | _ => True
  | .forgetDone => True

/-- Trace-level bookkeeping: `dups` counts exactly the joins of the current
ghost epoch; each thread invokes `fn` at most once, and only after becoming
a leader; a finished leader's `shared` flag says whether any join ever
happened on its call instance. -/
structure TrInv (ls : List Lab) (c : Config K V E P S) : Prop where
  joinLe : ∀ i cid e, Lab.joinL i cid e ∈ ls →
    1 ≤ e ∧ e ≤ (c.gs.heap cid).epoch
  dupsEq : ∀ cid, (c.gs.heap cid).dups = joinCount ls cid ((c.gs.heap cid).epoch)
  invLe : ∀ i, invokeCount ls i ≤ 1
  invZero : ∀ i t, c.threads i = some t → PreRun t.phase → invokeCount ls i = 0
  invNone : ∀ i, c.threads i = none → invokeCount ls i = 0
  invOne : ∀ i t, c.threads i = some t → ¬ PreRun t.phase → invokeCount ls i = 1
  shFalse : ∀ i k fn ce v e cid ep,
    c.threads i = some ⟨.doOp k fn, ce, .doneRet v false e (.leaderSrc cid ep)⟩ →
    joinCount ls cid ep = 0
  shTrue : ∀ i k fn ce v e cid ep,
    c.threads i = some ⟨.doOp k fn, ce, .doneRet v true e (.leaderSrc cid ep)⟩ →
    0 < joinCount ls cid ep

theorem trinv_init (b : Bool) (ops : List (Op K V E P S × E)) :
    TrInv [] (initConfig b ops) := by
  constructor
  case joinLe => intro i cid e h; cases h
  case dupsEq => intro cid; rfl
  case invLe => intro i; exact Nat.zero_le 1
  case invZero => intro i t _ _; rfl
  case invNone => intro i _; rfl
  case invOne =>
    intro i t hti hnpre
    have hph := init_thread_start hti
    exact absurd (by rw [hph]; trivial) hnpre
  case shFalse =>
    intro i k fn ce v e cid ep h
    have := init_thread_start h
    simp at this
  case shTrue =>
    intro i k fn ce v e cid ep h
    have := init_thread_start h
    simp at this

theorem step_trinv {c c' : Config K V E P S} {l : Lab} {ls : List Lab}
    (hI : Inv c) (hT : TrInv ls c) (hs : Step c l c') : TrInv (ls ++ [l]) c' := by
  cases hs with
  | join i k fn ce cid ht hm =>
    obtain ⟨i0, hRC0⟩ := hI.mapOwner k cid hm
    have hepi0 := hI.liveEpoch i0 cid _ hRC0.toLive
    have hec : ∀ cid0, ((joinCfg c i k fn ce cid).gs.heap cid0).epoch =
        (c.gs.heap cid0).epoch := by
      intro cid0
      by_cases hc : cid0 = cid
      · rw [hc]; simp only [joinCfg, hset_same, joinRec_epoch]
      · show (hset c.gs.heap cid _ cid0).epoch = _
        rw [hset_other hc]
    constructor
    case joinLe =>
      intro i' cid0 e0 hmem
      rw [hec]
      rcases List.mem_append.mp hmem with hold | hnew
      · exact hT.joinLe i' cid0 e0 hold
      · rw [List.mem_singleton] at hnew
        injection hnew with h1 h2 h3
        subst h2; subst h3
        exact ⟨hepi0.2, le_refl _⟩
    case dupsEq =>
      intro cid0
      by_cases hc : cid0 = cid
      · rw [hc]
        have hd : ((joinCfg c i k fn ce cid).gs.heap cid).dups =
            (c.gs.heap cid).dups + 1 := by
          simp only [joinCfg, hset_same, joinRec_dups]
        rw [hd, hec, joinCount_snoc_join, hT.dupsEq cid]
      · have hd : ((joinCfg c i k fn ce cid).gs.heap cid0).dups =
            (c.gs.heap cid0).dups := by
          show (hset c.gs.heap cid _ cid0).dups = _
          rw [hset_other hc]
        rw [hd, hec, joinCount_snoc_other _ _ _ _
          (isJoinOn_false_of i (fun h => hc h.1.symm)), hT.dupsEq cid0]
    case invLe =>
      intro j
      rw [invokeCount_snoc_ne _ _ _ (fun h => Lab.noConfusion h)]
      exact hT.invLe j
    case invZero =>
      intro j t htj hpre
      rw [invokeCount_snoc_ne _ _ _ (fun h => Lab.noConfusion h)]
      rcases tset_cases htj with ⟨rfl, rfl⟩ | ⟨hne, htj'⟩
      · exact hT.invZero j _ ht trivial
      · exact hT.invZero j t htj' hpre
    case invNone =>
      intro j hj
      have hne : j ≠ i := by
        intro h; rw [h] at hj
        rw [show (joinCfg c i k fn ce cid).threads i = some _ from tset_same] at hj
        cases hj
      rw [invokeCount_snoc_ne _ _ _ (fun h => Lab.noConfusion h)]
      apply hT.invNone
      rwa [show (joinCfg c i k fn ce cid).threads j = c.threads j
        from tset_other hne] at hj
    case invOne =>
      intro j t htj hnpre
      rw [invokeCount_snoc_ne _ _ _ (fun h => Lab.noConfusion h)]
      rcases tset_cases htj with ⟨rfl, rfl⟩ | ⟨hne, htj'⟩
      · exact absurd trivial hnpre
      · exact hT.invOne j t htj' hnpre
    case shFalse =>
      intro j k' fn' ce' v e cid0 ep0 htj
      rcases tset_cases htj with ⟨rfl, hEq⟩ | ⟨hne, htj'⟩
      · injection hEq with h1 h2 h3
        exact absurd h3 (by simp)
      · have h0 := hT.shFalse j k' fn' ce' v e cid0 ep0 htj'
        by_cases hcc : cid = cid0 ∧ (c.gs.heap cid).epoch = ep0
        · exfalso
          obtain ⟨hc1, hc2⟩ := hcc
          have hD : DoneOwn c j cid0 ep0 := ⟨_, htj', Or.inl ⟨v, false, e, rfl⟩⟩
          rw [← hc1] at hD
          have hlt := hI.doneLtLive j i0 cid ep0 ((c.gs.heap cid).epoch) hD
            hRC0.toLive
          omega
        · rw [joinCount_snoc_other _ _ _ _ (isJoinOn_false_of i hcc)]
          exact h0
    case shTrue =>
      intro j k' fn' ce' v e cid0 ep0 htj
      rcases tset_cases htj with ⟨rfl, hEq⟩ | ⟨hne, htj'⟩
      · injection hEq with h1 h2 h3
        exact absurd h3 (by simp)
      · exact lt_of_lt_of_le (hT.shTrue j k' fn' ce' v e cid0 ep0 htj')
          (joinCount_mono ls _ cid0 ep0)
  | leadPool i k fn ce cid rest ht hm hp =>
    have hec : ∀ cid0, cid0 ≠ cid →
        ((leadPoolCfg c i k fn ce cid rest).gs.heap cid0).epoch =
          (c.gs.heap cid0).epoch := by
      intro cid0 hc
      show (hset c.gs.heap cid _ cid0).epoch = _
      rw [hset_other hc]
    have hecC : ((leadPoolCfg c i k fn ce cid rest).gs.heap cid).epoch =
        (c.gs.heap cid).epoch + 1 := by
      show (hset c.gs.heap cid _ cid).epoch = _
      rw [hset_same]
      rfl
    constructor
    case joinLe =>
      intro i' cid0 e0 hmem
      rcases List.mem_append.mp hmem with hold | hnew
      · have h0 := hT.joinLe i' cid0 e0 hold
        by_cases hc : cid0 = cid
        · rw [hc] at h0 ⊢
          rw [hecC]
          exact ⟨h0.1, by omega⟩
        · rw [hec cid0 hc]
          exact h0
      · rw [List.mem_singleton] at hnew
        cases hnew
    case dupsEq =>
      intro cid0
      by_cases hc : cid0 = cid
      · rw [hc]
        have hd : ((leadPoolCfg c i k fn ce cid rest).gs.heap cid).dups = 0 := by
          show (hset c.gs.heap cid _ cid).dups = _
          rw [hset_same]
          rfl
        rw [hd, hecC, joinCount_snoc_other _ _ _ _ (isJoinOn_leadL _ _ _ _)]
        refine (joinCount_zero_of_big
          (fun i' e hmem => (hT.joinLe i' cid e hmem).2) ?_).symm
        omega
      · have hd : ((leadPoolCfg c i k fn ce cid rest).gs.heap cid0).dups =
            (c.gs.heap cid0).dups := by
          show (hset c.gs.heap cid _ cid0).dups = _
          rw [hset_other hc]
        rw [hd, hec cid0 hc, joinCount_snoc_other _ _ _ _ (isJoinOn_leadL _ _ _ _), hT.dupsEq cid0]
    case invLe =>
      intro j
      rw [invokeCount_snoc_ne _ _ _ (fun h => Lab.noConfusion h)]
      exact hT.invLe j
    case invZero =>
      intro j t htj hpre
      rw [invokeCount_snoc_ne _ _ _ (fun h => Lab.noConfusion h)]
      rcases tset_cases htj with ⟨rfl, rfl⟩ | ⟨hne, htj'⟩
      · exact hT.invZero j _ ht trivial
      · exact hT.invZero j t htj' hpre
    case invNone =>
      intro j hj
      have hne : j ≠ i := by
        intro h; rw [h] at hj
        rw [show (leadPoolCfg c i k fn ce cid rest).threads i = some _
          from tset_same] at hj
        cases hj
      rw [invokeCount_snoc_ne _ _ _ (fun h => Lab.noConfusion h)]
      apply hT.invNone
      rwa [show (leadPoolCfg c i k fn ce cid rest).threads j = c.threads j
        from tset_other hne] at hj
    case invOne =>
      intro j t htj hnpre
      rw [invokeCount_snoc_ne _ _ _ (fun h => Lab.noConfusion h)]
      rcases tset_cases htj with ⟨rfl, rfl⟩ | ⟨hne, htj'⟩
      · exact absurd trivial hnpre
      · exact hT.invOne j t htj' hnpre
    case shFalse =>
      intro j k' fn' ce' v e cid0 ep0 htj
      rw [joinCount_snoc_other _ _ _ _ (isJoinOn_leadL _ _ _ _)]
      rcases tset_cases htj with ⟨rfl, hEq⟩ | ⟨hne, htj'⟩
      · injection hEq with h1 h2 h3
        exact absurd h3 (by simp)
      · exact hT.shFalse j k' fn' ce' v e cid0 ep0 htj'
    case shTrue =>
      intro j k' fn' ce' v e cid0 ep0 htj
      rw [joinCount_snoc_other _ _ _ _ (isJoinOn_leadL _ _ _ _)]
      rcases tset_cases htj with ⟨rfl, hEq⟩ | ⟨hne, htj'⟩
      · injection hEq with h1 h2 h3
        exact absurd h3 (by simp)
      · exact hT.shTrue j k' fn' ce' v e cid0 ep0 htj'
  | leadFresh i k fn ce ht hm hp =>
    have hfr : c.gs.heap c.gs.nextId = defRec := hI.fresh c.gs.nextId (le_refl _)
    have hec : ∀ cid0, cid0 ≠ c.gs.nextId →
        ((leadFreshCfg c i k fn ce).gs.heap cid0).epoch =
          (c.gs.heap cid0).epoch := by
      intro cid0 hc
      show (hset c.gs.heap c.gs.nextId _ cid0).epoch = _
      rw [hset_other hc]
    have hecC : ((leadFreshCfg c i k fn ce).gs.heap c.gs.nextId).epoch = 1 := by
      show (hset c.gs.heap c.gs.nextId _ c.gs.nextId).epoch = _
      rw [hset_same]
      rfl
    constructor
    case joinLe =>
      intro i' cid0 e0 hmem
      rcases List.mem_append.mp hmem with hold | hnew
      · have h0 := hT.joinLe i' cid0 e0 hold
        by_cases hc : cid0 = c.gs.nextId
        · rw [hc] at h0 ⊢
          rw [hecC]
          rw [hfr] at h0
          refine ⟨h0.1, ?_⟩
          have h2 := h0.2
          simp [defRec] at h2
          omega
        · rw [hec cid0 hc]
          exact h0
      · rw [List.mem_singleton] at hnew
        cases hnew
    case dupsEq =>
      intro cid0
      by_cases hc : cid0 = c.gs.nextId
      · rw [hc]
        have hd : ((leadFreshCfg c i k fn ce).gs.heap c.gs.nextId).dups = 0 := by
          show (hset c.gs.heap c.gs.nextId _ c.gs.nextId).dups = _
          rw [hset_same]
          rfl
        rw [hd, hecC, joinCount_snoc_other _ _ _ _ (isJoinOn_leadL _ _ _ _)]
        refine (joinCount_zero_of_big (a := 0)
          (fun i' e hmem => ?_) (by omega)).symm
        have := (hT.joinLe i' c.gs.nextId e hmem).2
        rw [hfr] at this
        simpa [defRec] using this
      · have hd : ((leadFreshCfg c i k fn ce).gs.heap cid0).dups =
            (c.gs.heap cid0).dups := by
          show (hset c.gs.heap c.gs.nextId _ cid0).dups = _
          rw [hset_other hc]
        rw [hd, hec cid0 hc, joinCount_snoc_other _ _ _ _ (isJoinOn_leadL _ _ _ _), hT.dupsEq cid0]
    case invLe =>
      intro j
      rw [invokeCount_snoc_ne _ _ _ (fun h => Lab.noConfusion h)]
      exact hT.invLe j
    case invZero =>
      intro j t htj hpre
      rw [invokeCount_snoc_ne _ _ _ (fun h => Lab.noConfusion h)]
      rcases tset_cases htj with ⟨rfl, rfl⟩ | ⟨hne, htj'⟩
      · exact hT.invZero j _ ht trivial
      · exact hT.invZero j t htj' hpre
    case invNone =>
      intro j hj
      have hne : j ≠ i := by
        intro h; rw [h] at hj
        rw [show (leadFreshCfg c i k fn ce).threads i = some _
          from tset_same] at hj
        cases hj
      rw [invokeCount_snoc_ne _ _ _ (fun h => Lab.noConfusion h)]
      apply hT.invNone
      rwa [show (leadFreshCfg c i k fn ce).threads j = c.threads j
        from tset_other hne] at hj
    case invOne =>
      intro j t htj hnpre
      rw [invokeCount_snoc_ne _ _ _ (fun h => Lab.noConfusion h)]
      rcases tset_cases htj with ⟨rfl, rfl⟩ | ⟨hne, htj'⟩
      · exact absurd trivial hnpre
      · exact hT.invOne j t htj' hnpre
    case shFalse =>
      intro j k' fn' ce' v e cid0 ep0 htj
      rw [joinCount_snoc_other _ _ _ _ (isJoinOn_leadL _ _ _ _)]
      rcases tset_cases htj with ⟨rfl, hEq⟩ | ⟨hne, htj'⟩
      · injection hEq with h1 h2 h3
        exact absurd h3 (by simp)
      · exact hT.shFalse j k' fn' ce' v e cid0 ep0 htj'
    case shTrue =>
      intro j k' fn' ce' v e cid0 ep0 htj
      rw [joinCount_snoc_other _ _ _ _ (isJoinOn_leadL _ _ _ _)]
      rcases tset_cases htj with ⟨rfl, hEq⟩ | ⟨hne, htj'⟩
      · injection hEq with h1 h2 h3
        exact absurd h3 (by simp)
      · exact hT.shTrue j k' fn' ce' v e cid0 ep0 htj'
  | invokeOk i k v e ce cid ep ht =>
    have hec : ∀ cid0, ((invokeOkCfg c i k v e ce cid ep).gs.heap cid0).epoch =
        (c.gs.heap cid0).epoch := by
      intro cid0
      by_cases hc : cid0 = cid
      · rw [hc]
        show (hset c.gs.heap cid _ cid).epoch = _
        rw [hset_same]
      · show (hset c.gs.heap cid _ cid0).epoch = _
        rw [hset_other hc]
    have hdp : ∀ cid0, ((invokeOkCfg c i k v e ce cid ep).gs.heap cid0).dups =
        (c.gs.heap cid0).dups := by
      intro cid0
      by_cases hc : cid0 = cid
      · rw [hc]
        show (hset c.gs.heap cid _ cid).dups = _
        rw [hset_same]
      · show (hset c.gs.heap cid _ cid0).dups = _
        rw [hset_other hc]
    constructor
    case joinLe =>
      intro i' cid0 e0 hmem
      rw [hec]
      rcases List.mem_append.mp hmem with hold | hnew
      · exact hT.joinLe i' cid0 e0 hold
      · rw [List.mem_singleton] at hnew
        cases hnew
    case dupsEq =>
      intro cid0
      rw [hdp, hec, joinCount_snoc_other _ _ _ _ (isJoinOn_invokeL _ _ _), hT.dupsEq cid0]
    case invLe =>
      intro j
      by_cases hj : j = i
      · rw [hj, invokeCount_snoc_self, hT.invZero i _ ht trivial]
      · rw [invokeCount_snoc_ne _ _ _ (fun h => by
          injection h with h; exact hj h.symm)]
        exact hT.invLe j
    case invZero =>
      intro j t htj hpre
      rcases tset_cases htj with ⟨rfl, rfl⟩ | ⟨hne, htj'⟩
      · exact False.elim hpre
      · rw [invokeCount_snoc_ne _ _ _ (fun h => by
          injection h with h; exact hne h.symm)]
        exact hT.invZero j t htj' hpre
    case invNone =>
      intro j hj
      have hne : j ≠ i := by
        intro h; rw [h] at hj
        rw [show (invokeOkCfg c i k v e ce cid ep).threads i = some _
          from tset_same] at hj
        cases hj
      rw [invokeCount_snoc_ne _ _ _ (fun h => by
        injection h with h; exact hne h.symm)]
      apply hT.invNone
      rwa [show (invokeOkCfg c i k v e ce cid ep).threads j = c.threads j
        from tset_other hne] at hj
    case invOne =>
      intro j t htj hnpre
      rcases tset_cases htj with ⟨rfl, rfl⟩ | ⟨hne, htj'⟩
      · rw [invokeCount_snoc_self, hT.invZero j _ ht trivial]
      · rw [invokeCount_snoc_ne _ _ _ (fun h => by
          injection h with h; exact hne h.symm)]
        exact hT.invOne j t htj' hnpre
    case shFalse =>
      intro j k' fn' ce' v' e' cid0 ep0 htj
      rw [joinCount_snoc_other _ _ _ _ (isJoinOn_invokeL _ _ _)]
      rcases tset_cases htj with ⟨rfl, hEq⟩ | ⟨hne, htj'⟩
      · injection hEq with h1 h2 h3
        exact absurd h3 (by simp)
      · exact hT.shFalse j k' fn' ce' v' e' cid0 ep0 htj'
    case shTrue =>
      intro j k' fn' ce' v' e' cid0 ep0 htj
      rw [joinCount_snoc_other _ _ _ _ (isJoinOn_invokeL _ _ _)]
      rcases tset_cases htj with ⟨rfl, hEq⟩ | ⟨hne, htj'⟩
      · injection hEq with h1 h2 h3
        exact absurd h3 (by simp)
      · exact hT.shTrue j k' fn' ce' v' e' cid0 ep0 htj'
  | invokePanic i k p s ce cid ep ht =>
    have hec : ∀ cid0, ((invokePanicCfg c i k p s ce cid ep).gs.heap cid0).epoch =
        (c.gs.heap cid0).epoch := by
      intro cid0
      by_cases hc : cid0 = cid
      · rw [hc]
        show (hset c.gs.heap cid _ cid).epoch = _
        rw [hset_same]
      · show (hset c.gs.heap cid _ cid0).epoch = _
        rw [hset_other hc]
    have hdp : ∀ cid0, ((invokePanicCfg c i k p s ce cid ep).gs.heap cid0).dups =
        (c.gs.heap cid0).dups := by
      intro cid0
      by_cases hc : cid0 = cid
      · rw [hc]
        show (hset c.gs.heap cid _ cid).dups = _
        rw [hset_same]
      · show (hset c.gs.heap cid _ cid0).dups = _
        rw [hset_other hc]
    constructor
    case joinLe =>
      intro i' cid0 e0 hmem
      rw [hec]
      rcases List.mem_append.mp hmem with hold | hnew
      · exact hT.joinLe i' cid0 e0 hold
      · rw [List.mem_singleton] at hnew
        cases hnew
    case dupsEq =>
      intro cid0
      rw [hdp, hec, joinCount_snoc_other _ _ _ _ (isJoinOn_invokeL _ _ _), hT.dupsEq cid0]
    case invLe =>
      intro j
      by_cases hj : j = i
      · rw [hj, invokeCount_snoc_self, hT.invZero i _ ht trivial]
      · rw [invokeCount_snoc_ne _ _ _ (fun h => by
          injection h with h; exact hj h.symm)]
        exact hT.invLe j
    case invZero =>
      intro j t htj hpre
      rcases tset_cases htj with ⟨rfl, rfl⟩ | ⟨hne, htj'⟩
      · exact False.elim hpre
      · rw [invokeCount_snoc_ne _ _ _ (fun h => by
          injection h with h; exact hne h.symm)]
        exact hT.invZero j t htj' hpre
    case invNone =>
      intro j hj
      have hne : j ≠ i := by
        intro h; rw [h] at hj
        rw [show (invokePanicCfg c i k p s ce cid ep).threads i = some _
          from tset_same] at hj
        cases hj
      rw [invokeCount_snoc_ne _ _ _ (fun h => by
        injection h with h; exact hne h.symm)]
      apply hT.invNone
      rwa [show (invokePanicCfg c i k p s ce cid ep).threads j = c.threads j
        from tset_other hne] at hj
    case invOne =>
      intro j t htj hnpre
      rcases tset_cases htj with ⟨rfl, rfl⟩ | ⟨hne, htj'⟩
      · rw [invokeCount_snoc_self, hT.invZero j _ ht trivial]
      · rw [invokeCount_snoc_ne _ _ _ (fun h => by
          injection h with h; exact hne h.symm)]
        exact hT.invOne j t htj' hnpre
    case shFalse =>
      intro j k' fn' ce' v' e' cid0 ep0 htj
      rw [joinCount_snoc_other _ _ _ _ (isJoinOn_invokeL _ _ _)]
      rcases tset_cases htj with ⟨rfl, hEq⟩ | ⟨hne, htj'⟩
      · injection hEq with h1 h2 h3
        exact absurd h3 (by simp)
      · exact hT.shFalse j k' fn' ce' v' e' cid0 ep0 htj'
    case shTrue =>
      intro j k' fn' ce' v' e' cid0 ep0 htj
      rw [joinCount_snoc_other _ _ _ _ (isJoinOn_invokeL _ _ _)]
      rcases tset_cases htj with ⟨rfl, hEq⟩ | ⟨hne, htj'⟩
      · injection hEq with h1 h2 h3
        exact absurd h3 (by simp)
      · exact hT.shTrue j k' fn' ce' v' e' cid0 ep0 htj'
  | cleanup i k fn ce cid ep ht =>
    have hec : ∀ cid0, ((cleanupCfg c i k fn ce cid ep).gs.heap cid0).epoch =
        (c.gs.heap cid0).epoch := by
      intro cid0
      by_cases hc : cid0 = cid
      · rw [hc]
        show (hset c.gs.heap cid _ cid).epoch = _
        rw [hset_same]
        by_cases hd : (c.gs.heap cid).done = true
        · rw [if_pos hd]
        · rw [if_neg hd]
      · show (hset c.gs.heap cid _ cid0).epoch = _
        rw [hset_other hc]
    have hdp : ∀ cid0, ((cleanupCfg c i k fn ce cid ep).gs.heap cid0).dups =
        (c.gs.heap cid0).dups := by
      intro cid0
      by_cases hc : cid0 = cid
      · rw [hc]
        show (hset c.gs.heap cid _ cid).dups = _
        rw [hset_same]
        by_cases hd : (c.gs.heap cid).done = true
        · rw [if_pos hd]
        · rw [if_neg hd]
      · show (hset c.gs.heap cid _ cid0).dups = _
        rw [hset_other hc]
    constructor
    case joinLe =>
      intro i' cid0 e0 hmem
      rw [hec]
      rcases List.mem_append.mp hmem with hold | hnew
      · exact hT.joinLe i' cid0 e0 hold
      · rw [List.mem_singleton] at hnew
        cases hnew
    case dupsEq =>
      intro cid0
      rw [hdp, hec, joinCount_snoc_other _ _ _ _ (isJoinOn_cleanupL _ _ _), hT.dupsEq cid0]
    case invLe =>
      intro j
      rw [invokeCount_snoc_ne _ _ _ (fun h => Lab.noConfusion h)]
      exact hT.invLe j
    case invZero =>
      intro j t htj hpre
      rw [invokeCount_snoc_ne _ _ _ (fun h => Lab.noConfusion h)]
      rcases tset_cases htj with ⟨rfl, rfl⟩ | ⟨hne, htj'⟩
      · exact False.elim hpre
      · exact hT.invZero j t htj' hpre
    case invNone =>
      intro j hj
      have hne : j ≠ i := by
        intro h; rw [h] at hj
        rw [show (cleanupCfg c i k fn ce cid ep).threads i = some _
          from tset_same] at hj
        cases hj
      rw [invokeCount_snoc_ne _ _ _ (fun h => Lab.noConfusion h)]
      apply hT.invNone
      rwa [show (cleanupCfg c i k fn ce cid ep).threads j = c.threads j
        from tset_other hne] at hj
    case invOne =>
      intro j t htj hnpre
      rw [invokeCount_snoc_ne _ _ _ (fun h => Lab.noConfusion h)]
      rcases tset_cases htj with ⟨rfl, rfl⟩ | ⟨hne, htj'⟩
      · exact hT.invOne j ⟨.doOp k fn, ce, .leaderCleanup cid ep⟩ ht (fun h => h)
      · exact hT.invOne j t htj' hnpre
    case shFalse =>
      intro j k' fn' ce' v' e' cid0 ep0 htj
      rw [joinCount_snoc_other _ _ _ _ (isJoinOn_cleanupL _ _ _)]
      rcases tset_cases htj with ⟨rfl, hEq⟩ | ⟨hne, htj'⟩
      · injection hEq with h1 h2 h3
        exact absurd h3 (by simp)
      · exact hT.shFalse j k' fn' ce' v' e' cid0 ep0 htj'
    case shTrue =>
      intro j k' fn' ce' v' e' cid0 ep0 htj
      rw [joinCount_snoc_other _ _ _ _ (isJoinOn_cleanupL _ _ _)]
      rcases tset_cases htj with ⟨rfl, hEq⟩ | ⟨hne, htj'⟩
      · injection hEq with h1 h2 h3
        exact absurd h3 (by simp)
      · exact hT.shTrue j k' fn' ce' v' e' cid0 ep0 htj'
  | finish i k fn ce cid ep ht =>
    have hLi : LiveOwn c i cid ep := ⟨_, ht, Or.inr (Or.inr rfl)⟩
    have hepi := hI.liveEpoch i cid ep hLi
    have hec : ∀ cid0, ((finishCfg c i k fn ce cid ep).gs.heap cid0).epoch =
        (c.gs.heap cid0).epoch := by
      intro cid0
      show ((if _ then _ else c.gs).heap cid0).epoch = _
      by_cases hco : (c.gs.heap cid).panicErr.isNone = true ∧
          (c.gs.heap cid).dups = 0 ∧ (c.gs.heap cid).done = false
      · rw [if_pos hco]
        by_cases hc : cid0 = cid
        · rw [hc]
          show (hset c.gs.heap cid _ cid).epoch = _
          rw [hset_same]
        · show (hset c.gs.heap cid _ cid0).epoch = _
          rw [hset_other hc]
      · rw [if_neg hco]
    have hdp : ∀ cid0, ((finishCfg c i k fn ce cid ep).gs.heap cid0).dups =
        (c.gs.heap cid0).dups := by
      intro cid0
      show ((if _ then _ else c.gs).heap cid0).dups = _
      by_cases hco : (c.gs.heap cid).panicErr.isNone = true ∧
          (c.gs.heap cid).dups = 0 ∧ (c.gs.heap cid).done = false
      · rw [if_pos hco]
        by_cases hc : cid0 = cid
        · rw [hc]
          show (hset c.gs.heap cid _ cid).dups = _
          rw [hset_same]
        · show (hset c.gs.heap cid _ cid0).dups = _
          rw [hset_other hc]
      · rw [if_neg hco]
    rcases hpm : (c.gs.heap cid).panicErr with _ | pe
    · have hth : (finishCfg c i k fn ce cid ep).threads = tset c.threads i
          ⟨.doOp k fn, ce, .doneRet (c.gs.heap cid).val
            (decide (0 < (c.gs.heap cid).dups)) (c.gs.heap cid).err
            (.leaderSrc cid ep)⟩ := by
        show tset c.threads i ⟨_, _,
          (match (c.gs.heap cid).panicErr with
           | some pe => Phase.donePanic pe (.leaderSrc cid ep)
           | none => Phase.doneRet (c.gs.heap cid).val
               (decide (0 < (c.gs.heap cid).dups)) (c.gs.heap cid).err
               (.leaderSrc cid ep))⟩ = _
        rw [hpm]
      constructor
      case joinLe =>
        intro i' cid0 e0 hmem
        rw [hec]
        rcases List.mem_append.mp hmem with hold | hnew
        · exact hT.joinLe i' cid0 e0 hold
        · rw [List.mem_singleton] at hnew
          cases hnew
      case dupsEq =>
        intro cid0
        rw [hdp, hec, joinCount_snoc_other _ _ _ _ (isJoinOn_finishL _ _ _), hT.dupsEq cid0]
      case invLe =>
        intro j
        rw [invokeCount_snoc_ne _ _ _ (fun h => Lab.noConfusion h)]
        exact hT.invLe j
      case invZero =>
        intro j t htj hpre
        rw [hth] at htj
        rw [invokeCount_snoc_ne _ _ _ (fun h => Lab.noConfusion h)]
        rcases tset_cases htj with ⟨rfl, rfl⟩ | ⟨hne, htj'⟩
        · exact False.elim hpre
        · exact hT.invZero j t htj' hpre
      case invNone =>
        intro j hj
        rw [hth] at hj
        have hne : j ≠ i := by
          intro h; rw [h] at hj
          rw [tset_same] at hj
          cases hj
        rw [invokeCount_snoc_ne _ _ _ (fun h => Lab.noConfusion h)]
        apply hT.invNone
        rwa [tset_other hne] at hj
      case invOne =>
        intro j t htj hnpre
        rw [hth] at htj
        rw [invokeCount_snoc_ne _ _ _ (fun h => Lab.noConfusion h)]
        rcases tset_cases htj with ⟨rfl, rfl⟩ | ⟨hne, htj'⟩
        · exact hT.invOne j ⟨.doOp k fn, ce, .leaderFinish cid ep⟩ ht (fun h => h)
        · exact hT.invOne j t htj' hnpre
      case shFalse =>
        intro j k' fn' ce' v' e' cid0 ep0 htj
        rw [joinCount_snoc_other _ _ _ _ (isJoinOn_finishL _ _ _)]
        rw [hth] at htj
        rcases tset_cases htj with ⟨rfl, hEq⟩ | ⟨hne, htj'⟩
        · injection hEq with h1 h2 h3
          injection h3 with hv hsh he hsrc
          injection hsrc with hc1 hc2
          have hdups0 : (c.gs.heap cid).dups = 0 := by
            have := of_decide_eq_false hsh.symm
            omega
          have hcnt := hT.dupsEq cid
          rw [hdups0] at hcnt
          rw [hc1, hc2]
          rw [hepi.1] at hcnt
          exact hcnt.symm
        · exact hT.shFalse j k' fn' ce' v' e' cid0 ep0 htj'
      case shTrue =>
        intro j k' fn' ce' v' e' cid0 ep0 htj
        rw [joinCount_snoc_other _ _ _ _ (isJoinOn_finishL _ _ _)]
        rw [hth] at htj
        rcases tset_cases htj with ⟨rfl, hEq⟩ | ⟨hne, htj'⟩
        · injection hEq with h1 h2 h3
          injection h3 with hv hsh he hsrc
          injection hsrc with hc1 hc2
          have hdups : 0 < (c.gs.heap cid).dups := of_decide_eq_true hsh.symm
          have hcnt := hT.dupsEq cid
          rw [hc1, hc2]
          rw [hepi.1] at hcnt
          rw [← hcnt]
          exact hdups
        · exact hT.shTrue j k' fn' ce' v' e' cid0 ep0 htj'
    · have hth : (finishCfg c i k fn ce cid ep).threads = tset c.threads i
          ⟨.doOp k fn, ce, .donePanic pe (.leaderSrc cid ep)⟩ := by
        show tset c.threads i ⟨_, _,
          (match (c.gs.heap cid).panicErr with
           | some pe => Phase.donePanic pe (.leaderSrc cid ep)
           | none => Phase.doneRet (c.gs.heap cid).val
               (decide (0 < (c.gs.heap cid).dups)) (c.gs.heap cid).err
               (.leaderSrc cid ep))⟩ = _
        rw [hpm]
      constructor
      case joinLe =>
        intro i' cid0 e0 hmem
        rw [hec]
        rcases List.mem_append.mp hmem with hold | hnew
        · exact hT.joinLe i' cid0 e0 hold
        · rw [List.mem_singleton] at hnew
          cases hnew
      case dupsEq =>
        intro cid0
        rw [hdp, hec, joinCount_snoc_other _ _ _ _ (isJoinOn_finishL _ _ _), hT.dupsEq cid0]
      case invLe =>
        intro j
        rw [invokeCount_snoc_ne _ _ _ (fun h => Lab.noConfusion h)]
        exact hT.invLe j
      case invZero =>
        intro j t htj hpre
        rw [hth] at htj
        rw [invokeCount_snoc_ne _ _ _ (fun h => Lab.noConfusion h)]
        rcases tset_cases htj with ⟨rfl, rfl⟩ | ⟨hne, htj'⟩
        · exact False.elim hpre
        · exact hT.invZero j t htj' hpre
      case invNone =>
        intro j hj
        rw [hth] at hj
        have hne : j ≠ i := by
          intro h; rw [h] at hj
          rw [tset_same] at hj
          cases hj
        rw [invokeCount_snoc_ne _ _ _ (fun h => Lab.noConfusion h)]
        apply hT.invNone
        rwa [tset_other hne] at hj
      case invOne =>
        intro j t htj hnpre
        rw [hth] at htj
        rw [invokeCount_snoc_ne _ _ _ (fun h => Lab.noConfusion h)]
        rcases tset_cases htj with ⟨rfl, rfl⟩ | ⟨hne, htj'⟩
        · exact hT.invOne j ⟨.doOp k fn, ce, .leaderFinish cid ep⟩ ht (fun h => h)
        · exact hT.invOne j t htj' hnpre
      case shFalse =>
        intro j k' fn' ce' v' e' cid0 ep0 htj
        rw [joinCount_snoc_other _ _ _ _ (isJoinOn_finishL _ _ _)]
        rw [hth] at htj
        rcases tset_cases htj with ⟨rfl, hEq⟩ | ⟨hne, htj'⟩
        · injection hEq with h1 h2 h3
          exact absurd h3 (by simp)
        · exact hT.shFalse j k' fn' ce' v' e' cid0 ep0 htj'
      case shTrue =>
        intro j k' fn' ce' v' e' cid0 ep0 htj
        rw [joinCount_snoc_other _ _ _ _ (isJoinOn_finishL _ _ _)]
        rw [hth] at htj
        rcases tset_cases htj with ⟨rfl, hEq⟩ | ⟨hne, htj'⟩
        · injection hEq with h1 h2 h3
          exact absurd h3 (by simp)
        · exact hT.shTrue j k' fn' ce' v' e' cid0 ep0 htj'
  | observe i k fn ce cid ep ht hc =>
    have hgs : (observeCfg c i k fn ce cid ep).gs = c.gs := rfl
    have hnt : ∃ φ, (observeCfg c i k fn ce cid ep).threads =
        tset c.threads i ⟨.doOp k fn, ce, φ⟩ ∧ PreRun φ ∧
        (∀ v sh e cid0 ep0, φ ≠ .doneRet v sh e (.leaderSrc cid0 ep0)) := by
      rcases hpm : (c.gs.heap cid).panicErr with _ | pe
      · refine ⟨Phase.doneRet (c.gs.heap cid).val true (c.gs.heap cid).err
          (.followerObsSrc cid ep), ?_, trivial, ?_⟩
        · show tset c.threads i ⟨_, _,
            (match (c.gs.heap cid).panicErr with
             | some pe => Phase.donePanic pe (.followerObsSrc cid ep)
             | none => Phase.doneRet (c.gs.heap cid).val true (c.gs.heap cid).err
                 (.followerObsSrc cid ep))⟩ = _
          rw [hpm]
        · intro v sh e cid0 ep0 hEq
          injection hEq with h1 h2 h3 h4
          exact RetSrc.noConfusion h4
      · refine ⟨Phase.donePanic pe (.followerObsSrc cid ep), ?_, trivial, ?_⟩
        · show tset c.threads i ⟨_, _,
            (match (c.gs.heap cid).panicErr with
             | some pe => Phase.donePanic pe (.followerObsSrc cid ep)
             | none => Phase.doneRet (c.gs.heap cid).val true (c.gs.heap cid).err
                 (.followerObsSrc cid ep))⟩ = _
          rw [hpm]
        · intro v sh e cid0 ep0 hEq
          exact Phase.noConfusion hEq
    obtain ⟨φ, hth, hφpre, hφne⟩ := hnt
    constructor
    case joinLe =>
      intro i' cid0 e0 hmem
      rw [hgs]
      rcases List.mem_append.mp hmem with hold | hnew
      · exact hT.joinLe i' cid0 e0 hold
      · rw [List.mem_singleton] at hnew
        cases hnew
    case dupsEq =>
      intro cid0
      rw [hgs, joinCount_snoc_other _ _ _ _ (isJoinOn_observeL _ _ _), hT.dupsEq cid0]
    case invLe =>
      intro j
      rw [invokeCount_snoc_ne _ _ _ (fun h => Lab.noConfusion h)]
      exact hT.invLe j
    case invZero =>
      intro j t htj hpre
      rw [hth] at htj
      rw [invokeCount_snoc_ne _ _ _ (fun h => Lab.noConfusion h)]
      rcases tset_cases htj with ⟨rfl, rfl⟩ | ⟨hne, htj'⟩
      · exact hT.invZero j _ ht trivial
      · exact hT.invZero j t htj' hpre
    case invNone =>
      intro j hj
      rw [hth] at hj
      have hne : j ≠ i := by
        intro h; rw [h] at hj
        rw [tset_same] at hj
        cases hj
      rw [invokeCount_snoc_ne _ _ _ (fun h => Lab.noConfusion h)]
      apply hT.invNone
      rwa [tset_other hne] at hj
    case invOne =>
      intro j t htj hnpre
      rw [hth] at htj
      rw [invokeCount_snoc_ne _ _ _ (fun h => Lab.noConfusion h)]
      rcases tset_cases htj with ⟨rfl, rfl⟩ | ⟨hne, htj'⟩
      · exact absurd hφpre hnpre
      · exact hT.invOne j t htj' hnpre
    case shFalse =>
      intro j k' fn' ce' v' e' cid0 ep0 htj
      rw [joinCount_snoc_other _ _ _ _ (isJoinOn_observeL _ _ _)]
      rw [hth] at htj
      rcases tset_cases htj with ⟨rfl, hEq⟩ | ⟨hne, htj'⟩
      · injection hEq with h1 h2 h3
        exact absurd h3.symm (hφne v' false e' cid0 ep0)
      · exact hT.shFalse j k' fn' ce' v' e' cid0 ep0 htj'
    case shTrue =>
      intro j k' fn' ce' v' e' cid0 ep0 htj
      rw [joinCount_snoc_other _ _ _ _ (isJoinOn_observeL _ _ _)]
      rw [hth] at htj
      rcases tset_cases htj with ⟨rfl, hEq⟩ | ⟨hne, htj'⟩
      · injection hEq with h1 h2 h3
        exact absurd h3.symm (hφne v' true e' cid0 ep0)
      · exact hT.shTrue j k' fn' ce' v' e' cid0 ep0 htj'
  | cancel i k fn ce cid ep ht =>
    have hth : (cancelCfg c i k fn ce cid ep).threads = tset c.threads i
        ⟨.doOp k fn, ce, .doneRet default true (some ce)
          (.followerCancelSrc cid ep)⟩ := rfl
    have hgs : (cancelCfg c i k fn ce cid ep).gs = c.gs := rfl
    constructor
    case joinLe =>
      intro i' cid0 e0 hmem
      rw [hgs]
      rcases List.mem_append.mp hmem with hold | hnew
      · exact hT.joinLe i' cid0 e0 hold
      · rw [List.mem_singleton] at hnew
        cases hnew
    case dupsEq =>
      intro cid0
      rw [hgs, joinCount_snoc_other _ _ _ _ (isJoinOn_cancelL _ _ _), hT.dupsEq cid0]
    case invLe =>
      intro j
      rw [invokeCount_snoc_ne _ _ _ (fun h => Lab.noConfusion h)]
      exact hT.invLe j
    case invZero =>
      intro j t htj hpre
      rw [hth] at htj
      rw [invokeCount_snoc_ne _ _ _ (fun h => Lab.noConfusion h)]
      rcases tset_cases htj with ⟨rfl, rfl⟩ | ⟨hne, htj'⟩
      · exact hT.invZero j _ ht trivial
      · exact hT.invZero j t htj' hpre
    case invNone =>
      intro j hj
      rw [hth] at hj
      have hne : j ≠ i := by
        intro h; rw [h] at hj
        rw [tset_same] at hj
        cases hj
      rw [invokeCount_snoc_ne _ _ _ (fun h => Lab.noConfusion h)]
      apply hT.invNone
      rwa [tset_other hne] at hj
    case invOne =>
      intro j t htj hnpre
      rw [hth] at htj
      rw [invokeCount_snoc_ne _ _ _ (fun h => Lab.noConfusion h)]
      rcases tset_cases htj with ⟨rfl, rfl⟩ | ⟨hne, htj'⟩
      · exact absurd trivial hnpre
      · exact hT.invOne j t htj' hnpre
    case shFalse =>
      intro j k' fn' ce' v' e' cid0 ep0 htj
      rw [joinCount_snoc_other _ _ _ _ (isJoinOn_cancelL _ _ _)]
      rw [hth] at htj
      rcases tset_cases htj with ⟨rfl, hEq⟩ | ⟨hne, htj'⟩
      · injection hEq with h1 h2 h3
        injection h3 with hv hsh he hsrc
        exact RetSrc.noConfusion hsrc
      · exact hT.shFalse j k' fn' ce' v' e' cid0 ep0 htj'
    case shTrue =>
      intro j k' fn' ce' v' e' cid0 ep0 htj
      rw [joinCount_snoc_other _ _ _ _ (isJoinOn_cancelL _ _ _)]
      rw [hth] at htj
      rcases tset_cases htj with ⟨rfl, hEq⟩ | ⟨hne, htj'⟩
      · injection hEq with h1 h2 h3
        injection h3 with hv hsh he hsrc
        exact RetSrc.noConfusion hsrc
      · exact hT.shTrue j k' fn' ce' v' e' cid0 ep0 htj'
  | forgetHit i k ce cid ht hm =>
    have hec : ∀ cid0, ((forgetHitCfg c i k ce cid).gs.heap cid0).epoch =
        (c.gs.heap cid0).epoch := by
      intro cid0
      by_cases hc : cid0 = cid
      · rw [hc]
        show (hset c.gs.heap cid _ cid).epoch = _
        rw [hset_same]
      · show (hset c.gs.heap cid _ cid0).epoch = _
        rw [hset_other hc]
    have hdp : ∀ cid0, ((forgetHitCfg c i k ce cid).gs.heap cid0).dups =
        (c.gs.heap cid0).dups := by
      intro cid0
      by_cases hc : cid0 = cid
      · rw [hc]
        show (hset c.gs.heap cid _ cid).dups = _
        rw [hset_same]
      · show (hset c.gs.heap cid _ cid0).dups = _
        rw [hset_other hc]
    constructor
    case joinLe =>
      intro i' cid0 e0 hmem
      rw [hec]
      rcases List.mem_append.mp hmem with hold | hnew
      · exact hT.joinLe i' cid0 e0 hold
      · rw [List.mem_singleton] at hnew
        cases hnew
    case dupsEq =>
      intro cid0
      rw [hdp, hec, joinCount_snoc_other _ _ _ _ (isJoinOn_forgetL _ _ _), hT.dupsEq cid0]
    case invLe =>
      intro j
      rw [invokeCount_snoc_ne _ _ _ (fun h => Lab.noConfusion h)]
      exact hT.invLe j
    case invZero =>
      intro j t htj hpre
      rw [invokeCount_snoc_ne _ _ _ (fun h => Lab.noConfusion h)]
      rcases tset_cases htj with ⟨rfl, rfl⟩ | ⟨hne, htj'⟩
      · exact hT.invZero j _ ht trivial
      · exact hT.invZero j t htj' hpre
    case invNone =>
      intro j hj
      have hne : j ≠ i := by
        intro h; rw [h] at hj
        rw [show (forgetHitCfg c i k ce cid).threads i = some _
          from tset_same] at hj
        cases hj
      rw [invokeCount_snoc_ne _ _ _ (fun h => Lab.noConfusion h)]
      apply hT.invNone
      rwa [show (forgetHitCfg c i k ce cid).threads j = c.threads j
        from tset_other hne] at hj
    case invOne =>
      intro j t htj hnpre
      rw [invokeCount_snoc_ne _ _ _ (fun h => Lab.noConfusion h)]
      rcases tset_cases htj with ⟨rfl, rfl⟩ | ⟨hne, htj'⟩
      · exact absurd trivial hnpre
      · exact hT.invOne j t htj' hnpre
    case shFalse =>
      intro j k' fn' ce' v' e' cid0 ep0 htj
      rw [joinCount_snoc_other _ _ _ _ (isJoinOn_forgetL _ _ _)]
      rcases tset_cases htj with ⟨rfl, hEq⟩ | ⟨hne, htj'⟩
      · injection hEq with h1 h2 h3
        exact Op.noConfusion h1
      · exact hT.shFalse j k' fn' ce' v' e' cid0 ep0 htj'
    case shTrue =>
      intro j k' fn' ce' v' e' cid0 ep0 htj
      rw [joinCount_snoc_other _ _ _ _ (isJoinOn_forgetL _ _ _)]
      rcases tset_cases htj with ⟨rfl, hEq⟩ | ⟨hne, htj'⟩
      · injection hEq with h1 h2 h3
        exact Op.noConfusion h1
      · exact hT.shTrue j k' fn' ce' v' e' cid0 ep0 htj'
  | forgetMiss i k ce ht hm =>
    have hheapEq : (forgetMissCfg c i k ce).gs.heap = c.gs.heap := rfl
    constructor
    case joinLe =>
      intro i' cid0 e0 hmem
      rw [hheapEq]
      rcases List.mem_append.mp hmem with hold | hnew
      · exact hT.joinLe i' cid0 e0 hold
      · rw [List.mem_singleton] at hnew
        cases hnew
    case dupsEq =>
      intro cid0
      rw [hheapEq, joinCount_snoc_other _ _ _ _ (isJoinOn_forgetL _ _ _), hT.dupsEq cid0]
    case invLe =>
      intro j
      rw [invokeCount_snoc_ne _ _ _ (fun h => Lab.noConfusion h)]
      exact hT.invLe j
    case invZero =>
      intro j t htj hpre
      rw [invokeCount_snoc_ne _ _ _ (fun h => Lab.noConfusion h)]
      rcases tset_cases htj with ⟨rfl, rfl⟩ | ⟨hne, htj'⟩
      · exact hT.invZero j _ ht trivial
      · exact hT.invZero j t htj' hpre
    case invNone =>
      intro j hj
      have hne : j ≠ i := by
        intro h; rw [h] at hj
        rw [show (forgetMissCfg c i k ce).threads i = some _
          from tset_same] at hj
        cases hj
      rw [invokeCount_snoc_ne _ _ _ (fun h => Lab.noConfusion h)]
      apply hT.invNone
      rwa [show (forgetMissCfg c i k ce).threads j = c.threads j
        from tset_other hne] at hj
    case invOne =>
      intro j t htj hnpre
      rw [invokeCount_snoc_ne _ _ _ (fun h => Lab.noConfusion h)]
      rcases tset_cases htj with ⟨rfl, rfl⟩ | ⟨hne, htj'⟩
      · exact absurd trivial hnpre
      · exact hT.invOne j t htj' hnpre
    case shFalse =>
      intro j k' fn' ce' v' e' cid0 ep0 htj
      rw [joinCount_snoc_other _ _ _ _ (isJoinOn_forgetL _ _ _)]
      rcases tset_cases htj with ⟨rfl, hEq⟩ | ⟨hne, htj'⟩
      · injection hEq with h1 h2 h3
        exact Op.noConfusion h1
      · exact hT.shFalse j k' fn' ce' v' e' cid0 ep0 htj'
    case shTrue =>
      intro j k' fn' ce' v' e' cid0 ep0 htj
      rw [joinCount_snoc_other _ _ _ _ (isJoinOn_forgetL _ _ _)]
      rcases tset_cases htj with ⟨rfl, hEq⟩ | ⟨hne, htj'⟩
      · injection hEq with h1 h2 h3
        exact Op.noConfusion h1
      · exact hT.shTrue j k' fn' ce' v' e' cid0 ep0 htj'

/-- Both invariants hold along any trace from an initial configuration. -/
theorem trace_trinv {b : Bool} {ops : List (Op K V E P S × E)} {ls : List Lab}
    {c : Config K V E P S} (h : Trace (initConfig b ops) ls c) :
    Inv c ∧ TrInv ls c := by
  induction h with
  | refl => exact ⟨inv_init b ops, trinv_init b ops⟩
  | snoc h hs ih => exact ⟨step_inv hs ih.1, step_trinv ih.1 ih.2 hs⟩

end Counting

section Examples

/-- Batch A: two `Do` calls on key 0 (`fn` returns `(7, nil)`); thread 0
leads, thread 1 joins and later observes completion. -/
def opsA : List (Op Nat Nat Nat Nat Nat × Nat) :=
  [(.doOp 0 (.ok 7 none), 5), (.doOp 0 (.ok 9 none), 6)]

def cA0 : Config Nat Nat Nat Nat Nat := initConfig true opsA

def cA1 : Config Nat Nat Nat Nat Nat := leadFreshCfg cA0 0 0 (.ok 7 none) 5

def cA2 : Config Nat Nat Nat Nat Nat := joinCfg cA1 1 0 (.ok 9 none) 6 0

def cA3 : Config Nat Nat Nat Nat Nat := invokeOkCfg cA2 0 0 7 none 5 0 1

def cA4 : Config Nat Nat Nat Nat Nat := cleanupCfg cA3 0 0 (.ok 7 none) 5 0 1

def cA5 : Config Nat Nat Nat Nat Nat := finishCfg cA4 0 0 (.ok 7 none) 5 0 1

def cA6 : Config Nat Nat Nat Nat Nat := observeCfg cA5 1 0 (.ok 9 none) 6 0 1

def lsA3 : List Lab := [.leadL 0 0, .joinL 1 0 1, .invokeL 0]

def lsA4 : List Lab := [.leadL 0 0, .joinL 1 0 1, .invokeL 0, .cleanupL 0]

def lsA : List Lab :=
  [.leadL 0 0, .joinL 1 0 1, .invokeL 0, .cleanupL 0, .finishL 0, .observeL 1]

theorem trA3 : Trace cA0 lsA3 cA3 :=
  Trace.snoc (Trace.snoc (Trace.snoc (Trace.refl cA0)
    (Step.leadFresh cA0 0 0 (.ok 7 none) 5 rfl rfl rfl))
    (Step.join cA1 1 0 (.ok 9 none) 6 0 rfl rfl))
    (Step.invokeOk cA2 0 0 7 none 5 0 1 rfl)

theorem trA4 : Trace cA0 lsA4 cA4 :=
  Trace.snoc trA3 (Step.cleanup cA3 0 0 (.ok 7 none) 5 0 1 rfl)

theorem trA : Trace cA0 lsA cA6 :=
  Trace.snoc (Trace.snoc trA4 (Step.finish cA4 0 0 (.ok 7 none) 5 0 1 rfl))
    (Step.observe cA5 1 0 (.ok 9 none) 6 0 1 rfl rfl)

/-- Batch B: like batch A but `fn` panics with payload 3 and stack
snapshot 4. -/
def opsB : List (Op Nat Nat Nat Nat Nat × Nat) :=
  [(.doOp 0 (.panics 3 4), 5), (.doOp 0 (.ok 9 none), 6)]

def cB0 : Config Nat Nat Nat Nat Nat := initConfig true opsB

def cB1 : Config Nat Nat Nat Nat Nat := leadFreshCfg cB0 0 0 (.panics 3 4) 5

def cB2 : Config Nat Nat Nat Nat Nat := joinCfg cB1 1 0 (.ok 9 none) 6 0

def cB3 : Config Nat Nat Nat Nat Nat := invokePanicCfg cB2 0 0 3 4 5 0 1

def cB4 : Config Nat Nat Nat Nat Nat := cleanupCfg cB3 0 0 (.panics 3 4) 5 0 1

def cB5 : Config Nat Nat Nat Nat Nat := finishCfg cB4 0 0 (.panics 3 4) 5 0 1

def cB6 : Config Nat Nat Nat Nat Nat := observeCfg cB5 1 0 (.ok 9 none) 6 0 1

def lsB : List Lab :=
  [.leadL 0 0, .joinL 1 0 1, .invokeL 0, .cleanupL 0, .finishL 0, .observeL 1]

theorem trB : Trace cB0 lsB cB6 :=
  Trace.snoc (Trace.snoc (Trace.snoc (Trace.snoc (Trace.snoc (Trace.snoc
    (Trace.refl cB0)
    (Step.leadFresh cB0 0 0 (.panics 3 4) 5 rfl rfl rfl))
    (Step.join cB1 1 0 (.ok 9 none) 6 0 rfl rfl))
    (Step.invokePanic cB2 0 0 3 4 5 0 1 rfl))
    (Step.cleanup cB3 0 0 (.panics 3 4) 5 0 1 rfl))
    (Step.finish cB4 0 0 (.panics 3 4) 5 0 1 rfl))
    (Step.observe cB5 1 0 (.ok 9 none) 6 0 1 rfl rfl)

/-- Batch C: a single uncontended `Do` on key 0; the record is recycled. -/
def opsC : List (Op Nat Nat Nat Nat Nat × Nat) := [(.doOp 0 (.ok 7 none), 5)]

def cC0 : Config Nat Nat Nat Nat Nat := initConfig true opsC

def cC1 : Config Nat Nat Nat Nat Nat := leadFreshCfg cC0 0 0 (.ok 7 none) 5

def cC2 : Config Nat Nat Nat Nat Nat := invokeOkCfg cC1 0 0 7 none 5 0 1

def cC3 : Config Nat Nat Nat Nat Nat := cleanupCfg cC2 0 0 (.ok 7 none) 5 0 1

def lsC : List Lab := [.leadL 0 0, .invokeL 0, .cleanupL 0]

theorem trC : Trace cC0 lsC cC3 :=
  Trace.snoc (Trace.snoc (Trace.snoc (Trace.refl cC0)
    (Step.leadFresh cC0 0 0 (.ok 7 none) 5 rfl rfl rfl))
    (Step.invokeOk cC1 0 0 7 none 5 0 1 rfl))
    (Step.cleanup cC2 0 0 (.ok 7 none) 5 0 1 rfl)

/-- Batch D: thread 0 runs `Do` on key 0, thread 1 runs `Forget 0` while the
call is in flight, thread 2 has a pending `Do` on key 1.  The forgotten
record is nevertheless recycled into the pool. -/
def opsD : List (Op Nat Nat Nat Nat Nat × Nat) :=
  [(.doOp 0 (.ok 7 none), 5), (.forgetOp 0, 6), (.doOp 1 (.ok 8 none), 7)]

def cD0 : Config Nat Nat Nat Nat Nat := initConfig true opsD

def cD1 : Config Nat Nat Nat Nat Nat := leadFreshCfg cD0 0 0 (.ok 7 none) 5

def cD2 : Config Nat Nat Nat Nat Nat := forgetHitCfg cD1 1 0 6 0

def cD3 : Config Nat Nat Nat Nat Nat := invokeOkCfg cD2 0 0 7 none 5 0 1

def cD4 : Config Nat Nat Nat Nat Nat := cleanupCfg cD3 0 0 (.ok 7 none) 5 0 1

def cD5 : Config Nat Nat Nat Nat Nat := finishCfg cD4 0 0 (.ok 7 none) 5 0 1

def lsD : List Lab :=
  [.leadL 0 0, .forgetL 1, .invokeL 0, .cleanupL 0, .finishL 0]

theorem trD : Trace cD0 lsD cD5 :=
  Trace.snoc (Trace.snoc (Trace.snoc (Trace.snoc (Trace.snoc (Trace.refl cD0)
    (Step.leadFresh cD0 0 0 (.ok 7 none) 5 rfl rfl rfl))
    (Step.forgetHit cD1 1 0 6 0 rfl rfl))
    (Step.invokeOk cD2 0 0 7 none 5 0 1 rfl))
    (Step.cleanup cD3 0 0 (.ok 7 none) 5 0 1 rfl))
    (Step.finish cD4 0 0 (.ok 7 none) 5 0 1 rfl)

/-- Batch F: one `Do` and one `Forget` against a zero-value `Group`. -/
def opsF : List (Op Nat Nat Nat Nat Nat × Nat) :=
  [(.doOp 0 (.ok 7 none), 5), (.forgetOp 1, 6)]

end Examples

section Claims

variable {K V E P S : Type} [DecidableEq K] [Inhabited V]

/-- C1: for concurrent `Do` calls on one key, `fn` runs exactly once: no
thread invokes it twice, a thread that finished as a leader invoked it
exactly once, any thread that is (or finished as) a follower never invoked
it, a follower that observed completion reports `shared = true`, and a
finished leader reports `shared = false` precisely when no follower ever
joined its call instance. -/
theorem C1_coalesce {b : Bool} {ops : List (Op K V E P S × E)} {ls : List Lab}
    {c : Config K V E P S} (h : Trace (initConfig b ops) ls c) :
    (∀ i, invokeCount ls i ≤ 1) ∧
    (∀ i k fn ce cid ep v sh e pe,
      (c.threads i = some ⟨.doOp k fn, ce, .doneRet v sh e (.leaderSrc cid ep)⟩ ∨
       c.threads i = some ⟨.doOp k fn, ce, .donePanic pe (.leaderSrc cid ep)⟩) →
      invokeCount ls i = 1) ∧
    (∀ i t cid ep, c.threads i = some t →
      (t.phase = .followerWait cid ep ∨
       (∃ v sh e, t.phase = .doneRet v sh e (.followerObsSrc cid ep)) ∨
       (∃ v sh e, t.phase = .doneRet v sh e (.followerCancelSrc cid ep)) ∨
       (∃ pe, t.phase = .donePanic pe (.followerObsSrc cid ep))) →
      invokeCount ls i = 0) ∧
    (∀ i t v sh e cid ep, c.threads i = some t →
      t.phase = .doneRet v sh e (.followerObsSrc cid ep) → sh = true) ∧
    (∀ i k fn ce v sh e cid ep,
      c.threads i = some ⟨.doOp k fn, ce, .doneRet v sh e (.leaderSrc cid ep)⟩ →
      (sh = false ↔ joinCount ls cid ep = 0)) := by
  obtain ⟨hI, hT⟩ := trace_trinv h
  refine ⟨hT.invLe, ?_, ?_, ?_, ?_⟩
  · rintro i k fn ce cid ep v sh e pe (hti | hti)
    · exact hT.invOne i _ hti (fun hp => hp)
    · exact hT.invOne i _ hti (fun hp => hp)
  · rintro i t cid ep hti (hφ | ⟨v, sh, e, hφ⟩ | ⟨v, sh, e, hφ⟩ | ⟨pe, hφ⟩) <;>
      exact hT.invZero i t hti (by rw [hφ]; trivial)
  · intro i t v sh e cid ep hti hφ
    exact (hI.fObs i t v sh e cid ep hti hφ).1
  · intro i k fn ce v sh e cid ep hti
    cases sh with
    | false =>
      exact ⟨fun _ => hT.shFalse i k fn ce v e cid ep hti, fun _ => rfl⟩
    | true =>
      refine ⟨fun hfx => Bool.noConfusion hfx, fun hcnt => ?_⟩
      have h1 := hT.shTrue i k fn ce v e cid ep hti
      rw [hcnt] at h1
      exact absurd h1 (Nat.lt_irrefl 0)

/-- C1 witness: in batch A the leader (thread 0) invoked `fn` once, the
follower (thread 1) never did, the follower reported `shared = true`, and
the leader's `shared = true` flag agrees with the one join on its call
instance. -/
theorem C1_coalesce_witness :
    invokeCount lsA 0 ≤ 1 ∧ invokeCount lsA 0 = 1 ∧ invokeCount lsA 1 = 0 ∧
    (true = true) ∧ (true = false ↔ joinCount lsA 0 1 = 0) := by
  have H := C1_coalesce trA
  exact ⟨H.1 0,
    H.2.1 0 0 (.ok 7 none) 5 0 1 7 true none (0, 0) (Or.inl rfl),
    H.2.2.1 1 ⟨.doOp 0 (.ok 9 none), 6, .doneRet 7 true none (.followerObsSrc 0 1)⟩
      0 1 rfl (Or.inr (Or.inl ⟨7, true, none, rfl⟩)),
    H.2.2.2.1 1 ⟨.doOp 0 (.ok 9 none), 6, .doneRet 7 true none (.followerObsSrc 0 1)⟩
      7 true none 0 1 rfl rfl,
    H.2.2.2.2 0 0 (.ok 7 none) 5 7 true none 0 1 rfl⟩

/-- C2: a follower that observed completion returns exactly the value and
error the single execution of `fn` produced: the leader's `fn` returned
`(v, e)` and the follower's `(v', e')` equals `(v, e)` — both read from the
same record fields the leader wrote. -/
theorem C2_shared_result {b : Bool} {ops : List (Op K V E P S × E)}
    {c : Config K V E P S} (h : Reaches (initConfig b ops) c)
    (i j : Nat) (k k' : K) (fn fn' : FnRes V E P S) (ce ce' : E)
    (v v' : V) (sh sh' : Bool) (e e' : Option E) (cid ep : Nat)
    (hl : c.threads j = some ⟨.doOp k fn, ce, .doneRet v sh e (.leaderSrc cid ep)⟩)
    (hf : c.threads i = some
      ⟨.doOp k' fn', ce', .doneRet v' sh' e' (.followerObsSrc cid ep)⟩) :
    fn = .ok v e ∧ v' = v ∧ e' = e := by
  have hI := reaches_inv h
  obtain ⟨hfn, hrest⟩ := hI.ldoneRet j k fn ce v sh e cid ep hl
  obtain ⟨hsh', hcl, hep, hv', he', hpz⟩ := hI.fObs i _ v' sh' e' cid ep hf rfl
  obtain ⟨-, -, hdone⟩ := hrest hep
  obtain ⟨-, hv, he⟩ := hdone (hI.closedDone cid hcl)
  exact ⟨hfn, by rw [hv', hv], by rw [he', he]⟩

/-- C2 witness: in batch A the leader returned `(7, nil)` and the follower
observed exactly `(7, nil)`. -/
theorem C2_shared_result_witness :
    (FnRes.ok 7 none : FnRes Nat Nat Nat Nat) = .ok 7 none ∧ (7 : Nat) = 7 ∧
    (none : Option Nat) = none :=
  C2_shared_result ⟨lsA, trA⟩ 1 0 0 0 (.ok 7 none) (.ok 9 none) 5 6
    7 7 true true none none 0 1 rfl rfl

/-- C3: a panic of `fn` is captured once into the descriptor (value, stack)
stored on the record; the leader re-raises exactly that descriptor, every
follower that observed completion re-raises the identical descriptor, and
no record involved in a panic is in the pool. -/
theorem C3_panic_propagation {b : Bool} {ops : List (Op K V E P S × E)}
    {c : Config K V E P S} (h : Reaches (initConfig b ops) c)
    (j : Nat) (k : K) (fn : FnRes V E P S) (ce : E) (pe : P × S) (cid ep : Nat)
    (hl : c.threads j = some ⟨.doOp k fn, ce, .donePanic pe (.leaderSrc cid ep)⟩) :
    fn = .panics pe.1 pe.2 ∧ (c.gs.heap cid).panicErr = some pe ∧
    cid ∉ c.gs.pool ∧
    (∀ i t pe', c.threads i = some t →
      t.phase = .donePanic pe' (.followerObsSrc cid ep) → pe' = pe) ∧
    (∀ cid0, cid0 ∈ c.gs.pool → (c.gs.heap cid0).panicErr = none) := by
  have hI := reaches_inv h
  obtain ⟨hfn, hpe, hep, hcl, hnp⟩ := hI.ldonePanic j k fn ce pe cid ep hl
  refine ⟨hfn, hpe, hnp, ?_, fun cid0 hc0 => (hI.poolClean cid0 hc0).2.2.2.2.2⟩
  intro i t pe' hti hφ
  obtain ⟨-, -, hpe'⟩ := hI.fObsPanic i t pe' cid ep hti hφ
  have h2 := hpe.symm.trans hpe'
  injection h2 with h3
  exact h3.symm

/-- C3 witness: in batch B both the leader and the follower re-raise the
descriptor `(3, 4)` that the record stores, and the pool is panic-free. -/
theorem C3_panic_propagation_witness :
    (FnRes.panics 3 4 : FnRes Nat Nat Nat Nat) =
      .panics ((3, 4) : Nat × Nat).1 ((3, 4) : Nat × Nat).2 ∧
    (cB6.gs.heap 0).panicErr = some (3, 4) ∧ 0 ∉ cB6.gs.pool ∧
    (∀ i t pe', cB6.threads i = some t →
      t.phase = .donePanic pe' (.followerObsSrc 0 1) → pe' = (3, 4)) ∧
    (∀ cid0, cid0 ∈ cB6.gs.pool → (cB6.gs.heap cid0).panicErr = none) :=
  C3_panic_propagation ⟨lsB, trB⟩ 0 0 (.panics 3 4) 5 (3, 4) 0 1 rfl

/-- C4: a waiting follower whose context resolves first returns immediately
with the zero value, `shared = true` and its own context error; the
cancellation step leaves the shared `Group` state and every other thread
(in particular the leader) untouched. -/
theorem C4_follower_cancel (c : Config K V E P S) (i : Nat) (k : K)
    (fn : FnRes V E P S) (ce : E) (cid ep : Nat)
    (ht : c.threads i = some ⟨.doOp k fn, ce, .followerWait cid ep⟩) :
    Step c (.cancelL i) (cancelCfg c i k fn ce cid ep) ∧
    (cancelCfg c i k fn ce cid ep).threads i = some
      ⟨.doOp k fn, ce, .doneRet default true (some ce) (.followerCancelSrc cid ep)⟩ ∧
    (cancelCfg c i k fn ce cid ep).gs = c.gs ∧
    (∀ j, j ≠ i → (cancelCfg c i k fn ce cid ep).threads j = c.threads j) := by
  exact ⟨Step.cancel c i k fn ce cid ep ht, tset_same, rfl, fun j hj => tset_other hj⟩

/-- C4 witness: in batch A, right after thread 1 joined, its cancellation
step is enabled and produces `(0, shared = true, some 6)` without touching
the group state or thread 0. -/
theorem C4_follower_cancel_witness :
    Step cA2 (.cancelL 1) (cancelCfg cA2 1 0 (.ok 9 none) 6 0 1) ∧
    (cancelCfg cA2 1 0 (.ok 9 none) 6 0 1).threads 1 = some
      ⟨.doOp 0 (.ok 9 none), 6, .doneRet default true (some 6) (.followerCancelSrc 0 1)⟩ ∧
    (cancelCfg cA2 1 0 (.ok 9 none) 6 0 1).gs = cA2.gs ∧
    (∀ j, j ≠ 1 → (cancelCfg cA2 1 0 (.ok 9 none) 6 0 1).threads j = cA2.threads j) :=
  C4_follower_cancel cA2 1 0 (.ok 9 none) 6 0 1 rfl

/-- C5: a finished call's record goes to the pool iff no panic occurred,
`dups = 0` and the done channel was never created; a pooled record has its
value and error zeroed first, and in every other case the shared state is
left untouched (the record is discarded, not reused). -/
theorem C5_pool_recycle {b : Bool} {ops : List (Op K V E P S × E)}
    {c : Config K V E P S} (h : Reaches (initConfig b ops) c)
    (i : Nat) (k : K) (fn : FnRes V E P S) (ce : E) (cid ep : Nat)
    (ht : c.threads i = some ⟨.doOp k fn, ce, .leaderFinish cid ep⟩) :
    (cid ∈ (finishCfg c i k fn ce cid ep).gs.pool ↔
      ((c.gs.heap cid).panicErr = none ∧ (c.gs.heap cid).dups = 0 ∧
       (c.gs.heap cid).done = false)) ∧
    (((c.gs.heap cid).panicErr = none ∧ (c.gs.heap cid).dups = 0 ∧
       (c.gs.heap cid).done = false) →
      (finishCfg c i k fn ce cid ep).gs.pool = cid :: c.gs.pool ∧
      ((finishCfg c i k fn ce cid ep).gs.heap cid).val = default ∧
      ((finishCfg c i k fn ce cid ep).gs.heap cid).err = none) ∧
    (¬ ((c.gs.heap cid).panicErr = none ∧ (c.gs.heap cid).dups = 0 ∧
       (c.gs.heap cid).done = false) →
      (finishCfg c i k fn ce cid ep).gs = c.gs ∧
      cid ∉ (finishCfg c i k fn ce cid ep).gs.pool) := by
  have hI := reaches_inv h
  have hnotpool : cid ∉ c.gs.pool := fun hmem =>
    hI.poolNoRef cid i _ hmem ht ⟨ep, Or.inr (Or.inr (Or.inr rfl))⟩
  by_cases hco : (c.gs.heap cid).panicErr = none ∧ (c.gs.heap cid).dups = 0 ∧
      (c.gs.heap cid).done = false
  · have hcoB : (c.gs.heap cid).panicErr.isNone = true ∧
        (c.gs.heap cid).dups = 0 ∧ (c.gs.heap cid).done = false :=
      ⟨Option.isNone_iff_eq_none.mpr hco.1, hco.2.1, hco.2.2⟩
    have hpool : (finishCfg c i k fn ce cid ep).gs.pool = cid :: c.gs.pool := by
      show (if _ then _ else c.gs).pool = _
      rw [if_pos hcoB]
    have hval : ((finishCfg c i k fn ce cid ep).gs.heap cid).val = default := by
      show ((if _ then _ else c.gs).heap cid).val = _
      rw [if_pos hcoB]
      show (hset c.gs.heap cid _ cid).val = _
      rw [hset_same]
    have herr : ((finishCfg c i k fn ce cid ep).gs.heap cid).err = none := by
      show ((if _ then _ else c.gs).heap cid).err = _
      rw [if_pos hcoB]
      show (hset c.gs.heap cid _ cid).err = _
      rw [hset_same]
    refine ⟨⟨fun _ => hco, fun _ => ?_⟩, fun _ => ⟨hpool, hval, herr⟩,
      fun hn => absurd hco hn⟩
    rw [hpool]
    exact List.mem_cons_self _ _
  · have hcoB : ¬ ((c.gs.heap cid).panicErr.isNone = true ∧
        (c.gs.heap cid).dups = 0 ∧ (c.gs.heap cid).done = false) := fun hx =>
      hco ⟨Option.isNone_iff_eq_none.mp hx.1, hx.2.1, hx.2.2⟩
    have hgs : (finishCfg c i k fn ce cid ep).gs = c.gs := by
      show (if _ then _ else c.gs) = _
      rw [if_neg hcoB]
    refine ⟨⟨fun hmem => ?_, fun hc0 => absurd hc0 hco⟩,
      fun hc0 => absurd hc0 hco, fun _ => ⟨hgs, ?_⟩⟩
    · rw [hgs] at hmem
      exact absurd hmem hnotpool
    · rw [hgs]
      exact hnotpool

/-- C5 witness: in batch C the solo leader's record 0 is recycled: it ends
up at the head of the pool with value and error zeroed. -/
theorem C5_pool_recycle_witness :
    (0 ∈ (finishCfg cC3 0 0 (.ok 7 none) 5 0 1).gs.pool ↔
      ((cC3.gs.heap 0).panicErr = none ∧ (cC3.gs.heap 0).dups = 0 ∧
       (cC3.gs.heap 0).done = false)) ∧
    (((cC3.gs.heap 0).panicErr = none ∧ (cC3.gs.heap 0).dups = 0 ∧
       (cC3.gs.heap 0).done = false) →
      (finishCfg cC3 0 0 (.ok 7 none) 5 0 1).gs.pool = 0 :: cC3.gs.pool ∧
      ((finishCfg cC3 0 0 (.ok 7 none) 5 0 1).gs.heap 0).val = default ∧
      ((finishCfg cC3 0 0 (.ok 7 none) 5 0 1).gs.heap 0).err = none) ∧
    (¬ ((cC3.gs.heap 0).panicErr = none ∧ (cC3.gs.heap 0).dups = 0 ∧
       (cC3.gs.heap 0).done = false) →
      (finishCfg cC3 0 0 (.ok 7 none) 5 0 1).gs = cC3.gs ∧
      0 ∉ (finishCfg cC3 0 0 (.ok 7 none) 5 0 1).gs.pool) :=
  C5_pool_recycle ⟨lsC, trC⟩ 0 0 (.ok 7 none) 5 0 1 rfl

/-- C6 (amended): every record sitting in the pool — hence any record a
leader obtains from `pool.Get` — has no done channel, `dups = 0`, the zero
value, a nil error and no panic descriptor.  (The original claim also
promised `forgotten = false`; the counterexample shows the code does not
guarantee that.) -/
theorem C6_pool_handout_clean {b : Bool} {ops : List (Op K V E P S × E)}
    {c : Config K V E P S} (h : Reaches (initConfig b ops) c)
    (cid : Nat) (hc : cid ∈ c.gs.pool) :
    (c.gs.heap cid).done = false ∧ (c.gs.heap cid).closed = false ∧
    (c.gs.heap cid).dups = 0 ∧ (c.gs.heap cid).val = default ∧
    (c.gs.heap cid).err = none ∧ (c.gs.heap cid).panicErr = none :=
  (reaches_inv h).poolClean cid hc

/-- C6 amended-theorem witness: the pooled record of batch D is clean in
every guaranteed field. -/
theorem C6_pool_handout_clean_witness :
    (cD5.gs.heap 0).done = false ∧ (cD5.gs.heap 0).closed = false ∧
    (cD5.gs.heap 0).dups = 0 ∧ (cD5.gs.heap 0).val = default ∧
    (cD5.gs.heap 0).err = none ∧ (cD5.gs.heap 0).panicErr = none :=
  C6_pool_handout_clean ⟨lsD, trD⟩ 0 (List.mem_cons_self 0 [])

/-- C6 counterexample: in batch D a `Forget` raced the in-flight call, the
leader still recycled its record, and the reachable state `cD5` has record 0
in the pool with `forgotten = true` — while a new leader (thread 2) is
enabled to obtain exactly that record from the pool.  This refutes the
claim that a pooled record always has `forgotten = false` when handed
out: the recycle condition in `Do` checks neither `forgotten` nor resets
it before `pool.Put`. -/
theorem C6_cex_forgotten_pooled :
    Reaches (initConfig true opsD) cD5 ∧
    cD5.gs.pool = [0] ∧
    (cD5.gs.heap 0).forgotten = true ∧
    Step cD5 (Lab.leadL 2 0) (leadPoolCfg cD5 2 1 (FnRes.ok 8 none) 7 0 []) :=
  ⟨⟨lsD, trD⟩, rfl, rfl, Step.leadPool cD5 2 1 (FnRes.ok 8 none) 7 0 [] rfl rfl rfl⟩

/-- C7: a leader at its cleanup section deletes the map entry only when it
still refers to its own record: if the record is not forgotten the entry
still is its own and exactly that key is removed; if the record was
forgotten the cleanup deletes nothing.  Moreover every mapped entry refers
to the record of the current in-flight, not-forgotten call: its leader is
still in its run/cleanup section at the record's current epoch. -/
theorem C7_cleanup_scoped {b : Bool} {ops : List (Op K V E P S × E)}
    {c : Config K V E P S} (h : Reaches (initConfig b ops) c)
    (i : Nat) (k : K) (fn : FnRes V E P S) (ce : E) (cid ep : Nat)
    (ht : c.threads i = some ⟨.doOp k fn, ce, .leaderCleanup cid ep⟩) :
    ((c.gs.heap cid).forgotten = false →
      mapOf c.gs k = some cid ∧
      mapOf (cleanupCfg c i k fn ce cid ep).gs k = none ∧
      (∀ k', k' ≠ k →
        mapOf (cleanupCfg c i k fn ce cid ep).gs k' = mapOf c.gs k')) ∧
    ((c.gs.heap cid).forgotten = true →
      ∀ k', mapOf (cleanupCfg c i k fn ce cid ep).gs k' = mapOf c.gs k') ∧
    (∀ k0 cid0, mapOf c.gs k0 = some cid0 →
      (c.gs.heap cid0).forgotten = false ∧
      ∃ j, RCOwn c j k0 cid0 ((c.gs.heap cid0).epoch)) := by
  have hI := reaches_inv h
  have hmapAt : ∀ k', mapOf (cleanupCfg c i k fn ce cid ep).gs k' =
      if (c.gs.heap cid).forgotten then mapOf c.gs k'
      else (if k' = k then none else mapOf c.gs k') := by
    intro k'
    by_cases hf : (c.gs.heap cid).forgotten = true
    · rw [if_pos hf]
      show ((if (c.gs.heap cid).forgotten then c.gs.calls
          else c.gs.calls.map (fun m => mset m k none)).getD (fun _ => none)) k' = _
      rw [if_pos hf]
      rfl
    · rw [if_neg hf]
      show ((if (c.gs.heap cid).forgotten then c.gs.calls
          else c.gs.calls.map (fun m => mset m k none)).getD (fun _ => none)) k' = _
      rw [if_neg hf]
      exact getD_map_mset c.gs.calls k k'
  refine ⟨?_, ?_, fun k0 cid0 hm =>
    ⟨hI.mapForgot k0 cid0 hm, hI.mapOwner k0 cid0 hm⟩⟩
  · intro hforg
    have hnf : ¬ ((c.gs.heap cid).forgotten = true) := by
      rw [hforg]
      exact Bool.false_ne_true
    refine ⟨hI.ownerKey i k cid ep ⟨fn, ce, Or.inr ht⟩ hforg, ?_, ?_⟩
    · rw [hmapAt, if_neg hnf, if_pos rfl]
    · intro k' hk'
      rw [hmapAt, if_neg hnf, if_neg hk']
  · intro hforg k'
    rw [hmapAt, if_pos hforg]

/-- C7 witness: in batch A, at the point where thread 0 is about to run its
cleanup, the map still holds its own entry `0 ↦ record 0`; the cleanup
removes exactly that key, and every mapped entry has its live owner. -/
theorem C7_cleanup_scoped_witness :
    ((cA3.gs.heap 0).forgotten = false →
      mapOf cA3.gs 0 = some 0 ∧
      mapOf (cleanupCfg cA3 0 0 (.ok 7 none) 5 0 1).gs 0 = none ∧
      (∀ k', k' ≠ 0 →
        mapOf (cleanupCfg cA3 0 0 (.ok 7 none) 5 0 1).gs k' = mapOf cA3.gs k')) ∧
    ((cA3.gs.heap 0).forgotten = true →
      ∀ k', mapOf (cleanupCfg cA3 0 0 (.ok 7 none) 5 0 1).gs k' = mapOf cA3.gs k') ∧
    (∀ k0 cid0, mapOf cA3.gs k0 = some cid0 →
      (cA3.gs.heap cid0).forgotten = false ∧
      ∃ j, RCOwn cA3 j k0 cid0 ((cA3.gs.heap cid0).epoch)) :=
  C7_cleanup_scoped ⟨lsA3, trA3⟩ 0 0 (.ok 7 none) 5 0 1 rfl

/-- C8: from its post-cleanup position the leader's final step returns
exactly what `fn` produced: on a normal return `(v, e)` it returns
`(v, shared, e)` with `shared` true iff a follower joined the call
instance; on a panic it re-raises the captured descriptor and recycles
nothing. -/
theorem C8_leader_return {b : Bool} {ops : List (Op K V E P S × E)}
    {ls : List Lab} {c : Config K V E P S} (h : Trace (initConfig b ops) ls c)
    (i : Nat) (k : K) (fn : FnRes V E P S) (ce : E) (cid ep : Nat)
    (ht : c.threads i = some ⟨.doOp k fn, ce, .leaderFinish cid ep⟩) :
    (∀ v e, fn = .ok v e →
      (finishCfg c i k fn ce cid ep).threads i = some ⟨.doOp k fn, ce,
        .doneRet v (decide (0 < joinCount ls cid ep)) e (.leaderSrc cid ep)⟩) ∧
    (∀ p s, fn = .panics p s →
      (finishCfg c i k fn ce cid ep).threads i = some
        ⟨.doOp k fn, ce, .donePanic (p, s) (.leaderSrc cid ep)⟩ ∧
      (finishCfg c i k fn ce cid ep).gs = c.gs) := by
  obtain ⟨hI, hT⟩ := trace_trinv h
  have hout := hI.outcome i k fn ce cid ep (Or.inr ht)
  have hepi := hI.liveEpoch i cid ep ⟨_, ht, Or.inr (Or.inr rfl)⟩
  have hd : (c.gs.heap cid).dups = joinCount ls cid ep := by
    have hd0 := hT.dupsEq cid
    rw [hepi.1] at hd0
    exact hd0
  constructor
  · rintro v e rfl
    obtain ⟨hval, herr, hpz⟩ := hout
    refine Eq.trans tset_same ?_
    simp only [hpz, hval, herr, hd]
  · rintro p s rfl
    have hpz : (c.gs.heap cid).panicErr = some (p, s) := hout
    constructor
    · refine Eq.trans tset_same ?_
      simp only [hpz]
    · have hnc : ¬ ((c.gs.heap cid).panicErr.isNone = true ∧
          (c.gs.heap cid).dups = 0 ∧ (c.gs.heap cid).done = false) := by
        intro hx
        rw [hpz] at hx
        exact absurd hx.1 (by simp)
      show (if _ then _ else c.gs) = c.gs
      rw [if_neg hnc]

/-- C8 witness: in batch A the leader's final step returns `(7, shared, nil)`
with `shared` computed from the one join on its call instance. -/
theorem C8_leader_return_witness :
    (finishCfg cA4 0 0 (.ok 7 none) 5 0 1).threads 0 = some ⟨.doOp 0 (.ok 7 none), 5,
      .doneRet 7 (decide (0 < joinCount lsA4 0 1)) none (.leaderSrc 0 1)⟩ :=
  (C8_leader_return trA4 0 0 (.ok 7 none) 5 0 1 rfl).1 7 none rfl

/-- C9: `Forget k` always succeeds from its start position: with an entry
present it marks the mapped record forgotten and removes exactly that
entry immediately (pool untouched, regardless of the leader's progress);
with no entry it is a complete no-op on the group state. -/
theorem C9_forget (c : Config K V E P S) (i : Nat) (k : K) (ce : E)
    (ht : c.threads i = some ⟨.forgetOp k, ce, .start⟩) :
    (∀ cid, mapOf c.gs k = some cid →
      Step c (.forgetL i) (forgetHitCfg c i k ce cid) ∧
      mapOf (forgetHitCfg c i k ce cid).gs k = none ∧
      ((forgetHitCfg c i k ce cid).gs.heap cid).forgotten = true ∧
      (∀ k', k' ≠ k →
        mapOf (forgetHitCfg c i k ce cid).gs k' = mapOf c.gs k') ∧
      (forgetHitCfg c i k ce cid).gs.pool = c.gs.pool) ∧
    (mapOf c.gs k = none →
      Step c (.forgetL i) (forgetMissCfg c i k ce) ∧
      (forgetMissCfg c i k ce).gs.heap = c.gs.heap ∧
      (forgetMissCfg c i k ce).gs.pool = c.gs.pool ∧
      (∀ k', mapOf (forgetMissCfg c i k ce).gs k' = mapOf c.gs k')) := by
  constructor
  · intro cid hm
    refine ⟨Step.forgetHit c i k ce cid ht hm, ?_, ?_, ?_, rfl⟩
    · have h1 := getD_map_mset c.gs.calls k k
      rw [if_pos rfl] at h1
      exact h1
    · show (hset c.gs.heap cid _ cid).forgotten = true
      rw [hset_same]
    · intro k' hk'
      have h1 := getD_map_mset c.gs.calls k k'
      rw [if_neg hk'] at h1
      exact h1
  · intro hm
    refine ⟨Step.forgetMiss c i k ce ht hm, rfl, rfl, ?_⟩
    intro k'
    have h1 := getD_map_mset c.gs.calls k k'
    by_cases hk : k' = k
    · rw [if_pos hk] at h1
      rw [hk] at h1 ⊢
      show ((c.gs.calls.map (fun m => mset m k none)).getD (fun _ => none)) k =
        mapOf c.gs k
      rw [h1, hm]
    · rw [if_neg hk] at h1
      exact h1

/-- C9 witness: in batch D, with the call on key 0 in flight, thread 1's
`Forget 0` is enabled, marks record 0 forgotten and removes the entry; a
`Forget` on an unmapped key would be a no-op. -/
theorem C9_forget_witness :
    (∀ cid, mapOf cD1.gs 0 = some cid →
      Step cD1 (.forgetL 1) (forgetHitCfg cD1 1 0 6 cid) ∧
      mapOf (forgetHitCfg cD1 1 0 6 cid).gs 0 = none ∧
      ((forgetHitCfg cD1 1 0 6 cid).gs.heap cid).forgotten = true ∧
      (∀ k', k' ≠ 0 →
        mapOf (forgetHitCfg cD1 1 0 6 cid).gs k' = mapOf cD1.gs k') ∧
      (forgetHitCfg cD1 1 0 6 cid).gs.pool = cD1.gs.pool) ∧
    (mapOf cD1.gs 0 = none →
      Step cD1 (.forgetL 1) (forgetMissCfg cD1 1 0 6) ∧
      (forgetMissCfg cD1 1 0 6).gs.heap = cD1.gs.heap ∧
      (forgetMissCfg cD1 1 0 6).gs.pool = cD1.gs.pool ∧
      (∀ k', mapOf (forgetMissCfg cD1 1 0 6).gs k' = mapOf cD1.gs k')) :=
  C9_forget cD1 1 0 6 rfl

/-- C10: a zero-value `Group` (nil map) is immediately usable: its first
`Do` leads with a freshly allocated record and lazily initializes the map,
and a `Forget` against it is a safe no-op; neither operation faults on the
uninitialized state. -/
theorem C10_zero_value (ops : List (Op K V E P S × E)) (i j : Nat) (k k' : K)
    (fn : FnRes V E P S) (ce ce' : E)
    (ht : (initConfig false ops).threads i = some ⟨.doOp k fn, ce, .start⟩)
    (ht' : (initConfig false ops).threads j = some ⟨.forgetOp k', ce', .start⟩) :
    (initConfig false ops).gs.calls = none ∧
    Step (initConfig false ops) (.leadL i (initConfig false ops).gs.nextId)
      (leadFreshCfg (initConfig false ops) i k fn ce) ∧
    (∃ m, (leadFreshCfg (initConfig false ops) i k fn ce).gs.calls = some m) ∧
    mapOf (leadFreshCfg (initConfig false ops) i k fn ce).gs k =
      some (initConfig false ops).gs.nextId ∧
    Step (initConfig false ops) (.forgetL j)
      (forgetMissCfg (initConfig false ops) j k' ce') ∧
    (forgetMissCfg (initConfig false ops) j k' ce').gs.heap =
      (initConfig false ops).gs.heap ∧
    (forgetMissCfg (initConfig false ops) j k' ce').gs.pool =
      (initConfig false ops).gs.pool ∧
    (∀ k0, mapOf (forgetMissCfg (initConfig false ops) j k' ce').gs k0 =
      mapOf (initConfig false ops).gs k0) := by
  refine ⟨rfl,
    Step.leadFresh _ i k fn ce ht (init_map_none false ops k) rfl,
    ⟨_, rfl⟩, mset_same,
    Step.forgetMiss _ j k' ce' ht' (init_map_none false ops k'),
    rfl, rfl, fun k0 => rfl⟩

/-- C10 witness: batch F against a zero-value `Group`: thread 0's `Do` and
thread 1's `Forget` both proceed without faulting. -/
theorem C10_zero_value_witness :
    (initConfig false opsF).gs.calls = none ∧
    Step (initConfig false opsF) (.leadL 0 (initConfig false opsF).gs.nextId)
      (leadFreshCfg (initConfig false opsF) 0 0 (.ok 7 none) 5) ∧
    (∃ m, (leadFreshCfg (initConfig false opsF) 0 0 (.ok 7 none) 5).gs.calls = some m) ∧
    mapOf (leadFreshCfg (initConfig false opsF) 0 0 (.ok 7 none) 5).gs 0 =
      some (initConfig false opsF).gs.nextId ∧
    Step (initConfig false opsF) (.forgetL 1)
      (forgetMissCfg (initConfig false opsF) 1 1 6) ∧
    (forgetMissCfg (initConfig false opsF) 1 1 6).gs.heap =
      (initConfig false opsF).gs.heap ∧
    (forgetMissCfg (initConfig false opsF) 1 1 6).gs.pool =
      (initConfig false opsF).gs.pool ∧
    (∀ k0, mapOf (forgetMissCfg (initConfig false opsF) 1 1 6).gs k0 =
      mapOf (initConfig false opsF).gs k0) :=
  C10_zero_value opsF 0 1 0 1 (.ok 7 none) 5 6 rfl rfl

end Claims

end Singleflight
